import Mathlib

/-!
# Battleship rules engine (`BATLLE.C`)

A shallow embedding of the game-rules part of `src/c/BATLLE.C`: the board, ship placement,
attack resolution, sunk and win detection, the click handler and the bot's turn.

Modelling conventions.

* A C `int` is an `Int`; every `+` the source performs on values that are not bounded by a
  guard goes through `addInt`, 32-bit two's complement addition.
* `CellState grid[10][10]` and `Ship ships[5]` are functions on `Fin 10` and `Fin 5`.  A read or
  write whose index is computed at run time goes through `Board.cellAt`, `Board.setCell`,
  `Board.shipAt`, `Board.setShip`, which finish with `Exec.outOfBounds` when the index is outside
  the array: the C program has undefined behaviour there.
* `rand()` is a stream `rnd : Nat → Nat` of the values the calls will return; the unbounded
  retry loops take a `fuel` and finish with `Exec.outOfFuel` when it is used up.
* Rendering, fonts, textures, colours and tick counts are not modelled.
-/

namespace Battleship

/-! ## Results of running a piece of the program -/

/-- Outcome of running a piece of the program: a value, an array access outside its bounds, or a
retry loop that used up its fuel. -/
inductive Exec (α : Type) where
  | ok (a : α)
  | outOfBounds
  | outOfFuel
deriving DecidableEq, Repr

/-- Sequencing: the first outcome that is not a value ends the run. -/
def Exec.bind {α β : Type} (x : Exec α) (f : α → Exec β) : Exec β :=
  match x with
  | .ok a => f a
  | .outOfBounds => .outOfBounds
  | .outOfFuel => .outOfFuel

instance : Monad Exec where
  pure := Exec.ok
  bind := Exec.bind

/-! ## Constants and machine integers -/

/-- `#define GRID_SIZE 10` -/
abbrev GRID_SIZE : Int := 10
/-- `#define NUM_SHIPS 5` -/
abbrev NUM_SHIPS : Int := 5
/-- `#define CELL_SIZE 35` -/
abbrev CELL_SIZE : Int := 35
/-- `#define GRID_OFFSET_X 150` -/
abbrev GRID_OFFSET_X : Int := 150
/-- `#define GRID_OFFSET_Y 160` -/
abbrev GRID_OFFSET_Y : Int := 160
/-- `#define WINDOW_WIDTH 1200` -/
abbrev WINDOW_WIDTH : Int := 1200

/-- Largest value of a 32-bit `int`. -/
abbrev INT_MAX : Int := 2147483647

/-- Reduction of an integer to the 32-bit two's complement range. -/
def wrapInt (x : Int) : Int := (x + 2147483648) % 4294967296 - 2147483648

/-- Addition of two `int`s. -/
def addInt (a b : Int) : Int := wrapInt (a + b)

/-! ## Data model -/

/-- `typedef enum { WATER = '~', SHIP = 'S', HIT = 'H', MISS = 'M' } CellState;` -/
inductive CellState where
  | WATER
  | SHIP
  | HIT
  | MISS
deriving DecidableEq, Repr

/-- `typedef struct { int size; char name[20]; int hitCount; int isSunk; int startRow;
int startCol; int isHorizontal; } Ship;` -/
structure Ship where
  size : Int
  name : String
  hitCount : Int
  isSunk : Int
  startRow : Int
  startCol : Int
  isHorizontal : Int
deriving DecidableEq, Repr

/-- `typedef struct { CellState grid[GRID_SIZE][GRID_SIZE]; Ship ships[NUM_SHIPS];
int numPlacedShips; } Board;` -/
structure Board where
  grid : Fin 10 → Fin 10 → CellState
  ships : Fin 5 → Ship
  numPlacedShips : Int

/-- The test `0 <= row < GRID_SIZE && 0 <= col < GRID_SIZE` (the body of `isValidCoord`). -/
def isValidCoord (row col : Int) : Int :=
  if row ≥ 0 ∧ row < GRID_SIZE ∧ col ≥ 0 ∧ col < GRID_SIZE then 1 else 0

/-- Read of `board->grid[row][col]`. -/
def Board.cellAt (b : Board) (row col : Int) : Exec CellState :=
  if h : 0 ≤ row ∧ row < 10 ∧ 0 ≤ col ∧ col < 10 then
    .ok (b.grid ⟨row.toNat, by omega⟩ ⟨col.toNat, by omega⟩)
  else .outOfBounds

/-- Write `board->grid[row][col] = v`. -/
def Board.setCell (b : Board) (row col : Int) (v : CellState) : Exec Board :=
  if h : 0 ≤ row ∧ row < 10 ∧ 0 ≤ col ∧ col < 10 then
    .ok { b with grid := fun i j =>
            if i = ⟨row.toNat, by omega⟩ ∧ j = ⟨col.toNat, by omega⟩ then v else b.grid i j }
  else .outOfBounds

/-- Read of `board->ships[i]`. -/
def Board.shipAt (b : Board) (i : Int) : Exec Ship :=
  if h : 0 ≤ i ∧ i < 5 then .ok (b.ships ⟨i.toNat, by omega⟩) else .outOfBounds

/-- Write `board->ships[i] = s` (the source assigns field by field). -/
def Board.setShip (b : Board) (i : Int) (s : Ship) : Exec Board :=
  if h : 0 ≤ i ∧ i < 5 then
    .ok { b with ships := fun k => if k = ⟨i.toNat, by omega⟩ then s else b.ships k }
  else .outOfBounds

/-- Read of `shipTemplates[i]`, the catalog being an array of `NUM_SHIPS` entries. -/
def templateAt (shipTemplates : Fin 5 → Ship) (i : Int) : Exec Ship :=
  if h : 0 ≤ i ∧ i < 5 then .ok (shipTemplates ⟨i.toNat, by omega⟩) else .outOfBounds

/-! ## Board operations -/

/-- `initBoard`: every cell becomes `WATER` and `numPlacedShips` becomes 0; the ship records are
left as they were. -/
def initBoard (board : Board) : Board :=
  { board with grid := fun _ _ => CellState.WATER, numPlacedShips := 0 }

/-- The loop `for (i = ..; i < size; i++) if (grid[..] != WATER) return 0;` of `canPlaceShip`
followed by its `return 1`, with `n` iterations left; `cellOf i` is the cell read at `i`. -/
def scanWater (b : Board) (cellOf : Int → Int × Int) : Nat → Int → Exec Int
  | 0, _ => .ok 1
  | n + 1, i =>
    match b.cellAt (cellOf i).1 (cellOf i).2 with
    | .ok c => if c ≠ CellState.WATER then .ok 0 else scanWater b cellOf n (i + 1)
    | .outOfBounds => .outOfBounds
    | .outOfFuel => .outOfFuel

/-- `canPlaceShip(board, row, col, size, horizontal)`. -/
def canPlaceShip (board : Board) (row col size horizontal : Int) : Exec Int :=
  if horizontal ≠ 0 then
    if addInt col size > GRID_SIZE then .ok 0
    else scanWater board (fun i => (row, addInt col i)) size.toNat 0
  else
    if addInt row size > GRID_SIZE then .ok 0
    else scanWater board (fun i => (addInt row i, col)) size.toNat 0

/-- Assignment to fields of `board->ships[i]`; `f` holds the assignments. -/
def Board.modifyShip (b : Board) (i : Int) (f : Ship → Ship) : Exec Board :=
  match b.shipAt i with
  | .ok s => b.setShip i (f s)
  | .outOfBounds => .outOfBounds
  | .outOfFuel => .outOfFuel

/-- The loop `for (i = ..; i < size; i++) grid[..] = SHIP;` of `placeShip`, with `n` iterations
left; `cellOf i` is the cell written at `i`. -/
def fillShip (cellOf : Int → Int × Int) : Nat → Int → Board → Exec Board
  | 0, _, b => .ok b
  | n + 1, i, b =>
    match b.setCell (cellOf i).1 (cellOf i).2 CellState.SHIP with
    | .ok b1 => fillShip cellOf n (i + 1) b1
    | .outOfBounds => .outOfBounds
    | .outOfFuel => .outOfFuel

/-- `placeShip(board, row, col, size, horizontal, shipIndex)`. -/
def placeShip (board : Board) (row col size horizontal shipIndex : Int) : Exec Board :=
  if shipIndex < 0 ∨ shipIndex ≥ NUM_SHIPS then .ok board
  else do
    let b1 ← board.modifyShip shipIndex (fun s =>
      { s with startRow := row, startCol := col, isHorizontal := horizontal,
               hitCount := 0, isSunk := 0 })
    let b2 ← (if horizontal ≠ 0 then fillShip (fun i => (row, addInt col i)) size.toNat 0 b1
              else fillShip (fun i => (addInt row i, col)) size.toNat 0 b1)
    pure { b2 with numPlacedShips := addInt b2.numPlacedShips 1 }

/-- The retry loop `while (!placed) { .. }` of `placeBotShips` for ship `i`, reading `rand()`
from position `k` of the stream; gives the board and the next position of the stream. -/
def placeBotRetry (size i : Int) (rnd : Nat → Nat) : Nat → Nat → Board → Exec (Board × Nat)
  | 0, _, _ => .outOfFuel
  | fuel + 1, k, board =>
    let row : Int := ((rnd k % 10 : Nat) : Int)
    let col : Int := ((rnd (k + 1) % 10 : Nat) : Int)
    let horizontal : Int := ((rnd (k + 2) % 2 : Nat) : Int)
    match canPlaceShip board row col size horizontal with
    | .ok r =>
      if r ≠ 0 then
        match placeShip board row col size horizontal i with
        | .ok b1 => .ok (b1, k + 3)
        | .outOfBounds => .outOfBounds
        | .outOfFuel => .outOfFuel
      else placeBotRetry size i rnd fuel (k + 3) board
    | .outOfBounds => .outOfBounds
    | .outOfFuel => .outOfFuel

/-- The loop `for (i = ..; i < NUM_SHIPS; i++) { .. }` of `placeBotShips` with `n` iterations
left. -/
def placeBotLoop (shipTemplates : Fin 5 → Ship) (rnd : Nat → Nat) (fuel : Nat) :
    Nat → Int → Nat → Board → Exec Board
  | 0, _, _, board => .ok board
  | n + 1, i, k, board => do
    let t ← templateAt shipTemplates i
    let b1 ← board.modifyShip i (fun s =>
      { s with size := t.size, name := t.name, hitCount := 0, isSunk := 0 })
    let r ← placeBotRetry t.size i rnd fuel k b1
    placeBotLoop shipTemplates rnd fuel n (i + 1) r.2 r.1

/-- `placeBotShips(board, shipTemplates)`; every retry loop may run `fuel` times. -/
def placeBotShips (board : Board) (shipTemplates : Fin 5 → Ship) (rnd : Nat → Nat)
    (fuel : Nat) : Exec Board :=
  placeBotLoop shipTemplates rnd fuel 5 0 0 board

/-- The test `isOnShip` of `checkShipSunk` for the ship record `s`. -/
def isOnShip (s : Ship) (row col : Int) : Bool :=
  if s.isHorizontal ≠ 0 then
    decide (row = s.startRow ∧ col ≥ s.startCol ∧ col < addInt s.startCol s.size)
  else
    decide (col = s.startCol ∧ row ≥ s.startRow ∧ row < addInt s.startRow s.size)

/-- The loop of `checkShipSunk` with `n` iterations left, followed by its `return -1`. -/
def checkShipSunkLoop (row col : Int) : Nat → Int → Board → Exec (Board × Int)
  | 0, _, board => .ok (board, -1)
  | n + 1, i, board =>
    match board.shipAt i with
    | .ok s =>
      if s.isSunk ≠ 0 then checkShipSunkLoop row col n (i + 1) board
      else if isOnShip s row col then
        if addInt s.hitCount 1 ≥ s.size then
          match board.setShip i { s with hitCount := addInt s.hitCount 1, isSunk := 1 } with
          | .ok b1 => .ok (b1, i)
          | .outOfBounds => .outOfBounds
          | .outOfFuel => .outOfFuel
        else
          match board.setShip i { s with hitCount := addInt s.hitCount 1 } with
          | .ok b1 => .ok (b1, -1)
          | .outOfBounds => .outOfBounds
          | .outOfFuel => .outOfFuel
      else checkShipSunkLoop row col n (i + 1) board
    | .outOfBounds => .outOfBounds
    | .outOfFuel => .outOfFuel

/-- `checkShipSunk(board, row, col)`: the board with the hit recorded, and the index of the ship
this hit sank, or -1. -/
def checkShipSunk (board : Board) (row col : Int) : Exec (Board × Int) :=
  checkShipSunkLoop row col board.numPlacedShips.toNat 0 board

/-- What `attack` leaves behind: the board, the text in `feedbackMsg` and the returned value. -/
structure AttackResult where
  board : Board
  feedbackMsg : String
  ret : Int

/-- `attack(board, row, col, feedbackMsg, msgColor)`; `feedbackMsg` is what the buffer held
before. -/
def attack (board : Board) (row col : Int) (feedbackMsg : String) : Exec AttackResult := do
  let c ← board.cellAt row col
  if c = CellState.SHIP then
    let b1 ← board.setCell row col CellState.HIT
    let r ← checkShipSunk b1 row col
    if r.2 ≥ 0 then
      let s ← r.1.shipAt r.2
      pure ⟨r.1, s.name ++ " sunk!", 1⟩
    else pure ⟨r.1, "Hit!", 1⟩
  else if c = CellState.WATER then
    let b1 ← board.setCell row col CellState.MISS
    pure ⟨b1, "Miss!", 0⟩
  else pure ⟨board, feedbackMsg, 0⟩

/-- The inner loop `for (j = ..; j < GRID_SIZE; j++)` of `allShipsSunk` on row `i`: `false` when
it met a `SHIP` cell. -/
def allShipsSunkRow (board : Board) (i : Int) : Nat → Int → Exec Bool
  | 0, _ => .ok true
  | n + 1, j =>
    match board.cellAt i j with
    | .ok c => if c = CellState.SHIP then .ok false else allShipsSunkRow board i n (j + 1)
    | .outOfBounds => .outOfBounds
    | .outOfFuel => .outOfFuel

/-- The outer loop of `allShipsSunk` with `n` rows left, followed by its `return 1`. -/
def allShipsSunkLoop (board : Board) : Nat → Int → Exec Int
  | 0, _ => .ok 1
  | n + 1, i =>
    match allShipsSunkRow board i 10 0 with
    | .ok r => if r then allShipsSunkLoop board n (i + 1) else .ok 0
    | .outOfBounds => .outOfBounds
    | .outOfFuel => .outOfFuel

/-- `allShipsSunk(board)`. -/
def allShipsSunk (board : Board) : Exec Int := allShipsSunkLoop board 10 0

/-! ## Game state, click handler and bot turn -/

/-- The rules fields of `GameState`, and of its `FeedbackMessage` the text and the active
flag. -/
structure GameState where
  currentShipIndex : Int
  isPlacingShips : Int
  isHorizontal : Int
  gameOver : Int
  playerWon : Int
  playerTurn : Int
  messageText : String
  messageActive : Int

/-- The variables of `main` that the handlers work on. -/
structure Game where
  playerBoard : Board
  botBoard : Board
  state : GameState

/-- The catalog `Ship ships[NUM_SHIPS]` of `main`; the fields it does not name start at 0. -/
def ships (i : Fin 5) : Ship :=
  if i.val = 0 then ⟨5, "Carrier", 0, 0, 0, 0, 0⟩
  else if i.val = 1 then ⟨4, "Battleship", 0, 0, 0, 0, 0⟩
  else if i.val = 2 then ⟨3, "Cruiser", 0, 0, 0, 0, 0⟩
  else if i.val = 3 then ⟨3, "Submarine", 0, 0, 0, 0, 0⟩
  else ⟨2, "Destroyer", 0, 0, 0, 0, 0⟩

/-- The assignments of `initGameState` to the rules fields (its last lines). -/
def initGameState (state : GameState) : GameState :=
  { state with currentShipIndex := 0, isPlacingShips := 1, isHorizontal := 1, gameOver := 0,
               playerWon := 0, playerTurn := 1, messageActive := 0 }

/-- `showFeedbackMessage(state, message, color)`. -/
def showFeedbackMessage (state : GameState) (message : String) : GameState :=
  { state with messageText := message, messageActive := 1 }

/-- The accepted branch of the placement click in `handleMouseClick`, up to the call of
`placeShip`: copy size and name of the template `t` into `ships[idx]`, then place. -/
def placeFromTemplate (board : Board) (t : Ship) (row col horizontal idx : Int) : Exec Board := do
  let b1 ← board.modifyShip idx (fun s => { s with size := t.size, name := t.name })
  placeShip b1 row col t.size horizontal idx

/-- `handleMouseClick(x, y, playerBoard, botBoard, state, shipTemplates)`; `rnd` and `fuel` serve
the call of `placeBotShips`. -/
def handleMouseClick (x y : Int) (g : Game) (shipTemplates : Fin 5 → Ship) (rnd : Nat → Nat)
    (fuel : Nat) : Exec Game :=
  let playerGridLeft := GRID_OFFSET_X
  let playerGridTop := GRID_OFFSET_Y
  let playerGridRight := playerGridLeft + GRID_SIZE * CELL_SIZE
  let playerGridBottom := playerGridTop + GRID_SIZE * CELL_SIZE
  let botGridLeft := WINDOW_WIDTH / 2 + 50
  let botGridTop := GRID_OFFSET_Y
  let botGridRight := botGridLeft + GRID_SIZE * CELL_SIZE
  let botGridBottom := botGridTop + GRID_SIZE * CELL_SIZE
  if x ≥ playerGridLeft ∧ x < playerGridRight ∧ y ≥ playerGridTop ∧ y < playerGridBottom
      ∧ g.state.isPlacingShips ≠ 0 then
    let gridX := (x - playerGridLeft).tdiv CELL_SIZE
    let gridY := (y - playerGridTop).tdiv CELL_SIZE
    do
      let t ← templateAt shipTemplates g.state.currentShipIndex
      let r ← canPlaceShip g.playerBoard gridY gridX t.size g.state.isHorizontal
      if r ≠ 0 then
        let pb ← placeFromTemplate g.playerBoard t gridY gridX g.state.isHorizontal
                   g.state.currentShipIndex
        let st1 := showFeedbackMessage g.state (t.name ++ " placed!")
        let st2 := { st1 with currentShipIndex := addInt st1.currentShipIndex 1 }
        if st2.currentShipIndex ≥ NUM_SHIPS then
          let st3 := { st2 with isPlacingShips := 0 }
          let bb ← placeBotShips g.botBoard shipTemplates rnd fuel
          pure ⟨pb, bb, showFeedbackMessage st3 "All ships placed! Attack the enemy fleet!"⟩
        else pure ⟨pb, g.botBoard, st2⟩
      else
        pure { g with state := showFeedbackMessage g.state "Cannot place ship there!" }
  else if x ≥ botGridLeft ∧ x < botGridRight ∧ y ≥ botGridTop ∧ y < botGridBottom
      ∧ g.state.isPlacingShips = 0 ∧ g.state.playerTurn ≠ 0 ∧ g.state.gameOver = 0 then
    let gridX := (x - botGridLeft).tdiv CELL_SIZE
    let gridY := (y - botGridTop).tdiv CELL_SIZE
    do
      let cell ← g.botBoard.cellAt gridY gridX
      if cell ≠ CellState.HIT ∧ cell ≠ CellState.MISS then
        let a ← attack g.botBoard gridY gridX ""
        if a.ret ≠ 0 then
          let st1 := showFeedbackMessage g.state a.feedbackMsg
          let sunk ← allShipsSunk a.board
          if sunk ≠ 0 then
            let st2 := { st1 with gameOver := 1, playerWon := 1 }
            pure ⟨g.playerBoard, a.board,
              showFeedbackMessage st2 "You Win! All enemy ships sunk!"⟩
          else pure ⟨g.playerBoard, a.board, st1⟩
        else
          let st1 := showFeedbackMessage g.state a.feedbackMsg
          pure ⟨g.playerBoard, a.board, { st1 with playerTurn := 0 }⟩
      else
        pure { g with state := showFeedbackMessage g.state "Already attacked there!" }
  else .ok g

/-- The loop `do { row = rand() % GRID_SIZE; col = rand() % GRID_SIZE; } while (..)` of
`botTurn`, reading `rand()` from position `k` of the stream. -/
def botPick (playerBoard : Board) (rnd : Nat → Nat) : Nat → Nat → Exec (Int × Int)
  | 0, _ => .outOfFuel
  | fuel + 1, k =>
    let row : Int := ((rnd k % 10 : Nat) : Int)
    let col : Int := ((rnd (k + 1) % 10 : Nat) : Int)
    match playerBoard.cellAt row col with
    | .ok c =>
      if c = CellState.HIT ∨ c = CellState.MISS then botPick playerBoard rnd fuel (k + 2)
      else .ok (row, col)
    | .outOfBounds => .outOfBounds
    | .outOfFuel => .outOfFuel

/-- The text `sprintf(coordStr, "%c%d", 'A' + col, row + 1)`. -/
def coordStr (row col : Int) : String :=
  String.singleton (Char.ofNat (65 + col.toNat)) ++ toString (row + 1)

/-- `botTurn(playerBoard, state)`; the `SDL_Delay` is not modelled. -/
def botTurn (g : Game) (rnd : Nat → Nat) (fuel : Nat) : Exec Game :=
  if g.state.playerTurn = 0 ∧ g.state.gameOver = 0 then do
    let p ← botPick g.playerBoard rnd fuel 0
    let a ← attack g.playerBoard p.1 p.2 ""
    let botMessage := "Enemy attacks " ++ coordStr p.1 p.2 ++ " - " ++ a.feedbackMsg
    if a.ret ≠ 0 then
      let st1 := showFeedbackMessage g.state botMessage
      let sunk ← allShipsSunk a.board
      if sunk ≠ 0 then
        let st2 := { st1 with gameOver := 1, playerWon := 0 }
        pure ⟨a.board, g.botBoard, showFeedbackMessage st2 "You Lose! All your ships sunk!"⟩
      else pure ⟨a.board, g.botBoard, st1⟩
    else
      let st1 := showFeedbackMessage g.state botMessage
      pure ⟨a.board, g.botBoard, { st1 with playerTurn := 1 }⟩
  else .ok g

/-- The state `main` enters its loop with: both boards through `initBoard`, the state through
`initGameState`; `pb`, `bb`, `st` are what the uninitialised variables held. -/
def startGame (pb bb : Board) (st : GameState) : Game :=
  ⟨initBoard pb, initBoard bb, initGameState st⟩

/-- One thing the loop of `main` does to the game: a left click, the space key during placement,
the bot's turn, or `render` switching an expired message off. -/
inductive Step : Game → Game → Prop where
  | click (g g1 : Game) (x y : Int) (rnd : Nat → Nat) (fuel : Nat) :
      handleMouseClick x y g ships rnd fuel = .ok g1 → Step g g1
  | space (g : Game) : g.state.isPlacingShips ≠ 0 →
      Step g { g with state := { g.state with
        isHorizontal := if g.state.isHorizontal ≠ 0 then 0 else 1 } }
  | bot (g g1 : Game) (rnd : Nat → Nat) (fuel : Nat) :
      botTurn g rnd fuel = .ok g1 → Step g g1
  | expire (g : Game) : Step g { g with state := { g.state with messageActive := 0 } }

/-- The game states `main` can be in. -/
inductive Reachable : Game → Prop where
  | start (pb bb : Board) (st : GameState) : Reachable (startGame pb bb st)
  | step (g g1 : Game) : Reachable g → Step g g1 → Reachable g1

/-! ## Notions the properties are stated with -/

/-- The `i`-th cell of the footprint of a ship anchored at `(row, col)`: `i` cells to the right
of the anchor when horizontal, `i` cells below it when vertical. -/
def footprintCell (row col horizontal : Int) (i : Int) : Int × Int :=
  if horizontal ≠ 0 then (row, col + i) else (row + i, col)

/-- The coordinate lies on the 10x10 grid. -/
def InGrid (row col : Int) : Prop := 0 ≤ row ∧ row < 10 ∧ 0 ≤ col ∧ col < 10

instance (row col : Int) : Decidable (InGrid row col) := by
  unfold InGrid; infer_instance

/-- Two ship records that differ at most in `hitCount` and `isSunk`. -/
def Ship.SameIdentity (s t : Ship) : Prop :=
  t.size = s.size ∧ t.name = s.name ∧ t.startRow = s.startRow ∧ t.startCol = s.startCol ∧
    t.isHorizontal = s.isHorizontal

/-- The board after attacking the coordinate `(row, col)` `n` times in a row. -/
def attackTimes (row col : Int) : Nat → Board → Exec Board
  | 0, b => .ok b
  | n + 1, b =>
    match attack b row col "" with
    | .ok a => attackTimes row col n a.board
    | .outOfBounds => .outOfBounds
    | .outOfFuel => .outOfFuel

/-- An empty board: `initBoard` on a board whose ship records hold the catalog. -/
def emptyBoard : Board := initBoard ⟨fun _ _ => CellState.HIT, ships, 7⟩

/-- The value of a run that finished, and `d` for one that did not. -/
def Exec.getD {α : Type} (x : Exec α) (d : α) : α :=
  match x with
  | .ok a => a
  | .outOfBounds => d
  | .outOfFuel => d

/-- The empty board with the Carrier placed horizontally at (0,0) the way a click places it. -/
def carrierBoard : Board :=
  (placeFromTemplate emptyBoard (ships 0) 0 0 1 0).getD emptyBoard

/-- A game at the start of `main`'s loop. -/
def newGame : Game := startGame emptyBoard emptyBoard ⟨3, 0, 0, 1, 1, 0, "", 1⟩

/-- The board with the record of ship `k` replaced by `s`. -/
def Board.withShip (b : Board) (k : Fin 5) (s : Ship) : Board :=
  { b with ships := fun j => if j = k then s else b.ships j }

/-- The `i`-th cell of the footprint a ship record describes. -/
def Ship.cell (s : Ship) (i : Int) : Int × Int :=
  footprintCell s.startRow s.startCol s.isHorizontal i

/-- The coordinate is one of the `size` cells of the footprint the ship record describes. -/
def Ship.Covers (s : Ship) (row col : Int) : Prop :=
  ∃ i : Int, 0 ≤ i ∧ i < s.size ∧ s.cell i = (row, col)

/-- Number of cells of the footprint of `s` that are `HIT` on the board. -/
def Board.hitsOn (b : Board) (s : Ship) : Nat :=
  (List.range s.size.toNat).countP
    (fun i : Nat => decide (b.cellAt (s.cell (i : Int)).1 (s.cell (i : Int)).2 = .ok CellState.HIT))

/-- The ship with index `k` has been placed on the board. -/
def Board.Placed (b : Board) (k : Fin 5) : Prop := (k.val : Int) < b.numPlacedShips

instance (b : Board) (k : Fin 5) : Decidable (b.Placed k) := by
  unfold Board.Placed; infer_instance

/-- The boards reached from `initBoard` by placements that `canPlaceShip` accepts, made in catalog
order with the catalog's length and name recorded, and by attacks inside the grid. -/
inductive Board.Reachable : Board → Prop where
  | init (b0 : Board) : Board.Reachable (initBoard b0)
  | place (b b1 : Board) (k : Fin 5) (row col horizontal : Int) :
      Board.Reachable b → (k.val : Int) = b.numPlacedShips → InGrid row col →
      canPlaceShip b row col (Battleship.ships k).size horizontal = .ok 1 →
      placeFromTemplate b (Battleship.ships k) row col horizontal b.numPlacedShips = .ok b1 →
      Board.Reachable b1
  | attack (b : Board) (row col : Int) (msg : String) (a : AttackResult) :
      Board.Reachable b → InGrid row col → attack b row col msg = .ok a →
      Board.Reachable a.board

/-- What holds of every reachable board: the placed ships carry the catalog's lengths and names,
their footprints hold `SHIP` or `HIT`, do not overlap and are the only cells that do, `hitCount`
counts the `HIT` cells of the footprint, and `isSunk` is set exactly when all of them are. -/
structure Board.Inv (b : Board) : Prop where
  count : 0 ≤ b.numPlacedShips ∧ b.numPlacedShips ≤ 5
  catalog : ∀ k, b.Placed k →
    (b.ships k).size = (Battleship.ships k).size ∧ (b.ships k).name = (Battleship.ships k).name
  cells : ∀ k, b.Placed k → ∀ i : Int, 0 ≤ i → i < (b.ships k).size →
    b.cellAt ((b.ships k).cell i).1 ((b.ships k).cell i).2 = .ok CellState.SHIP ∨
    b.cellAt ((b.ships k).cell i).1 ((b.ships k).cell i).2 = .ok CellState.HIT
  disjoint : ∀ k j, b.Placed k → b.Placed j → ∀ row col : Int,
    (b.ships k).Covers row col → (b.ships j).Covers row col → k = j
  covered : ∀ row col : Int,
    (b.cellAt row col = .ok CellState.SHIP ∨ b.cellAt row col = .ok CellState.HIT) →
    ∃ k, b.Placed k ∧ (b.ships k).Covers row col
  hits : ∀ k, b.Placed k → (b.ships k).hitCount = (b.hitsOn (b.ships k) : Int)
  sunk : ∀ k, b.Placed k →
    (b.ships k).isSunk = if (b.ships k).hitCount ≥ (b.ships k).size then 1 else 0

/-- The messages `attack` writes when the coordinates of the list are attacked in order, and the
board this leaves. -/
def attackAll : List (Int × Int) → Board → Exec (Board × List String)
  | [], b => .ok (b, [])
  | p :: ps, b =>
    match attack b p.1 p.2 "" with
    | .ok a =>
      match attackAll ps a.board with
      | .ok r => .ok (r.1, a.feedbackMsg :: r.2)
      | .outOfBounds => .outOfBounds
      | .outOfFuel => .outOfFuel
    | .outOfBounds => .outOfBounds
    | .outOfFuel => .outOfFuel

/-- Some cell of the grid holds `SHIP`. -/
def Board.HasShip (b : Board) : Prop := ∃ r c : Int, b.cellAt r c = .ok CellState.SHIP

/-- What holds of every state the game can be in: neither board has more than five ships placed;
during placement the game is not over, it is the human's turn, `currentShipIndex` is the number
of ships on the player's board and the bot's board is empty; in a running battle both boards
hold a `SHIP` cell; `gameOver` is 0 or 1. -/
structure Game.Inv (g : Game) : Prop where
  playerCount : g.playerBoard.numPlacedShips ≤ 5
  botCount : g.botBoard.numPlacedShips ≤ 5
  placing : g.state.isPlacingShips ≠ 0 →
    g.state.gameOver = 0 ∧ g.state.playerTurn ≠ 0 ∧
    0 ≤ g.state.currentShipIndex ∧ g.state.currentShipIndex < 5 ∧
    g.playerBoard.numPlacedShips = g.state.currentShipIndex ∧
    g.botBoard.numPlacedShips = 0
  battle : g.state.isPlacingShips = 0 → g.state.gameOver = 0 →
    g.playerBoard.HasShip ∧ g.botBoard.HasShip
  over : g.state.gameOver = 0 ∨ g.state.gameOver = 1

/-- The row or column of the grid that a click at pixel `x` maps to, for a grid that starts at
pixel `left`: `(x - left) / CELL_SIZE`. -/
def gridCoord (x left : Int) : Int := (x - left).tdiv CELL_SIZE

/-- A stream for `rand()` whose samples place ship `i` of the bot horizontally at `(i, 0)` at
the first try. -/
def rowByRow (k : Nat) : Nat :=
  if k % 3 = 0 then k / 3 else if k % 3 = 1 then 0 else 1

/-- The game after the clicks of the list, each a pixel position, in order; a click that does
not finish leaves the game as it was. -/
def playClicks : List (Int × Int) → Game → Game
  | [], g => g
  | p :: ps, g => playClicks ps ((handleMouseClick p.1 p.2 g ships rowByRow 1).getD g)

/-- The clicks that place the player's five ships horizontally in the first column of the rows
0 to 4. -/
def placementClicks : List (Int × Int) :=
  [(150, 160), (150, 195), (150, 230), (150, 265), (150, 300)]

/-- A game at the start of the battle: the player's ships and the bot's ships lie in the rows
0 to 4, from the first column on. -/
def battleGame : Game := playClicks placementClicks newGame

/-- The clicks on the seventeen cells of the bot's grid that hold its ships in `battleGame`. -/
def winningClicks : List (Int × Int) :=
  [(650, 160), (685, 160), (720, 160), (755, 160), (790, 160), (650, 195),
   (685, 195), (720, 195), (755, 195), (650, 230), (685, 230), (720, 230),
   (650, 265), (685, 265), (720, 265), (650, 300), (685, 300)]

/-- The game after the human has sunk the bot's five ships. -/
def wonGame : Game := playClicks winningClicks battleGame

/-- Number of cells of the grid that hold `v`. -/
def Board.countCells (b : Board) (v : CellState) : Nat :=
  Finset.univ.sum (fun p : Fin 10 × Fin 10 => if b.grid p.1 p.2 = v then 1 else 0)

/-- Sum of `f` over the records of the placed ships. -/
def Board.sumPlaced (b : Board) (f : Ship → Int) : Int :=
  Finset.univ.sum (fun k : Fin 5 => if b.Placed k then f (b.ships k) else 0)

/-- The two counting equalities: the `HIT` cells are as many as the hits the placed ships record,
the `SHIP` cells as many as the cells of the placed ships that are not hit yet. -/
def Board.Counts (b : Board) : Prop :=
  (b.countCells CellState.HIT : Int) = b.sumPlaced (fun s => s.hitCount) ∧
  (b.countCells CellState.SHIP : Int) = b.sumPlaced (fun s => s.size - s.hitCount)

/-- No cell of the grid has been attacked: every cell holds `WATER` or `SHIP`. -/
def Board.NoAttack (b : Board) : Prop :=
  ∀ (r c : Int) (v : CellState), b.cellAt r c = .ok v → v = CellState.WATER ∨ v = CellState.SHIP

/-- The board `placeBotShips` leaves on an empty board when `rand()` follows `rowByRow`. -/
def botFleetBoard : Board := (placeBotShips emptyBoard ships rowByRow 1).getD emptyBoard

/-- The `j`-th coordinate the loop of `botTurn` samples: `rand()` is read twice per round. -/
def botSample (rnd : Nat → Nat) (j : Nat) : Int × Int :=
  (((rnd (2 * j) % 10 : Nat) : Int), ((rnd (2 * j + 1) % 10 : Nat) : Int))

/-- The cell at the coordinate has been attacked: it holds `HIT` or `MISS`. -/
def Board.Tried (b : Board) (p : Int × Int) : Prop :=
  b.cellAt p.1 p.2 = .ok CellState.HIT ∨ b.cellAt p.1 p.2 = .ok CellState.MISS

instance (b : Board) (p : Int × Int) : Decidable (b.Tried p) := by
  unfold Board.Tried; infer_instance

/-- The game `battleGame` after the human has missed at row 5 of the bot's grid: it is the
bot's turn. -/
def botToMove : Game := playClicks [(650, 335)] battleGame

/-- What holds of the game while the human places ships: the flag is 1, it is the human's turn,
the bot's board is as `initBoard` left it, and the player's board was reached by placements only
and holds no attacked cell. -/
structure Game.PlacingInv (g : Game) : Prop where
  flag : g.state.isPlacingShips = 1
  turn : g.state.playerTurn = 1
  botEmpty : g.botBoard = initBoard g.botBoard
  player : g.playerBoard.Reachable
  fresh : g.playerBoard.NoAttack

/-- The click at pixel `(x, y)` lies on the player's grid and `canPlaceShip` accepts the ship
`k` of the catalog at the cell under it, in the orientation of the state. -/
def Game.Accepts (g : Game) (k : Fin 5) (x y : Int) : Prop :=
  (150 ≤ x ∧ x < 500) ∧ (160 ≤ y ∧ y < 510) ∧
  canPlaceShip g.playerBoard (gridCoord y 160) (gridCoord x 150) (ships k).size
    g.state.isHorizontal = .ok 1

instance (g : Game) (k : Fin 5) (x y : Int) : Decidable (g.Accepts k x y) := by
  unfold Game.Accepts; infer_instance

/-- The game after the human has placed the first four ships of the catalog. -/
def fourPlaced : Game :=
  playClicks [(150, 160), (150, 195), (150, 230), (150, 265)] newGame

/-! ## Basic facts: sequencing, machine integers, array accesses -/

@[simp] theorem Exec.ok_bind {α β : Type} (a : α) (f : α → Exec β) :
    (Exec.ok a >>= f) = f a := rfl

@[simp] theorem Exec.outOfBounds_bind {α β : Type} (f : α → Exec β) :
    ((Exec.outOfBounds : Exec α) >>= f) = Exec.outOfBounds := rfl

@[simp] theorem Exec.outOfFuel_bind {α β : Type} (f : α → Exec β) :
    ((Exec.outOfFuel : Exec α) >>= f) = Exec.outOfFuel := rfl

@[simp] theorem Exec.pure_eq {α : Type} (a : α) : (pure a : Exec α) = Exec.ok a := rfl

theorem Exec.bind_eq_ok {α β : Type} (x : Exec α) (f : α → Exec β) (b : β) :
    (x >>= f) = Exec.ok b ↔ ∃ a, x = Exec.ok a ∧ f a = Exec.ok b := by
  cases x <;> simp

theorem wrapInt_eq {x : Int} (h1 : -2147483648 ≤ x) (h2 : x ≤ 2147483647) : wrapInt x = x := by
  unfold wrapInt; omega

theorem addInt_eq {a b : Int} (h1 : -2147483648 ≤ a + b) (h2 : a + b ≤ 2147483647) :
    addInt a b = a + b := wrapInt_eq h1 h2

theorem Board.cellAt_eq_ok_iff (b : Board) (row col : Int) (c : CellState) :
    b.cellAt row col = .ok c ↔
      ∃ h : 0 ≤ row ∧ row < 10 ∧ 0 ≤ col ∧ col < 10,
        b.grid ⟨row.toNat, by omega⟩ ⟨col.toNat, by omega⟩ = c := by
  unfold Board.cellAt
  by_cases h : 0 ≤ row ∧ row < 10 ∧ 0 ≤ col ∧ col < 10
  · simp [h]
  · simp [h]

theorem Board.cellAt_inGrid {b : Board} {row col : Int} {c : CellState}
    (h : b.cellAt row col = .ok c) : InGrid row col := by
  rw [Board.cellAt_eq_ok_iff] at h
  exact h.1

theorem Board.cellAt_ok_of_inGrid (b : Board) {row col : Int} (h : InGrid row col) :
    ∃ c, b.cellAt row col = .ok c := by
  unfold InGrid at h
  exact ⟨_, by simp [Board.cellAt, h]; rfl⟩

theorem Board.cellAt_outOfBounds (b : Board) {row col : Int} (h : ¬ InGrid row col) :
    b.cellAt row col = .outOfBounds := by
  unfold InGrid at h
  simp [Board.cellAt, h]

theorem Board.cellAt_ne_outOfFuel (b : Board) (row col : Int) :
    b.cellAt row col ≠ .outOfFuel := by
  unfold Board.cellAt; split <;> simp

/-- The grid as a function of integer coordinates inside the grid. -/
theorem Board.cellAt_natCast (b : Board) (i j : Fin 10) :
    b.cellAt (i.val : Int) (j.val : Int) = .ok (b.grid i j) := by
  have hi := i.isLt
  have hj := j.isLt
  have h : 0 ≤ (i.val : Int) ∧ (i.val : Int) < 10 ∧ 0 ≤ (j.val : Int) ∧ (j.val : Int) < 10 := by
    omega
  simp [Board.cellAt, h]

theorem Board.setCell_ok (b : Board) {row col : Int} (h : InGrid row col) (v : CellState) :
    ∃ b1, b.setCell row col v = .ok b1 := by
  unfold InGrid at h
  exact ⟨_, by simp [Board.setCell, h]; rfl⟩

theorem Board.setCell_inGrid {b b1 : Board} {row col : Int} {v : CellState}
    (h : b.setCell row col v = .ok b1) : InGrid row col := by
  unfold Board.setCell at h
  by_cases hr : 0 ≤ row ∧ row < 10 ∧ 0 ≤ col ∧ col < 10
  · exact hr
  · simp [hr] at h

theorem Board.setCell_ships {b b1 : Board} {row col : Int} {v : CellState}
    (h : b.setCell row col v = .ok b1) : b1.ships = b.ships ∧ b1.numPlacedShips = b.numPlacedShips := by
  unfold Board.setCell at h
  by_cases hr : 0 ≤ row ∧ row < 10 ∧ 0 ≤ col ∧ col < 10
  · simp [hr] at h; subst h; simp
  · simp [hr] at h

theorem Board.cellAt_setCell {b b1 : Board} {row col : Int} {v : CellState}
    (h : b.setCell row col v = .ok b1) (r c : Int) :
    b1.cellAt r c = if r = row ∧ c = col then .ok v else b.cellAt r c := by
  have hin := Board.setCell_inGrid h
  unfold InGrid at hin
  unfold Board.setCell at h
  simp [hin] at h
  subst h
  by_cases hrc : 0 ≤ r ∧ r < 10 ∧ 0 ≤ c ∧ c < 10
  · simp only [Board.cellAt, hrc, and_self, dite_true, Fin.mk.injEq]
    have e1 : (r.toNat = row.toNat) ↔ r = row := by omega
    have e2 : (c.toNat = col.toNat) ↔ c = col := by omega
    simp only [e1, e2]
    split <;> rfl
  · have : ¬ (r = row ∧ c = col) := by
      rintro ⟨rfl, rfl⟩; exact hrc hin
    simp [Board.cellAt, hrc, this]

theorem Board.cellAt_setCell_same {b b1 : Board} {row col : Int} {v : CellState}
    (h : b.setCell row col v = .ok b1) : b1.cellAt row col = .ok v := by
  rw [Board.cellAt_setCell h]; simp

theorem Board.cellAt_setCell_other {b b1 : Board} {row col : Int} {v : CellState}
    (h : b.setCell row col v = .ok b1) {r c : Int} (hne : (r, c) ≠ (row, col)) :
    b1.cellAt r c = b.cellAt r c := by
  rw [Board.cellAt_setCell h]
  have : ¬ (r = row ∧ c = col) := by
    rintro ⟨rfl, rfl⟩; exact hne rfl
  simp [this]

/-- Two boards with the same cells at all integer coordinates have the same grid. -/
theorem Board.grid_ext {b b1 : Board} (h : ∀ r c : Int, b1.cellAt r c = b.cellAt r c) :
    b1.grid = b.grid := by
  funext i j
  have := h i.val j.val
  rw [Board.cellAt_natCast, Board.cellAt_natCast] at this
  exact Exec.ok.inj this

/-! ## Placement legality (`canPlaceShip`) -/

theorem scanWater_eq_one_iff (b : Board) (cellOf : Int → Int × Int) (n : Nat) (i : Int) :
    scanWater b cellOf n i = .ok 1 ↔
      ∀ j : Nat, j < n → b.cellAt (cellOf (i + j)).1 (cellOf (i + j)).2 = .ok CellState.WATER := by
  induction n generalizing i with
  | zero => simp [scanWater]
  | succ n ih =>
    unfold scanWater
    constructor
    · intro h j hj
      cases hc : b.cellAt (cellOf i).1 (cellOf i).2 with
      | ok c =>
        rw [hc] at h
        by_cases hw : c = CellState.WATER
        · subst hw
          simp only [ne_eq, not_true_eq_false, if_false] at h
          rcases Nat.eq_zero_or_pos j with rfl | hpos
          · simpa using hc
          · have := (ih (i + 1)).1 h (j - 1) (by omega)
            have e : i + 1 + ((j - 1 : Nat) : Int) = i + (j : Int) := by omega
            rwa [e] at this
        · simp [hw] at h
      | outOfBounds => rw [hc] at h; simp at h
      | outOfFuel => rw [hc] at h; simp at h
    · intro h
      have h0 := h 0 (by omega)
      simp only [Nat.cast_zero, add_zero] at h0
      rw [h0]
      simp only [ne_eq, not_true_eq_false, if_false]
      refine (ih (i + 1)).2 ?_
      intro j hj
      have := h (j + 1) (by omega)
      have e : i + ((j + 1 : Nat) : Int) = i + 1 + (j : Int) := by push_cast; omega
      rwa [e] at this

theorem scanWater_eq_zero (b : Board) (cellOf : Int → Int × Int) (n : Nat) (i : Int) (m : Nat)
    (hm : m < n)
    (hin : ∀ j : Nat, j ≤ m → InGrid (cellOf (i + j)).1 (cellOf (i + j)).2)
    (hne : b.cellAt (cellOf (i + m)).1 (cellOf (i + m)).2 ≠ .ok CellState.WATER) :
    scanWater b cellOf n i = .ok 0 := by
  induction n generalizing i m with
  | zero => omega
  | succ n ih =>
    unfold scanWater
    obtain ⟨c, hc⟩ := b.cellAt_ok_of_inGrid (by simpa using hin 0 (Nat.zero_le _))
    rw [hc]
    by_cases hw : c = CellState.WATER
    · subst hw
      simp only [ne_eq, not_true_eq_false, if_false]
      rcases Nat.eq_zero_or_pos m with rfl | hpos
      · simp only [Nat.cast_zero, add_zero] at hne
        exact absurd hc hne
      · refine ih (i + 1) (m - 1) (by omega) ?_ ?_
        · intro j hj
          have := hin (j + 1) (by omega)
          have e : i + ((j + 1 : Nat) : Int) = i + 1 + (j : Int) := by push_cast; omega
          rwa [e] at this
        · have e : i + 1 + ((m - 1 : Nat) : Int) = i + (m : Int) := by omega
          rwa [e]
    · simp [hw]

/-- The guard and loop of `canPlaceShip` along one axis: `a` is the anchor's coordinate on that
axis and `cellOf x` the cell at coordinate `x` of it. -/
theorem canPlace_axis (b : Board) (a size : Int) (ha : 0 ≤ a ∧ a < 10) (hs : 1 ≤ size)
    (cellOf : Int → Int × Int)
    (hgrid : ∀ x, InGrid (cellOf x).1 (cellOf x).2 ↔ 0 ≤ x ∧ x < 10) :
    ((if addInt a size > GRID_SIZE then Exec.ok 0
        else scanWater b (fun i => cellOf (addInt a i)) size.toNat 0) = .ok 1 ↔
      ∀ i : Int, 0 ≤ i → i < size →
        b.cellAt (cellOf (a + i)).1 (cellOf (a + i)).2 = .ok CellState.WATER) ∧
    (∀ i : Int, 0 ≤ i → i < size →
        b.cellAt (cellOf (a + i)).1 (cellOf (a + i)).2 = .ok CellState.SHIP →
      (if addInt a size > GRID_SIZE then Exec.ok 0
        else scanWater b (fun i => cellOf (addInt a i)) size.toNat 0) = .ok 0) := by
  refine ⟨⟨?_, ?_⟩, ?_⟩
  · intro h
    by_cases hg : addInt a size > GRID_SIZE
    · simp [hg] at h
    · simp only [hg, if_false] at h
      rw [scanWater_eq_one_iff] at h
      have hle : a + size ≤ 10 := by
        by_contra hlt
        have h1 := h (10 - a).toNat (by omega)
        have e : addInt a (0 + (((10 - a).toNat : Nat) : Int)) = 10 := by
          rw [addInt_eq (by omega) (by omega)]; omega
        simp only [e] at h1
        have := (hgrid 10).1 (Board.cellAt_inGrid h1)
        omega
      intro i hi0 hi
      have h1 := h i.toNat (by omega)
      have e : addInt a (0 + ((i.toNat : Nat) : Int)) = a + i := by
        rw [addInt_eq (by omega) (by omega)]; omega
      simpa only [e] using h1
  · intro h
    have hlast := (hgrid (a + (size - 1))).1 (Board.cellAt_inGrid (h (size - 1) (by omega) (by omega)))
    have hg : ¬ addInt a size > GRID_SIZE := by
      rw [addInt_eq (by omega) (by omega)]; simp only [GRID_SIZE]; omega
    simp only [hg, if_false]
    rw [scanWater_eq_one_iff]
    intro j hj
    have e : addInt a (0 + (j : Int)) = a + (j : Int) := by
      rw [addInt_eq (by omega) (by omega)]; omega
    simp only [e]
    exact h j (by omega) (by omega)
  · intro i hi0 hi hc
    by_cases hg : addInt a size > GRID_SIZE
    · simp [hg]
    · simp only [hg, if_false]
      have hcell := (hgrid (a + i)).1 (Board.cellAt_inGrid hc)
      refine scanWater_eq_zero b _ _ 0 i.toNat (by omega) ?_ ?_
      · intro j hj
        have e : addInt a (0 + (j : Int)) = a + (j : Int) := by
          rw [addInt_eq (by omega) (by omega)]; omega
        simp only [e]
        exact (hgrid _).2 (by omega)
      · have e : addInt a (0 + ((i.toNat : Nat) : Int)) = a + i := by
          rw [addInt_eq (by omega) (by omega)]; omega
        simp only [e, hc]
        simp

/-- What `canPlaceShip` decides, for an anchor inside the grid and a length of at least 1. -/
theorem canPlaceShip_footprint (board : Board) (row col size horizontal : Int)
    (hrow : 0 ≤ row ∧ row < 10) (hcol : 0 ≤ col ∧ col < 10) (hsize : 1 ≤ size) :
    (canPlaceShip board row col size horizontal = .ok 1 ↔
      ∀ i : Int, 0 ≤ i → i < size →
        board.cellAt (footprintCell row col horizontal i).1
          (footprintCell row col horizontal i).2 = .ok CellState.WATER) ∧
    (∀ bd : Board, canPlaceShip bd 0 7 4 1 = .ok 0) ∧
    (∀ i : Int, 0 ≤ i → i < size →
      board.cellAt (footprintCell row col horizontal i).1
          (footprintCell row col horizontal i).2 = .ok CellState.SHIP →
      canPlaceShip board row col size horizontal = .ok 0) := by
  have hH := canPlace_axis board col size hcol hsize (fun x => (row, x))
    (by intro x; unfold InGrid; simp only; omega)
  have hV := canPlace_axis board row size hrow hsize (fun x => (x, col))
    (by intro x; unfold InGrid; simp only; omega)
  refine ⟨?_, ?_, ?_⟩
  · by_cases hh : horizontal ≠ 0
    · simp only [canPlaceShip, footprintCell, if_pos hh]
      exact hH.1
    · simp only [canPlaceShip, footprintCell, if_neg hh]
      exact hV.1
  · intro bd
    rfl
  · by_cases hh : horizontal ≠ 0
    · simp only [canPlaceShip, footprintCell, if_pos hh]
      exact hH.2
    · simp only [canPlaceShip, footprintCell, if_neg hh]
      exact hV.2

/-- C1. For every board, every anchor inside the grid, every length `size ≥ 1` and either
orientation, `canPlaceShip` returns 1 exactly when every one of the `size` cells of the footprint
lies inside the grid and holds `WATER`; a length-4 ship placed horizontally at (0,7) is refused on
every board; and a footprint with a cell that holds a ship is refused. -/
theorem canPlaceShip_iff_footprint_water (board : Board) (row col size horizontal : Int)
    (hrow : 0 ≤ row ∧ row < 10) (hcol : 0 ≤ col ∧ col < 10) (hsize : 1 ≤ size) :
    (canPlaceShip board row col size horizontal = .ok 1 ↔
      ∀ i : Int, 0 ≤ i → i < size →
        board.cellAt (footprintCell row col horizontal i).1
          (footprintCell row col horizontal i).2 = .ok CellState.WATER) ∧
    (∀ bd : Board, canPlaceShip bd 0 7 4 1 = .ok 0) ∧
    (∀ i : Int, 0 ≤ i → i < size →
      board.cellAt (footprintCell row col horizontal i).1
          (footprintCell row col horizontal i).2 = .ok CellState.SHIP →
      canPlaceShip board row col size horizontal = .ok 0) :=
  canPlaceShip_footprint board row col size horizontal hrow hcol hsize

/-- C1 at a concrete input: the anchor (2,3), length 3, vertical, on the empty board. -/
theorem canPlaceShip_iff_footprint_water_witness :
    ((0 : Int) ≤ 2 ∧ (2 : Int) < 10) ∧ ((0 : Int) ≤ 3 ∧ (3 : Int) < 10) ∧ (1 : Int) ≤ 3 ∧
    ((canPlaceShip emptyBoard 2 3 3 0 = .ok 1 ↔
      ∀ i : Int, 0 ≤ i → i < 3 →
        emptyBoard.cellAt (footprintCell 2 3 0 i).1
          (footprintCell 2 3 0 i).2 = .ok CellState.WATER) ∧
    (∀ bd : Board, canPlaceShip bd 0 7 4 1 = .ok 0) ∧
    (∀ i : Int, 0 ≤ i → i < 3 →
      emptyBoard.cellAt (footprintCell 2 3 0 i).1
          (footprintCell 2 3 0 i).2 = .ok CellState.SHIP →
      canPlaceShip emptyBoard 2 3 3 0 = .ok 0)) :=
  ⟨by decide, by decide, by decide,
    canPlaceShip_iff_footprint_water emptyBoard 2 3 3 0
      (by decide) (by decide) (by decide)⟩

/-! ## Attack resolution (`checkShipSunk`, `attack`) -/

/-- The index `i` of an array of five as an element of `Fin 5`. -/
theorem Board.shipAt_eq (b : Board) {i : Int} (h : 0 ≤ i ∧ i < 5) :
    b.shipAt i = .ok (b.ships ⟨i.toNat, by omega⟩) := by
  simp [Board.shipAt, h]

theorem Board.setShip_eq (b : Board) {i : Int} (h : 0 ≤ i ∧ i < 5) (s : Ship) :
    b.setShip i s = .ok { b with ships := fun k =>
      if k = ⟨i.toNat, by omega⟩ then s else b.ships k } := by
  simp [Board.setShip, h]

theorem Board.modifyShip_eq (b : Board) {i : Int} (h : 0 ≤ i ∧ i < 5) (f : Ship → Ship) :
    b.modifyShip i f = .ok { b with ships := fun k =>
      if k = ⟨i.toNat, by omega⟩ then f (b.ships ⟨i.toNat, by omega⟩) else b.ships k } := by
  simp [Board.modifyShip, Board.shipAt_eq b h, Board.setShip_eq b h]

/-- What one run of the loop of `checkShipSunk` does to a board with at most five ships placed:
it finishes, leaves grid and `numPlacedShips` alone, changes at most one ship record and that one
only in `hitCount` and `isSunk`, and a non-negative result is an index of the ship array. -/
theorem checkShipSunkLoop_frame (row col : Int) (n : Nat) (i : Int) (b : Board)
    (hi : 0 ≤ i) (hn : i + n ≤ 5) :
    ∃ b1 r, checkShipSunkLoop row col n i b = .ok (b1, r) ∧
      b1.grid = b.grid ∧ b1.numPlacedShips = b.numPlacedShips ∧
      (∃ k : Fin 5, ∀ j, j ≠ k → b1.ships j = b.ships j) ∧
      (∀ j, Ship.SameIdentity (b.ships j) (b1.ships j)) ∧
      (0 ≤ r → r < 5) := by
  induction n generalizing i with
  | zero =>
    exact ⟨b, -1, rfl, rfl, rfl, ⟨0, fun _ _ => rfl⟩, fun _ => ⟨rfl, rfl, rfl, rfl, rfl⟩,
      by omega⟩
  | succ n ih =>
    have hi5 : 0 ≤ i ∧ i < 5 := by omega
    unfold checkShipSunkLoop
    rw [Board.shipAt_eq b hi5]
    simp only
    by_cases hs : (b.ships ⟨i.toNat, by omega⟩).isSunk ≠ 0
    · rw [if_pos hs]
      exact ih (i + 1) (by omega) (by push_cast at hn; omega)
    · rw [if_neg hs]
      by_cases ho : isOnShip (b.ships ⟨i.toNat, by omega⟩) row col = true
      · rw [if_pos ho]
        by_cases hc : addInt (b.ships ⟨i.toNat, by omega⟩).hitCount 1 ≥
            (b.ships ⟨i.toNat, by omega⟩).size
        · rw [if_pos hc, Board.setShip_eq b hi5]
          refine ⟨_, i, rfl, rfl, rfl, ⟨⟨i.toNat, by omega⟩, ?_⟩, ?_, by omega⟩
          · intro j hj; simp [hj]
          · intro j
            by_cases hj : j = ⟨i.toNat, by omega⟩
            · subst hj; simp [Ship.SameIdentity]
            · simp [hj, Ship.SameIdentity]
        · rw [if_neg hc, Board.setShip_eq b hi5]
          refine ⟨_, -1, rfl, rfl, rfl, ⟨⟨i.toNat, by omega⟩, ?_⟩, ?_, by omega⟩
          · intro j hj; simp [hj]
          · intro j
            by_cases hj : j = ⟨i.toNat, by omega⟩
            · subst hj; simp [Ship.SameIdentity]
            · simp [hj, Ship.SameIdentity]
      · rw [if_neg ho]
        exact ih (i + 1) (by omega) (by push_cast at hn; omega)

theorem checkShipSunk_frame (row col : Int) (b : Board) (hn : b.numPlacedShips ≤ 5) :
    ∃ b1 r, checkShipSunk b row col = .ok (b1, r) ∧
      b1.grid = b.grid ∧ b1.numPlacedShips = b.numPlacedShips ∧
      (∃ k : Fin 5, ∀ j, j ≠ k → b1.ships j = b.ships j) ∧
      (∀ j, Ship.SameIdentity (b.ships j) (b1.ships j)) ∧
      (0 ≤ r → r < 5) :=
  checkShipSunkLoop_frame row col _ 0 b (le_refl _) (by omega)

theorem Board.cellAt_congr {b b1 : Board} (h : b1.grid = b.grid) (r c : Int) :
    b1.cellAt r c = b.cellAt r c := by
  unfold Board.cellAt; rw [h]

/-- The hit branch of `attack`, with what `checkShipSunk` returned. -/
theorem attack_ship_eq (board : Board) (row col : Int) (feedbackMsg : String)
    (hn : board.numPlacedShips ≤ 5) (hc : board.cellAt row col = .ok CellState.SHIP) :
    ∃ b1 b2 r, board.setCell row col CellState.HIT = .ok b1 ∧
      checkShipSunk b1 row col = .ok (b2, r) ∧
      b2.grid = b1.grid ∧ b2.numPlacedShips = board.numPlacedShips ∧
      (∃ k : Fin 5, ∀ j, j ≠ k → b2.ships j = board.ships j) ∧
      (∀ j, Ship.SameIdentity (board.ships j) (b2.ships j)) ∧
      attack board row col feedbackMsg = .ok ⟨b2,
        if h : 0 ≤ r ∧ r < 5 then (b2.ships ⟨r.toNat, by omega⟩).name ++ " sunk!" else "Hit!",
        1⟩ ∧ (0 ≤ r → r < 5) := by
  obtain ⟨b1, hb1⟩ := board.setCell_ok (Board.cellAt_inGrid hc) CellState.HIT
  have hs := Board.setCell_ships hb1
  obtain ⟨b2, r, hck, hg, hnp, hk, hid, hr⟩ := checkShipSunk_frame row col b1 (by omega)
  refine ⟨b1, b2, r, hb1, hck, hg, by omega, ?_, ?_, ?_, hr⟩
  · rw [← hs.1]; exact hk
  · rw [← hs.1]; exact hid
  · unfold attack
    rw [hc]
    simp only [Exec.ok_bind, if_true, hb1, hck]
    by_cases h0 : r ≥ 0
    · have h5 : 0 ≤ r ∧ r < 5 := ⟨h0, hr h0⟩
      rw [dif_pos h5, if_pos h0]
      simp only [Board.shipAt_eq b2 h5, Exec.ok_bind, Exec.pure_eq]
    · have h5 : ¬ (0 ≤ r ∧ r < 5) := fun h => h0 h.1
      rw [dif_neg h5, if_neg h0]
      rfl

/-- The miss branch of `attack`. -/
theorem attack_water_eq (board : Board) (row col : Int) (feedbackMsg : String)
    (hc : board.cellAt row col = .ok CellState.WATER) :
    ∃ b1, board.setCell row col CellState.MISS = .ok b1 ∧
      attack board row col feedbackMsg = .ok ⟨b1, "Miss!", 0⟩ := by
  obtain ⟨b1, hb1⟩ := board.setCell_ok (Board.cellAt_inGrid hc) CellState.MISS
  refine ⟨b1, hb1, ?_⟩
  unfold attack
  rw [hc]
  simp [hb1]

/-- The branch of `attack` on a cell that was attacked before: nothing is written. -/
theorem attack_tried_eq (board : Board) (row col : Int) (feedbackMsg : String)
    (hc : board.cellAt row col = .ok CellState.HIT ∨ board.cellAt row col = .ok CellState.MISS) :
    attack board row col feedbackMsg = .ok ⟨board, feedbackMsg, 0⟩ := by
  unfold attack
  rcases hc with hc | hc <;> rw [hc] <;> simp

/-- What `attack` does on a `SHIP` cell and on a `WATER` cell of a board with at most five ships
placed. -/
theorem attack_frame (board : Board) (row col : Int) (feedbackMsg : String)
    (hn : board.numPlacedShips ≤ 5) :
    (board.cellAt row col = .ok CellState.SHIP →
      ∃ a, attack board row col feedbackMsg = .ok a ∧ a.ret = 1 ∧
        a.board.cellAt row col = .ok CellState.HIT ∧
        (∀ r c : Int, (r, c) ≠ (row, col) → a.board.cellAt r c = board.cellAt r c) ∧
        a.board.numPlacedShips = board.numPlacedShips ∧
        (∃ k : Fin 5, ∀ j, j ≠ k → a.board.ships j = board.ships j) ∧
        (∀ j, Ship.SameIdentity (board.ships j) (a.board.ships j))) ∧
    (board.cellAt row col = .ok CellState.WATER →
      ∃ a, attack board row col feedbackMsg = .ok a ∧ a.ret = 0 ∧
        a.board.cellAt row col = .ok CellState.MISS ∧
        (∀ r c : Int, (r, c) ≠ (row, col) → a.board.cellAt r c = board.cellAt r c) ∧
        a.board.numPlacedShips = board.numPlacedShips ∧
        a.board.ships = board.ships) := by
  constructor
  · intro hc
    obtain ⟨b1, b2, r, hb1, -, hg, hnp, hk, hid, ha, -⟩ :=
      attack_ship_eq board row col feedbackMsg hn hc
    refine ⟨_, ha, rfl, ?_, ?_, hnp, hk, hid⟩
    · show b2.cellAt row col = _
      rw [Board.cellAt_congr hg, Board.cellAt_setCell_same hb1]
    · intro r c hne
      show b2.cellAt r c = _
      rw [Board.cellAt_congr hg, Board.cellAt_setCell_other hb1 hne]
  · intro hc
    obtain ⟨b1, hb1, ha⟩ := attack_water_eq board row col feedbackMsg hc
    refine ⟨_, ha, rfl, Board.cellAt_setCell_same hb1, ?_, (Board.setCell_ships hb1).2,
      (Board.setCell_ships hb1).1⟩
    intro r c hne
    exact Board.cellAt_setCell_other hb1 hne

/-- C2. For every board (with at most five ships placed) and coordinate inside the grid: on a
`SHIP` cell `attack` returns 1 and the cell becomes `HIT`, on a `WATER` cell it returns 0 and the
cell becomes `MISS`; in both cases every other cell is unchanged; on a miss no ship record
changes; on a hit at most one ship record changes and only in `hitCount` and `isSunk`. -/
theorem attack_hit_or_miss (board : Board) (row col : Int) (feedbackMsg : String)
    (hn : board.numPlacedShips ≤ 5) :
    (board.cellAt row col = .ok CellState.SHIP →
      ∃ a, attack board row col feedbackMsg = .ok a ∧ a.ret = 1 ∧
        a.board.cellAt row col = .ok CellState.HIT ∧
        (∀ r c : Int, (r, c) ≠ (row, col) → a.board.cellAt r c = board.cellAt r c) ∧
        a.board.numPlacedShips = board.numPlacedShips ∧
        (∃ k : Fin 5, ∀ j, j ≠ k → a.board.ships j = board.ships j) ∧
        (∀ j, Ship.SameIdentity (board.ships j) (a.board.ships j))) ∧
    (board.cellAt row col = .ok CellState.WATER →
      ∃ a, attack board row col feedbackMsg = .ok a ∧ a.ret = 0 ∧
        a.board.cellAt row col = .ok CellState.MISS ∧
        (∀ r c : Int, (r, c) ≠ (row, col) → a.board.cellAt r c = board.cellAt r c) ∧
        a.board.numPlacedShips = board.numPlacedShips ∧
        a.board.ships = board.ships) :=
  attack_frame board row col feedbackMsg hn

/-- C2 at a concrete input: the cell (0,2) of the board that holds the Carrier at (0,0). -/
theorem attack_hit_or_miss_witness :
    carrierBoard.numPlacedShips ≤ 5 ∧
    ((carrierBoard.cellAt 0 2 = .ok CellState.SHIP →
      ∃ a, attack carrierBoard 0 2 "" = .ok a ∧ a.ret = 1 ∧
        a.board.cellAt 0 2 = .ok CellState.HIT ∧
        (∀ r c : Int, (r, c) ≠ (0, 2) → a.board.cellAt r c = carrierBoard.cellAt r c) ∧
        a.board.numPlacedShips = carrierBoard.numPlacedShips ∧
        (∃ k : Fin 5, ∀ j, j ≠ k → a.board.ships j = carrierBoard.ships j) ∧
        (∀ j, Ship.SameIdentity (carrierBoard.ships j) (a.board.ships j))) ∧
    (carrierBoard.cellAt 0 2 = .ok CellState.WATER →
      ∃ a, attack carrierBoard 0 2 "" = .ok a ∧ a.ret = 0 ∧
        a.board.cellAt 0 2 = .ok CellState.MISS ∧
        (∀ r c : Int, (r, c) ≠ (0, 2) → a.board.cellAt r c = carrierBoard.cellAt r c) ∧
        a.board.numPlacedShips = carrierBoard.numPlacedShips ∧
        a.board.ships = carrierBoard.ships)) :=
  ⟨by decide, attack_hit_or_miss carrierBoard 0 2 "" (by decide)⟩

theorem attackTimes_tried (row col : Int) (n : Nat) (b : Board)
    (hc : b.cellAt row col = .ok CellState.HIT ∨ b.cellAt row col = .ok CellState.MISS) :
    attackTimes row col n b = .ok b := by
  induction n with
  | zero => rfl
  | succ n ih =>
    unfold attackTimes
    rw [attack_tried_eq b row col "" hc]
    exact ih

/-- C4. For every board and coordinate inside the grid whose cell is already `HIT` or `MISS`,
`attack` changes nothing (the board it leaves is the board it was given, the buffer keeps its
text) and returns 0; and for every board with at most five ships placed, attacking a coordinate
inside the grid `n + 1` times in a row leaves the board the first attack left. -/
theorem attack_tried_no_mutation (board : Board) (row col : Int) (feedbackMsg : String)
    (hin : InGrid row col) :
    ((board.cellAt row col = .ok CellState.HIT ∨ board.cellAt row col = .ok CellState.MISS) →
      attack board row col feedbackMsg = .ok ⟨board, feedbackMsg, 0⟩) ∧
    (board.numPlacedShips ≤ 5 →
      ∃ a, attack board row col "" = .ok a ∧
        (∀ msg, attack a.board row col msg = .ok ⟨a.board, msg, 0⟩) ∧
        ∀ n, attackTimes row col (n + 1) board = .ok a.board) := by
  refine ⟨attack_tried_eq board row col feedbackMsg, ?_⟩
  intro hn
  obtain ⟨c, hc⟩ := board.cellAt_ok_of_inGrid hin
  have key : ∃ a, attack board row col "" = .ok a ∧
      (a.board.cellAt row col = .ok CellState.HIT ∨
        a.board.cellAt row col = .ok CellState.MISS) := by
    cases c with
    | WATER =>
      obtain ⟨a, ha, -, hm, -⟩ := (attack_frame board row col "" hn).2 hc
      exact ⟨a, ha, Or.inr hm⟩
    | SHIP =>
      obtain ⟨a, ha, -, hm, -⟩ := (attack_frame board row col "" hn).1 hc
      exact ⟨a, ha, Or.inl hm⟩
    | HIT => exact ⟨_, attack_tried_eq board row col "" (Or.inl hc), Or.inl hc⟩
    | MISS => exact ⟨_, attack_tried_eq board row col "" (Or.inr hc), Or.inr hc⟩
  obtain ⟨a, ha, htried⟩ := key
  refine ⟨a, ha, fun msg => attack_tried_eq a.board row col msg htried, ?_⟩
  intro n
  unfold attackTimes
  rw [ha]
  exact attackTimes_tried row col n a.board htried

/-- C4 at a concrete input: the cell (0,2) of the board that holds the Carrier at (0,0). -/
theorem attack_tried_no_mutation_witness :
    InGrid 0 2 ∧ carrierBoard.numPlacedShips ≤ 5 ∧
    ∃ a, attack carrierBoard 0 2 "" = .ok a ∧
        (∀ msg, attack a.board 0 2 msg = .ok ⟨a.board, msg, 0⟩) ∧
        ∀ n, attackTimes 0 2 (n + 1) carrierBoard = .ok a.board :=
  ⟨by decide, by decide,
    (attack_tried_no_mutation carrierBoard 0 2 "" (by decide)).2 (by decide)⟩

/-! ## Placement (`placeShip`) -/

theorem fillShip_spec (cellOf : Int → Int × Int) (n : Nat) (i : Int) (b : Board)
    (hin : ∀ j : Nat, j < n → InGrid (cellOf (i + j)).1 (cellOf (i + j)).2) :
    ∃ b1, fillShip cellOf n i b = .ok b1 ∧ b1.ships = b.ships ∧
      b1.numPlacedShips = b.numPlacedShips ∧
      (∀ j : Nat, j < n →
        b1.cellAt (cellOf (i + j)).1 (cellOf (i + j)).2 = .ok CellState.SHIP) ∧
      (∀ r c : Int, (∀ j : Nat, j < n → cellOf (i + j) ≠ (r, c)) →
        b1.cellAt r c = b.cellAt r c) := by
  induction n generalizing i b with
  | zero => exact ⟨b, rfl, rfl, rfl, fun j hj => by omega, fun _ _ _ => rfl⟩
  | succ n ih =>
    obtain ⟨b0, hb0⟩ := b.setCell_ok (by simpa using hin 0 (Nat.succ_pos _)) CellState.SHIP
    have hin1 : ∀ j : Nat, j < n →
        InGrid (cellOf (i + 1 + j)).1 (cellOf (i + 1 + j)).2 := by
      intro j hj
      have := hin (j + 1) (by omega)
      have e : i + ((j + 1 : Nat) : Int) = i + 1 + (j : Int) := by push_cast; omega
      rwa [e] at this
    obtain ⟨b1, hb1, hs, hnp, hset, hother⟩ := ih (i + 1) b0 hin1
    have hs0 := Board.setCell_ships hb0
    refine ⟨b1, ?_, by rw [hs, hs0.1], by rw [hnp, hs0.2], ?_, ?_⟩
    · unfold fillShip
      rw [hb0]
      exact hb1
    · intro j hj
      by_cases hex : ∃ j1 : Nat, j1 < n ∧ cellOf (i + 1 + j1) = cellOf (i + j)
      · obtain ⟨j1, hj1, e⟩ := hex
        rw [← e]
        exact hset j1 hj1
      · have hne : ∀ j1 : Nat, j1 < n →
            cellOf (i + 1 + j1) ≠ ((cellOf (i + j)).1, (cellOf (i + j)).2) := by
          intro j1 hj1 e
          exact hex ⟨j1, hj1, e⟩
        rw [hother _ _ hne]
        rcases Nat.eq_zero_or_pos j with rfl | hpos
        · simpa using Board.cellAt_setCell_same hb0
        · exfalso
          apply hex
          refine ⟨j - 1, by omega, ?_⟩
          congr 1
          omega
    · intro r c hne
      have h1 : ∀ j : Nat, j < n → cellOf (i + 1 + j) ≠ (r, c) := by
        intro j hj
        have := hne (j + 1) (by omega)
        have e : i + ((j + 1 : Nat) : Int) = i + 1 + (j : Int) := by push_cast; omega
        rwa [e] at this
      rw [hother r c h1]
      refine Board.cellAt_setCell_other hb0 ?_
      intro e
      have := hne 0 (Nat.succ_pos _)
      simp only [Nat.cast_zero, add_zero] at this
      exact this (by rw [e])

/-- The cells the loop of `placeShip` (and of `canPlaceShip`) visits are the footprint, as long as
the footprint lies inside the grid. -/
theorem loop_cell_eq_footprint (row col size horizontal : Int)
    (hfoot : ∀ i : Int, 0 ≤ i → i < size →
      InGrid (footprintCell row col horizontal i).1 (footprintCell row col horizontal i).2)
    (j : Nat) (hj : j < size.toNat) :
    (if horizontal ≠ 0 then (row, addInt col (0 + (j : Int)))
      else (addInt row (0 + (j : Int)), col)) = footprintCell row col horizontal j := by
  have h := hfoot j (by omega) (by omega)
  unfold footprintCell at h ⊢
  unfold InGrid at h
  by_cases hh : horizontal ≠ 0
  · simp only [if_pos hh] at h ⊢
    rw [addInt_eq (by omega) (by omega)]; simp
  · simp only [if_neg hh] at h ⊢
    rw [addInt_eq (by omega) (by omega)]; simp

/-- What `placeShip` does when the index is one of the five and the footprint lies inside the
grid. -/
theorem placeShip_spec (board : Board) (row col size horizontal idx : Int)
    (hidx : 0 ≤ idx ∧ idx < 5)
    (hfoot : ∀ i : Int, 0 ≤ i → i < size →
      InGrid (footprintCell row col horizontal i).1 (footprintCell row col horizontal i).2) :
    ∃ b1, placeShip board row col size horizontal idx = .ok b1 ∧
      (∀ i : Int, 0 ≤ i → i < size →
        b1.cellAt (footprintCell row col horizontal i).1
          (footprintCell row col horizontal i).2 = .ok CellState.SHIP) ∧
      (∀ r c : Int, (∀ i : Int, 0 ≤ i → i < size → footprintCell row col horizontal i ≠ (r, c)) →
        b1.cellAt r c = board.cellAt r c) ∧
      b1.ships = (fun k => if k = ⟨idx.toNat, by omega⟩ then
          { board.ships ⟨idx.toNat, by omega⟩ with
            startRow := row, startCol := col, isHorizontal := horizontal,
            hitCount := 0, isSunk := 0 }
        else board.ships k) ∧
      b1.numPlacedShips = addInt board.numPlacedShips 1 := by
  have hg : ¬ (idx < 0 ∨ idx ≥ NUM_SHIPS) := by simp only [NUM_SHIPS]; omega
  have hfill : ∀ b0 : Board, ∃ b2,
      (if horizontal ≠ 0 then fillShip (fun i => (row, addInt col i)) size.toNat 0 b0
        else fillShip (fun i => (addInt row i, col)) size.toNat 0 b0) = .ok b2 ∧
      b2.ships = b0.ships ∧ b2.numPlacedShips = b0.numPlacedShips ∧
      (∀ i : Int, 0 ≤ i → i < size →
        b2.cellAt (footprintCell row col horizontal i).1
          (footprintCell row col horizontal i).2 = .ok CellState.SHIP) ∧
      (∀ r c : Int, (∀ i : Int, 0 ≤ i → i < size → footprintCell row col horizontal i ≠ (r, c)) →
        b2.cellAt r c = b0.cellAt r c) := by
    intro b0
    have hloop := loop_cell_eq_footprint row col size horizontal hfoot
    have hfe : (if horizontal ≠ 0 then fillShip (fun i => (row, addInt col i)) size.toNat 0 b0
        else fillShip (fun i => (addInt row i, col)) size.toNat 0 b0) =
        fillShip (fun i => if horizontal ≠ 0 then (row, addInt col i) else (addInt row i, col))
          size.toNat 0 b0 := by
      by_cases hh : horizontal ≠ 0
      · simp only [if_pos hh]
      · simp only [if_neg hh]
    rw [hfe]
    obtain ⟨b2, hb2, hs, hnp, hset, hother⟩ := fillShip_spec
      (fun i => if horizontal ≠ 0 then (row, addInt col i) else (addInt row i, col))
      size.toNat 0 b0 (by
        intro j hj
        show InGrid (if horizontal ≠ 0 then (row, addInt col (0 + (j : Int)))
            else (addInt row (0 + (j : Int)), col)).1
          (if horizontal ≠ 0 then (row, addInt col (0 + (j : Int)))
            else (addInt row (0 + (j : Int)), col)).2
        rw [hloop j hj]
        exact hfoot j (by omega) (by omega))
    refine ⟨b2, hb2, hs, hnp, ?_, ?_⟩
    · intro i hi0 hi
      have := hset i.toNat (by omega)
      beta_reduce at this
      rw [hloop i.toNat (by omega)] at this
      have e : ((i.toNat : Nat) : Int) = i := by omega
      rwa [e] at this
    · intro r c hne
      refine hother r c ?_
      intro j hj
      rw [hloop j hj]
      exact hne j (by omega) (by omega)
  unfold placeShip
  rw [if_neg hg, Board.modifyShip_eq board hidx]
  simp only [Exec.ok_bind]
  obtain ⟨b2, hb2, hs, hnp, hset, hother⟩ := hfill _
  rw [hb2]
  simp only [Exec.ok_bind, Exec.pure_eq]
  refine ⟨_, rfl, ?_, ?_, ?_, ?_⟩
  · intro i hi0 hi
    have := hset i hi0 hi
    rw [← this]
    exact Board.cellAt_congr rfl _ _
  · intro r c hne
    have := hother r c hne
    exact (Board.cellAt_congr (b := b2) rfl r c).trans
      (this.trans (Board.cellAt_congr (b := board) rfl r c))
  · simp only [hs]
  · simp only [hnp]

/-- A footprint that `canPlaceShip` accepts for an anchor inside the grid lies inside the grid and
holds `WATER`. -/
theorem footprint_of_canPlaceShip (board : Board) (row col size horizontal : Int)
    (hin : InGrid row col) (hcan : canPlaceShip board row col size horizontal = .ok 1) :
    ∀ i : Int, 0 ≤ i → i < size →
      board.cellAt (footprintCell row col horizontal i).1
        (footprintCell row col horizontal i).2 = .ok CellState.WATER := by
  intro i hi0 hi
  unfold InGrid at hin
  exact (canPlaceShip_footprint board row col size horizontal ⟨hin.1, hin.2.1⟩
    ⟨hin.2.2.1, hin.2.2.2⟩ (by omega)).1.1 hcan i hi0 hi

/-- What the accepted branch of a placement click does to the board. -/
theorem placeFromTemplate_spec (board : Board) (t : Ship) (row col horizontal idx : Int)
    (hin : InGrid row col) (hidx : 0 ≤ idx ∧ idx < 5)
    (hcan : canPlaceShip board row col t.size horizontal = .ok 1) :
    ∃ b1, placeFromTemplate board t row col horizontal idx = .ok b1 ∧
      (∀ i : Int, 0 ≤ i → i < t.size →
        b1.cellAt (footprintCell row col horizontal i).1
          (footprintCell row col horizontal i).2 = .ok CellState.SHIP) ∧
      (∀ r c : Int,
        (∀ i : Int, 0 ≤ i → i < t.size → footprintCell row col horizontal i ≠ (r, c)) →
        b1.cellAt r c = board.cellAt r c) ∧
      b1.ships ⟨idx.toNat, by omega⟩ = ⟨t.size, t.name, 0, 0, row, col, horizontal⟩ ∧
      (∀ j : Fin 5, j ≠ ⟨idx.toNat, by omega⟩ → b1.ships j = board.ships j) ∧
      b1.numPlacedShips = addInt board.numPlacedShips 1 := by
  have hfoot : ∀ i : Int, 0 ≤ i → i < t.size →
      InGrid (footprintCell row col horizontal i).1 (footprintCell row col horizontal i).2 :=
    fun i hi0 hi =>
      Board.cellAt_inGrid (footprint_of_canPlaceShip board row col t.size horizontal hin hcan i hi0 hi)
  unfold placeFromTemplate
  rw [Board.modifyShip_eq board hidx]
  simp only [Exec.ok_bind]
  obtain ⟨b1, hb1, hset, hother, hships, hnp⟩ := placeShip_spec
    { board with ships := fun k =>
        if k = ⟨idx.toNat, by omega⟩ then
          { board.ships ⟨idx.toNat, by omega⟩ with size := t.size, name := t.name }
        else board.ships k }
    row col t.size horizontal idx hidx hfoot
  refine ⟨b1, hb1, hset, ?_, ?_, ?_, hnp⟩
  · intro r c hne
    exact (hother r c hne).trans (Board.cellAt_congr (b := board) rfl r c)
  · rw [hships]; simp
  · intro j hj
    rw [hships]; simp [hj]

/-- C5. For every board (whose counter can be incremented), template ship and anchor inside the
grid for which `canPlaceShip` returns 1, the placement that follows sets the footprint cells to
`SHIP` and leaves every other cell unchanged, records in `ships[idx]` the anchor and orientation
with the template's length and name and with `hitCount = 0` and `isSunk = 0`, leaves every other
ship record unchanged, and increases `numPlacedShips` by one. -/
theorem placement_effect (board : Board) (t : Ship) (row col horizontal idx : Int)
    (hin : InGrid row col) (hidx : 0 ≤ idx ∧ idx < 5)
    (hcount : 0 ≤ board.numPlacedShips ∧ board.numPlacedShips < INT_MAX)
    (hcan : canPlaceShip board row col t.size horizontal = .ok 1) :
    ∃ b1, placeFromTemplate board t row col horizontal idx = .ok b1 ∧
      (∀ i : Int, 0 ≤ i → i < t.size →
        b1.cellAt (footprintCell row col horizontal i).1
          (footprintCell row col horizontal i).2 = .ok CellState.SHIP) ∧
      (∀ r c : Int,
        (∀ i : Int, 0 ≤ i → i < t.size → footprintCell row col horizontal i ≠ (r, c)) →
        b1.cellAt r c = board.cellAt r c) ∧
      b1.ships ⟨idx.toNat, by omega⟩ = ⟨t.size, t.name, 0, 0, row, col, horizontal⟩ ∧
      (∀ j : Fin 5, j ≠ ⟨idx.toNat, by omega⟩ → b1.ships j = board.ships j) ∧
      b1.numPlacedShips = board.numPlacedShips + 1 := by
  obtain ⟨b1, h1, h2, h3, h4, h5, h6⟩ :=
    placeFromTemplate_spec board t row col horizontal idx hin hidx hcan
  refine ⟨b1, h1, h2, h3, h4, h5, ?_⟩
  rw [h6, addInt_eq (by omega) (by simp only [INT_MAX] at hcount; omega)]

/-- C5 at a concrete input: the Battleship placed vertically at (2,3) on the board that holds
the Carrier. -/
theorem placement_effect_witness :
    InGrid 2 3 ∧ (0 ≤ (1 : Int) ∧ (1 : Int) < 5) ∧
    (0 ≤ carrierBoard.numPlacedShips ∧ carrierBoard.numPlacedShips < INT_MAX) ∧
    canPlaceShip carrierBoard 2 3 (ships 1).size 0 = .ok 1 ∧
    ∃ b1, placeFromTemplate carrierBoard (ships 1) 2 3 0 1 = .ok b1 ∧
      (∀ i : Int, 0 ≤ i → i < (ships 1).size →
        b1.cellAt (footprintCell 2 3 0 i).1 (footprintCell 2 3 0 i).2 = .ok CellState.SHIP) ∧
      (∀ r c : Int,
        (∀ i : Int, 0 ≤ i → i < (ships 1).size → footprintCell 2 3 0 i ≠ (r, c)) →
        b1.cellAt r c = carrierBoard.cellAt r c) ∧
      b1.ships 1 = ⟨(ships 1).size, (ships 1).name, 0, 0, 2, 3, 0⟩ ∧
      (∀ j : Fin 5, j ≠ 1 → b1.ships j = carrierBoard.ships j) ∧
      b1.numPlacedShips = carrierBoard.numPlacedShips + 1 :=
  ⟨by decide, by decide, by decide, by decide,
    placement_effect carrierBoard (ships 1) 2 3 0 1 (by decide) (by decide) (by decide)
      (by decide)⟩

/-! ## The click handler: placement clicks -/

theorem templateAt_eq (shipTemplates : Fin 5 → Ship) {i : Int} (h : 0 ≤ i ∧ i < 5) :
    templateAt shipTemplates i = .ok (shipTemplates ⟨i.toNat, by omega⟩) := by
  simp [templateAt, h]

/-- The branch of `handleMouseClick` for a click on the player's grid during placement. -/
theorem handleMouseClick_placing (x y : Int) (g : Game) (shipTemplates : Fin 5 → Ship)
    (rnd : Nat → Nat) (fuel : Nat)
    (hx : 150 ≤ x ∧ x < 500) (hy : 160 ≤ y ∧ y < 510) (hp : g.state.isPlacingShips ≠ 0) :
    handleMouseClick x y g shipTemplates rnd fuel =
      (do
        let t ← templateAt shipTemplates g.state.currentShipIndex
        let r ← canPlaceShip g.playerBoard ((y - GRID_OFFSET_Y).tdiv CELL_SIZE)
          ((x - GRID_OFFSET_X).tdiv CELL_SIZE) t.size g.state.isHorizontal
        if r ≠ 0 then
          let pb ← placeFromTemplate g.playerBoard t ((y - GRID_OFFSET_Y).tdiv CELL_SIZE)
            ((x - GRID_OFFSET_X).tdiv CELL_SIZE) g.state.isHorizontal g.state.currentShipIndex
          let st1 := showFeedbackMessage g.state (t.name ++ " placed!")
          let st2 := { st1 with currentShipIndex := addInt st1.currentShipIndex 1 }
          if st2.currentShipIndex ≥ NUM_SHIPS then
            let st3 := { st2 with isPlacingShips := 0 }
            let bb ← placeBotShips g.botBoard shipTemplates rnd fuel
            pure ⟨pb, bb, showFeedbackMessage st3 "All ships placed! Attack the enemy fleet!"⟩
          else pure ⟨pb, g.botBoard, st2⟩
        else
          pure { g with state := showFeedbackMessage g.state "Cannot place ship there!" }) := by
  have hc : x ≥ GRID_OFFSET_X ∧ x < GRID_OFFSET_X + GRID_SIZE * CELL_SIZE ∧ y ≥ GRID_OFFSET_Y ∧
      y < GRID_OFFSET_Y + GRID_SIZE * CELL_SIZE ∧ g.state.isPlacingShips ≠ 0 := by
    refine ⟨?_, ?_, ?_, ?_, hp⟩ <;> simp only [GRID_OFFSET_X, GRID_OFFSET_Y, GRID_SIZE, CELL_SIZE] <;> omega
  unfold handleMouseClick
  simp only [if_pos hc]

/-- The grid coordinate a click position inside a grid of 350 pixels maps to. -/
theorem click_coord_inRange (x left : Int) (h : left ≤ x ∧ x < left + 350) :
    0 ≤ (x - left).tdiv CELL_SIZE ∧ (x - left).tdiv CELL_SIZE < 10 := by
  rw [Int.tdiv_eq_ediv (by omega) (by simp only [CELL_SIZE]; omega)]
  simp only [CELL_SIZE]
  omega

/-- C6. For every game state in the placement phase and every click on the player's grid for
which `canPlaceShip` refuses the footprint, the click changes nothing in the rules state: both
boards, `currentShipIndex`, `isPlacingShips`, `isHorizontal`, `playerTurn`, `gameOver` and
`playerWon` stay as they were; only the feedback message is set. -/
theorem refused_placement_changes_nothing (x y : Int) (g : Game) (shipTemplates : Fin 5 → Ship)
    (rnd : Nat → Nat) (fuel : Nat)
    (hx : 150 ≤ x ∧ x < 500) (hy : 160 ≤ y ∧ y < 510) (hp : g.state.isPlacingShips ≠ 0)
    (hidx : 0 ≤ g.state.currentShipIndex ∧ g.state.currentShipIndex < 5)
    (hcan : canPlaceShip g.playerBoard ((y - GRID_OFFSET_Y).tdiv CELL_SIZE)
        ((x - GRID_OFFSET_X).tdiv CELL_SIZE)
        (shipTemplates ⟨g.state.currentShipIndex.toNat, by omega⟩).size
        g.state.isHorizontal = .ok 0) :
    ∃ g1, handleMouseClick x y g shipTemplates rnd fuel = .ok g1 ∧
      g1.playerBoard = g.playerBoard ∧ g1.botBoard = g.botBoard ∧
      g1.state.currentShipIndex = g.state.currentShipIndex ∧
      g1.state.isPlacingShips = g.state.isPlacingShips ∧
      g1.state.isHorizontal = g.state.isHorizontal ∧
      g1.state.playerTurn = g.state.playerTurn ∧
      g1.state.gameOver = g.state.gameOver ∧
      g1.state.playerWon = g.state.playerWon ∧
      g1.state.messageText = "Cannot place ship there!" ∧ g1.state.messageActive = 1 := by
  refine ⟨{ g with state := showFeedbackMessage g.state "Cannot place ship there!" }, ?_,
    rfl, rfl, rfl, rfl, rfl, rfl, rfl, rfl, rfl, rfl⟩
  rw [handleMouseClick_placing x y g shipTemplates rnd fuel hx hy hp, templateAt_eq _ hidx]
  simp only [Exec.ok_bind]
  rw [hcan]
  simp

/-- C6 at a concrete input: a click on the cell (0,7) of the player's grid at the start of the
game, when the Carrier is to be placed horizontally. -/
theorem refused_placement_changes_nothing_witness :
    (150 ≤ (400 : Int) ∧ (400 : Int) < 500) ∧ (160 ≤ (165 : Int) ∧ (165 : Int) < 510) ∧
    newGame.state.isPlacingShips ≠ 0 ∧
    (0 ≤ newGame.state.currentShipIndex ∧ newGame.state.currentShipIndex < 5) ∧
    canPlaceShip newGame.playerBoard (((165 : Int) - GRID_OFFSET_Y).tdiv CELL_SIZE)
        (((400 : Int) - GRID_OFFSET_X).tdiv CELL_SIZE) (ships 0).size
        newGame.state.isHorizontal = .ok 0 ∧
    ∃ g1, handleMouseClick 400 165 newGame ships (fun _ => 0) 0 = .ok g1 ∧
      g1.playerBoard = newGame.playerBoard ∧ g1.botBoard = newGame.botBoard ∧
      g1.state.currentShipIndex = newGame.state.currentShipIndex ∧
      g1.state.isPlacingShips = newGame.state.isPlacingShips ∧
      g1.state.isHorizontal = newGame.state.isHorizontal ∧
      g1.state.playerTurn = newGame.state.playerTurn ∧
      g1.state.gameOver = newGame.state.gameOver ∧
      g1.state.playerWon = newGame.state.playerWon ∧
      g1.state.messageText = "Cannot place ship there!" ∧ g1.state.messageActive = 1 :=
  ⟨by decide, by decide, by decide, by decide, by decide,
    refused_placement_changes_nothing 400 165 newGame ships (fun _ => 0) 0
      (by decide) (by decide) (by decide) (by decide) (by decide)⟩

/-! ## The board invariant -/

theorem ships_size (k : Fin 5) : 2 ≤ (ships k).size ∧ (ships k).size ≤ 5 := by
  revert k; decide

theorem fin_of_int (k : Fin 5) (h : ((k.val : Int)).toNat < 5) :
    (⟨((k.val : Int)).toNat, h⟩ : Fin 5) = k := by
  apply Fin.ext; simp

theorem Board.shipAt_fin (b : Board) (k : Fin 5) : b.shipAt (k.val : Int) = .ok (b.ships k) := by
  have hk := k.isLt
  rw [Board.shipAt_eq b (by omega)]
  simp only [fin_of_int k]

theorem Board.setShip_fin (b : Board) (k : Fin 5) (s : Ship) :
    b.setShip (k.val : Int) s =
      .ok { b with ships := fun j => if j = k then s else b.ships j } := by
  have hk := k.isLt
  rw [Board.setShip_eq b (by omega)]
  simp only [fin_of_int k]

/-- The first ship that is not sunk and whose footprint holds the coordinate is the one the loop
of `checkShipSunk` records the hit on. -/
theorem checkShipSunkLoop_found (row col : Int) (b : Board) (k0 : Fin 5)
    (hns : (b.ships k0).isSunk = 0) (hon : isOnShip (b.ships k0) row col = true)
    (hskip : ∀ j : Fin 5, j < k0 →
      (b.ships j).isSunk ≠ 0 ∨ isOnShip (b.ships j) row col = false)
    (d : Nat) (i : Int) (n : Nat) (hi : 0 ≤ i) (hd : i + d = k0.val) (hn : d < n) :
    checkShipSunkLoop row col n i b =
      if addInt (b.ships k0).hitCount 1 ≥ (b.ships k0).size then
        .ok ({ b with ships := fun j => if j = k0 then
          { b.ships k0 with hitCount := addInt (b.ships k0).hitCount 1, isSunk := 1 }
          else b.ships j }, (k0.val : Int))
      else
        .ok ({ b with ships := fun j => if j = k0 then
          { b.ships k0 with hitCount := addInt (b.ships k0).hitCount 1 }
          else b.ships j }, -1) := by
  induction d generalizing i n with
  | zero =>
    obtain ⟨n, rfl⟩ : ∃ m, n = m + 1 := ⟨n - 1, by omega⟩
    have e : i = (k0.val : Int) := by simpa using hd
    subst e
    unfold checkShipSunkLoop
    rw [Board.shipAt_fin]
    simp only [hns, ne_eq, not_true_eq_false, if_false, hon, if_true, Board.setShip_fin]
  | succ d ih =>
    obtain ⟨n, rfl⟩ : ∃ m, n = m + 1 := ⟨n - 1, by omega⟩
    have hk := k0.isLt
    have hi5 : 0 ≤ i ∧ i < 5 := by omega
    have hlt : (⟨i.toNat, by omega⟩ : Fin 5) < k0 := by
      rw [Fin.lt_def]; simp only; omega
    unfold checkShipSunkLoop
    rw [Board.shipAt_eq b hi5]
    simp only
    have hnext := ih (i + 1) n (by omega) (by push_cast at hd; omega) (by omega)
    rcases hskip _ hlt with hs | ho
    · rw [if_pos hs]; exact hnext
    · by_cases hs : (b.ships ⟨i.toNat, by omega⟩).isSunk ≠ 0
      · rw [if_pos hs]; exact hnext
      · rw [if_neg hs, ho]
        simp only [Bool.false_eq_true, if_false]
        exact hnext

/-- The test `isOnShip` of `checkShipSunk` decides membership in the recorded footprint, for a
ship record whose anchor is inside the grid and whose length is at most 10. -/
theorem isOnShip_iff_covers (s : Ship) (row col : Int)
    (hr : 0 ≤ s.startRow ∧ s.startRow < 10) (hc : 0 ≤ s.startCol ∧ s.startCol < 10)
    (hs : 0 ≤ s.size ∧ s.size ≤ 10) :
    isOnShip s row col = true ↔ s.Covers row col := by
  unfold isOnShip Ship.Covers Ship.cell footprintCell
  by_cases hh : s.isHorizontal ≠ 0
  · simp only [if_pos hh, decide_eq_true_eq, Prod.mk.injEq]
    rw [addInt_eq (by omega) (by omega)]
    constructor
    · rintro ⟨h1, h2, h3⟩
      exact ⟨col - s.startCol, by omega, by omega, by omega, by omega⟩
    · rintro ⟨i, h1, h2, h3, h4⟩
      omega
  · simp only [if_neg hh, decide_eq_true_eq, Prod.mk.injEq]
    rw [addInt_eq (by omega) (by omega)]
    constructor
    · rintro ⟨h1, h2, h3⟩
      exact ⟨row - s.startRow, by omega, by omega, by omega, by omega⟩
    · rintro ⟨i, h1, h2, h3, h4⟩
      omega

/-- The cells of a footprint are pairwise different. -/
theorem Ship.cell_inj (s : Ship) {i j : Int} (h : s.cell i = s.cell j) : i = j := by
  unfold Ship.cell footprintCell at h
  by_cases hh : s.isHorizontal ≠ 0
  · simp only [if_pos hh, Prod.mk.injEq] at h; omega
  · simp only [if_neg hh, Prod.mk.injEq] at h; omega

/-! ### Counting the `HIT` cells of a footprint -/

theorem countP_range_flip (p q : Nat → Bool) (n i0 : Nat) (hi0 : i0 < n)
    (hp : p i0 = false) (hq : q i0 = true) (hsame : ∀ i, i < n → i ≠ i0 → q i = p i) :
    (List.range n).countP q = (List.range n).countP p + 1 := by
  induction n with
  | zero => omega
  | succ n ih =>
    rw [List.range_succ, List.countP_append, List.countP_append]
    rcases Nat.lt_or_ge i0 n with hlt | hge
    · have hn : q n = p n := hsame n (by omega) (by omega)
      rw [ih hlt (fun i hi hne => hsame i (by omega) hne)]
      simp only [List.countP_cons, List.countP_nil, hn]
      omega
    · have e : i0 = n := by omega
      subst e
      have hcongr : (List.range i0).countP q = (List.range i0).countP p := by
        apply List.countP_congr
        intro x hx
        rw [List.mem_range] at hx
        rw [hsame x (by omega) (by omega)]
      rw [hcongr]
      simp [List.countP_cons, hp, hq]

theorem Board.hitsOn_congr {b b1 : Board} {s s1 : Ship} (hsize : s1.size = s.size)
    (hcell : ∀ i : Int, s1.cell i = s.cell i)
    (hsame : ∀ i : Int, 0 ≤ i → i < s.size →
      b1.cellAt (s.cell i).1 (s.cell i).2 = b.cellAt (s.cell i).1 (s.cell i).2) :
    b1.hitsOn s1 = b.hitsOn s := by
  unfold Board.hitsOn
  rw [hsize]
  apply List.countP_congr
  intro x hx
  rw [List.mem_range] at hx
  rw [hcell, hsame x (by omega) (by omega)]

theorem Board.hitsOn_flip {b b1 : Board} {s s1 : Ship} (hsize : s1.size = s.size)
    (hcell : ∀ i : Int, s1.cell i = s.cell i) (i0 : Int) (h0 : 0 ≤ i0) (h1 : i0 < s.size)
    (hb : b.cellAt (s.cell i0).1 (s.cell i0).2 ≠ .ok CellState.HIT)
    (hb1 : b1.cellAt (s.cell i0).1 (s.cell i0).2 = .ok CellState.HIT)
    (hsame : ∀ i : Int, 0 ≤ i → i < s.size → i ≠ i0 →
      b1.cellAt (s.cell i).1 (s.cell i).2 = b.cellAt (s.cell i).1 (s.cell i).2) :
    b1.hitsOn s1 = b.hitsOn s + 1 := by
  unfold Board.hitsOn
  rw [hsize]
  have e0 : ((i0.toNat : Nat) : Int) = i0 := by omega
  refine countP_range_flip _ _ _ i0.toNat (by omega) ?_ ?_ ?_
  · simp only [e0, decide_eq_false_iff_not]; exact hb
  · simp only [e0, hcell, decide_eq_true_eq]; exact hb1
  · intro i hi hne
    rw [hcell, hsame i (by omega) (by omega) (by omega)]

theorem Board.hitsOn_le (b : Board) (s : Ship) : b.hitsOn s ≤ s.size.toNat := by
  unfold Board.hitsOn
  exact (List.countP_le_length _).trans (by simp)

/-- All cells of the footprint are `HIT` exactly when the count reaches the length. -/
theorem Board.hitsOn_eq_size_iff (b : Board) (s : Ship) :
    b.hitsOn s = s.size.toNat ↔
      ∀ i : Int, 0 ≤ i → i < s.size →
        b.cellAt (s.cell i).1 (s.cell i).2 = .ok CellState.HIT := by
  unfold Board.hitsOn
  have hlen : (List.range s.size.toNat).length = s.size.toNat := by simp
  constructor
  · intro h i hi0 hi
    have h2 : (List.range s.size.toNat).countP (fun i : Nat =>
        decide (b.cellAt (s.cell (i : Int)).1 (s.cell (i : Int)).2 = .ok CellState.HIT)) =
        (List.range s.size.toNat).length := h.trans hlen.symm
    have := (List.countP_eq_length.1 h2) i.toNat (by rw [List.mem_range]; omega)
    have e0 : ((i.toNat : Nat) : Int) = i := by omega
    simpa only [e0, decide_eq_true_eq] using this
  · intro h
    conv_rhs => rw [← hlen]
    rw [List.countP_eq_length]
    intro x hx
    rw [List.mem_range] at hx
    simpa only [decide_eq_true_eq] using h x (by omega) (by omega)

theorem Board.hitsOn_eq_zero (b : Board) (s : Ship)
    (h : ∀ i : Int, 0 ≤ i → i < s.size →
      b.cellAt (s.cell i).1 (s.cell i).2 ≠ .ok CellState.HIT) : b.hitsOn s = 0 := by
  unfold Board.hitsOn
  rw [List.countP_eq_zero]
  intro x hx
  rw [List.mem_range] at hx
  simpa only [decide_eq_true_eq] using h x (by omega) (by omega)

/-! ### Consequences of the invariant -/

theorem Board.Inv.size_range {b : Board} (h : b.Inv) {k : Fin 5} (hk : b.Placed k) :
    2 ≤ (b.ships k).size ∧ (b.ships k).size ≤ 5 := by
  rw [(h.catalog k hk).1]; exact ships_size k

theorem Board.Inv.cell_inGrid {b : Board} (h : b.Inv) {k : Fin 5} (hk : b.Placed k)
    (i : Int) (hi0 : 0 ≤ i) (hi : i < (b.ships k).size) :
    InGrid ((b.ships k).cell i).1 ((b.ships k).cell i).2 := by
  rcases h.cells k hk i hi0 hi with hc | hc <;> exact Board.cellAt_inGrid hc

theorem Board.Inv.anchor {b : Board} (h : b.Inv) {k : Fin 5} (hk : b.Placed k) :
    (0 ≤ (b.ships k).startRow ∧ (b.ships k).startRow < 10) ∧
    (0 ≤ (b.ships k).startCol ∧ (b.ships k).startCol < 10) := by
  have hs := h.size_range hk
  have h0 := h.cell_inGrid hk 0 (le_refl _) (by omega)
  unfold Ship.cell footprintCell InGrid at h0
  by_cases hh : (b.ships k).isHorizontal ≠ 0
  · simp only [if_pos hh] at h0; omega
  · simp only [if_neg hh] at h0; omega

theorem Board.Inv.isOnShip_iff {b : Board} (h : b.Inv) {k : Fin 5} (hk : b.Placed k)
    (row col : Int) : isOnShip (b.ships k) row col = true ↔ (b.ships k).Covers row col := by
  have hs := h.size_range hk
  have ha := h.anchor hk
  exact isOnShip_iff_covers _ row col ha.1 ha.2 (by omega)

theorem Board.Inv.hitCount_le {b : Board} (h : b.Inv) {k : Fin 5} (hk : b.Placed k) :
    0 ≤ (b.ships k).hitCount ∧ (b.ships k).hitCount ≤ (b.ships k).size := by
  have hs := h.size_range hk
  have := b.hitsOn_le (b.ships k)
  rw [h.hits k hk]
  omega

/-- A placed ship is sunk exactly when every cell of its footprint is `HIT`. -/
theorem Board.Inv.isSunk_iff {b : Board} (h : b.Inv) {k : Fin 5} (hk : b.Placed k) :
    ((b.ships k).isSunk = 1 ↔
      ∀ i : Int, 0 ≤ i → i < (b.ships k).size →
        b.cellAt ((b.ships k).cell i).1 ((b.ships k).cell i).2 = .ok CellState.HIT) ∧
    ((b.ships k).isSunk = 0 ∨ (b.ships k).isSunk = 1) := by
  have hs := h.size_range hk
  have hle := h.hitCount_le hk
  have hh := h.hits k hk
  have hsunk := h.sunk k hk
  rw [← Board.hitsOn_eq_size_iff]
  by_cases hc : (b.ships k).hitCount ≥ (b.ships k).size
  · rw [if_pos hc] at hsunk
    refine ⟨⟨fun _ => by omega, fun _ => hsunk⟩, Or.inr hsunk⟩
  · rw [if_neg hc] at hsunk
    refine ⟨⟨fun h1 => by omega, fun h1 => by omega⟩, Or.inl hsunk⟩

/-- A `SHIP` cell of the footprint of a placed ship means the ship is not sunk and its counter
is below its length. -/
theorem Board.Inv.not_sunk_of_ship_cell {b : Board} (h : b.Inv) {k : Fin 5} (hk : b.Placed k)
    {row col : Int} (hcov : (b.ships k).Covers row col)
    (hc : b.cellAt row col = .ok CellState.SHIP) :
    (b.ships k).isSunk = 0 ∧ (b.ships k).hitCount < (b.ships k).size := by
  have hle := h.hitCount_le hk
  have hiff := (h.isSunk_iff hk).1
  have hsunk := h.sunk k hk
  obtain ⟨i, hi0, hi, hcell⟩ := hcov
  have hns : (b.ships k).isSunk ≠ 1 := by
    intro h1
    have := hiff.1 h1 i hi0 hi
    rw [hcell] at this
    simp only at this
    rw [hc] at this
    simp at this
  by_cases hge : (b.ships k).hitCount ≥ (b.ships k).size
  · rw [if_pos hge] at hsunk; exact absurd hsunk hns
  · rw [if_neg hge] at hsunk; exact ⟨hsunk, by omega⟩

theorem Ship.Covers_congr {s t : Ship} (h : Ship.SameIdentity s t) (row col : Int) :
    t.Covers row col ↔ s.Covers row col := by
  obtain ⟨h1, -, h3, h4, h5⟩ := h
  unfold Ship.Covers Ship.cell
  rw [h1, h3, h4, h5]

theorem Ship.cell_congr {s t : Ship} (h : Ship.SameIdentity s t) (i : Int) :
    t.cell i = s.cell i := by
  obtain ⟨-, -, h3, h4, h5⟩ := h
  unfold Ship.cell
  rw [h3, h4, h5]

/-! ### A hit on a board that satisfies the invariant -/

/-- On a board that satisfies the invariant, `checkShipSunk` after a hit on `(row, col)` records
the hit on the one placed ship `k` whose footprint holds the cell: its counter goes up by one and
it is marked sunk and returned exactly when the counter reaches its length. -/
theorem checkShipSunk_inv {b : Board} (h : b.Inv) {k : Fin 5} (hk : b.Placed k)
    {row col : Int} (hcov : (b.ships k).Covers row col)
    (hc : b.cellAt row col = .ok CellState.SHIP) (b1 : Board)
    (hs : b1.ships = b.ships) (hn : b1.numPlacedShips = b.numPlacedShips) :
    checkShipSunk b1 row col =
      if (b.ships k).hitCount + 1 ≥ (b.ships k).size then
        .ok (b1.withShip k
          { b.ships k with hitCount := (b.ships k).hitCount + 1, isSunk := 1 }, (k.val : Int))
      else
        .ok (b1.withShip k { b.ships k with hitCount := (b.ships k).hitCount + 1 }, -1) := by
  have hle := h.hitCount_le hk
  have hsz := h.size_range hk
  have hns := h.not_sunk_of_ship_cell hk hcov hc
  have hadd : addInt (b.ships k).hitCount 1 = (b.ships k).hitCount + 1 :=
    addInt_eq (by omega) (by omega)
  have hfound := checkShipSunkLoop_found row col b1 k (by rw [hs]; exact hns.1)
    (by rw [hs]; exact (h.isOnShip_iff hk row col).2 hcov)
    (by
      intro j hj
      rw [hs]
      have hjp : b.Placed j := by
        unfold Board.Placed at hk ⊢
        rw [Fin.lt_def] at hj
        omega
      by_cases ho : isOnShip (b.ships j) row col = true
      · have := h.disjoint j k hjp hk row col ((h.isOnShip_iff hjp row col).1 ho) hcov
        exact absurd this (Fin.ne_of_lt hj)
      · right; simpa using ho)
    k.val 0 b1.numPlacedShips.toNat (le_refl _) (by omega)
    (by unfold Board.Placed at hk; omega)
  unfold checkShipSunk Board.withShip
  rw [hfound, hs, hadd]

/-- What `attack` does on a `SHIP` cell of a board that satisfies the invariant. -/
theorem attack_ship_inv {b : Board} (h : b.Inv) {row col : Int} (msg : String)
    (hc : b.cellAt row col = .ok CellState.SHIP) :
    ∃ k b1, b.Placed k ∧ (b.ships k).Covers row col ∧
      b.setCell row col CellState.HIT = .ok b1 ∧
      ((b.ships k).hitCount + 1 < (b.ships k).size →
        checkShipSunk b1 row col =
          .ok (b1.withShip k { b.ships k with hitCount := (b.ships k).hitCount + 1 }, -1) ∧
        attack b row col msg =
          .ok ⟨b1.withShip k { b.ships k with hitCount := (b.ships k).hitCount + 1 },
            "Hit!", 1⟩) ∧
      ((b.ships k).hitCount + 1 ≥ (b.ships k).size →
        checkShipSunk b1 row col =
          .ok (b1.withShip k
            { b.ships k with hitCount := (b.ships k).hitCount + 1, isSunk := 1 },
            (k.val : Int)) ∧
        attack b row col msg =
          .ok ⟨b1.withShip k
            { b.ships k with hitCount := (b.ships k).hitCount + 1, isSunk := 1 },
            (b.ships k).name ++ " sunk!", 1⟩) := by
  obtain ⟨k, hk, hcov⟩ := h.covered row col (Or.inl hc)
  obtain ⟨b1, hb1⟩ := b.setCell_ok (Board.cellAt_inGrid hc) CellState.HIT
  have hs := Board.setCell_ships hb1
  have hck := checkShipSunk_inv h hk hcov hc b1 hs.1 hs.2
  have hkl := k.isLt
  refine ⟨k, b1, hk, hcov, hb1, ?_, ?_⟩
  · intro hlt
    have hge : ¬ (b.ships k).hitCount + 1 ≥ (b.ships k).size := by omega
    rw [if_neg hge] at hck
    refine ⟨hck, ?_⟩
    unfold attack
    rw [hc]
    simp only [Exec.ok_bind, if_true, hb1, hck]
    simp
  · intro hge
    rw [if_pos hge] at hck
    refine ⟨hck, ?_⟩
    unfold attack
    rw [hc]
    simp only [Exec.ok_bind, if_true, hb1, hck]
    have h0 : (k.val : Int) ≥ 0 := by omega
    rw [if_pos h0, Board.shipAt_fin]
    simp [Board.withShip]

/-! ### The invariant holds of every reachable board -/

theorem initBoard_cellAt (b0 : Board) (r c : Int) (v : CellState)
    (h : (initBoard b0).cellAt r c = .ok v) : v = CellState.WATER := by
  rw [Board.cellAt_eq_ok_iff] at h
  obtain ⟨_, h⟩ := h
  exact h.symm

theorem inv_initBoard (b0 : Board) : (initBoard b0).Inv where
  count := by simp [initBoard]
  catalog := fun k hk => by
    unfold Board.Placed at hk; simp only [initBoard] at hk; omega
  cells := fun k hk => by
    unfold Board.Placed at hk; simp only [initBoard] at hk; omega
  disjoint := fun k j hk => by
    unfold Board.Placed at hk; simp only [initBoard] at hk; omega
  covered := fun row col h => by
    rcases h with h | h <;> exact absurd (initBoard_cellAt b0 row col _ h) (by decide)
  hits := fun k hk => by
    unfold Board.Placed at hk; simp only [initBoard] at hk; omega
  sunk := fun k hk => by
    unfold Board.Placed at hk; simp only [initBoard] at hk; omega

theorem Board.withShip_cellAt (b : Board) (k : Fin 5) (s : Ship) (r c : Int) :
    (b.withShip k s).cellAt r c = b.cellAt r c := Board.cellAt_congr rfl r c

theorem Board.withShip_ships_same (b : Board) (k : Fin 5) (s : Ship) :
    (b.withShip k s).ships k = s := by
  simp [Board.withShip]

theorem Board.withShip_ships_other (b : Board) (k : Fin 5) (s : Ship) {j : Fin 5} (h : j ≠ k) :
    (b.withShip k s).ships j = b.ships j := by
  simp [Board.withShip, h]

/-- The invariant after a hit has been recorded: the cell `(row, col)` of the footprint of ship
`k` turned from `SHIP` to `HIT`, the counter of `k` went up by one and its flag follows it. -/
theorem inv_after_hit {b : Board} (h : b.Inv) {k : Fin 5} (hk : b.Placed k)
    {row col : Int} (hcov : (b.ships k).Covers row col)
    (hc : b.cellAt row col = .ok CellState.SHIP) {b1 : Board}
    (hb1 : b.setCell row col CellState.HIT = .ok b1) (s1 : Ship)
    (hid : Ship.SameIdentity (b.ships k) s1)
    (hcount : s1.hitCount = (b.ships k).hitCount + 1)
    (hflag : s1.isSunk = if s1.hitCount ≥ s1.size then 1 else 0) :
    (b1.withShip k s1).Inv := by
  have hs := Board.setCell_ships hb1
  have hcell : ∀ r c : Int, (b1.withShip k s1).cellAt r c =
      if r = row ∧ c = col then .ok CellState.HIT else b.cellAt r c := by
    intro r c
    rw [Board.withShip_cellAt, Board.cellAt_setCell hb1]
  have hplaced : ∀ j, (b1.withShip k s1).Placed j ↔ b.Placed j := by
    intro j; unfold Board.Placed; simp only [Board.withShip]; rw [hs.2]
  have hident : ∀ j, Ship.SameIdentity (b.ships j) ((b1.withShip k s1).ships j) := by
    intro j
    by_cases hj : j = k
    · subst hj; rw [Board.withShip_ships_same]; exact hid
    · rw [Board.withShip_ships_other _ _ _ hj, hs.1]; exact ⟨rfl, rfl, rfl, rfl, rfl⟩
  have hother : ∀ j, j ≠ k → (b1.withShip k s1).ships j = b.ships j := by
    intro j hj
    rw [Board.withShip_ships_other _ _ _ hj, hs.1]
  obtain ⟨i0, hi00, hi0, hcell0⟩ := hcov
  have hcov : (b.ships k).Covers row col := ⟨i0, hi00, hi0, hcell0⟩
  refine ⟨?_, ?_, ?_, ?_, ?_, ?_, ?_⟩
  · simp only [Board.withShip]; rw [hs.2]; exact h.count
  · intro j hj
    have hjb := (hplaced j).1 hj
    obtain ⟨e1, e2, -⟩ := hident j
    rw [e1, e2]; exact h.catalog j hjb
  · intro j hj i hi0' hi
    have hjb := (hplaced j).1 hj
    rw [Ship.cell_congr (hident j), hcell]
    rw [(hident j).1] at hi
    split
    · exact Or.inr rfl
    · exact h.cells j hjb i hi0' hi
  · intro j1 j2 hj1 hj2 r c hc1 hc2
    exact h.disjoint j1 j2 ((hplaced j1).1 hj1) ((hplaced j2).1 hj2) r c
      ((Ship.Covers_congr (hident j1) r c).1 hc1) ((Ship.Covers_congr (hident j2) r c).1 hc2)
  · intro r c hrc
    rw [hcell] at hrc
    by_cases hpos : r = row ∧ c = col
    · obtain ⟨rfl, rfl⟩ := hpos
      exact ⟨k, (hplaced k).2 hk, (Ship.Covers_congr (hident k) r c).2 hcov⟩
    · rw [if_neg hpos] at hrc
      obtain ⟨j, hj, hcj⟩ := h.covered r c hrc
      exact ⟨j, (hplaced j).2 hj, (Ship.Covers_congr (hident j) r c).2 hcj⟩
  · intro j hj
    have hjb := (hplaced j).1 hj
    by_cases hjk : j = k
    · subst hjk
      rw [Board.withShip_ships_same, hcount, h.hits j hjb]
      have hflip : (b1.withShip j s1).hitsOn s1 = b.hitsOn (b.ships j) + 1 := by
        refine Board.hitsOn_flip hid.1 (Ship.cell_congr hid) i0 hi00 hi0 ?_ ?_ ?_
        · rw [hcell0]; simp only; rw [hc]; simp
        · rw [hcell, hcell0]; simp
        · intro i hi0' hi hne
          rw [hcell]
          have : ¬ (((b.ships j).cell i).1 = row ∧ ((b.ships j).cell i).2 = col) := by
            rintro ⟨e1, e2⟩
            apply hne
            apply Ship.cell_inj (b.ships j)
            rw [hcell0]
            exact Prod.ext e1 e2
          rw [if_neg this]
      rw [hflip]; push_cast; rfl
    · rw [hother j hjk, h.hits j hjb]
      congr 1
      symm
      refine Board.hitsOn_congr rfl (fun _ => rfl) ?_
      intro i hi0' hi
      rw [hcell]
      have : ¬ (((b.ships j).cell i).1 = row ∧ ((b.ships j).cell i).2 = col) := by
        rintro ⟨e1, e2⟩
        apply hjk
        exact h.disjoint j k hjb hk row col ⟨i, hi0', hi, Prod.ext e1 e2⟩ hcov
      rw [if_neg this]
  · intro j hj
    have hjb := (hplaced j).1 hj
    by_cases hjk : j = k
    · subst hjk
      rw [Board.withShip_ships_same]; exact hflag
    · rw [hother j hjk]; exact h.sunk j hjb

/-- The invariant after a miss: a `WATER` cell turned to `MISS`. -/
theorem inv_after_miss {b : Board} (h : b.Inv) {row col : Int}
    (hc : b.cellAt row col = .ok CellState.WATER) {b1 : Board}
    (hb1 : b.setCell row col CellState.MISS = .ok b1) : b1.Inv := by
  have hs := Board.setCell_ships hb1
  have hplaced : ∀ j, b1.Placed j ↔ b.Placed j := by
    intro j; unfold Board.Placed; rw [hs.2]
  have hshipcell : ∀ j, b.Placed j → ∀ i : Int, 0 ≤ i → i < (b.ships j).size →
      b1.cellAt ((b.ships j).cell i).1 ((b.ships j).cell i).2 =
        b.cellAt ((b.ships j).cell i).1 ((b.ships j).cell i).2 := by
    intro j hj i hi0 hi
    rw [Board.cellAt_setCell hb1]
    have : ¬ (((b.ships j).cell i).1 = row ∧ ((b.ships j).cell i).2 = col) := by
      rintro ⟨e1, e2⟩
      have := h.cells j hj i hi0 hi
      rw [e1, e2, hc] at this
      simp at this
    rw [if_neg this]
  refine ⟨?_, ?_, ?_, ?_, ?_, ?_, ?_⟩
  · rw [hs.2]; exact h.count
  · intro j hj; rw [hs.1]; exact h.catalog j ((hplaced j).1 hj)
  · intro j hj i hi0 hi
    rw [hs.1] at hi ⊢
    rw [hshipcell j ((hplaced j).1 hj) i hi0 hi]
    exact h.cells j ((hplaced j).1 hj) i hi0 hi
  · intro j1 j2 hj1 hj2 r c
    rw [hs.1]
    exact h.disjoint j1 j2 ((hplaced j1).1 hj1) ((hplaced j2).1 hj2) r c
  · intro r c hrc
    rw [Board.cellAt_setCell hb1] at hrc
    by_cases hpos : r = row ∧ c = col
    · rw [if_pos hpos] at hrc; simp at hrc
    · rw [if_neg hpos] at hrc
      obtain ⟨j, hj, hcj⟩ := h.covered r c hrc
      exact ⟨j, (hplaced j).2 hj, by rw [hs.1]; exact hcj⟩
  · intro j hj
    rw [hs.1, h.hits j ((hplaced j).1 hj)]
    congr 1
    symm
    exact Board.hitsOn_congr rfl (fun _ => rfl) (hshipcell j ((hplaced j).1 hj))
  · intro j hj
    rw [hs.1]; exact h.sunk j ((hplaced j).1 hj)

/-- An attack inside the grid keeps the invariant. -/
theorem inv_attack {b : Board} (h : b.Inv) {row col : Int} (msg : String) {a : AttackResult}
    (hin : InGrid row col) (ha : attack b row col msg = .ok a) : a.board.Inv := by
  obtain ⟨c, hc⟩ := b.cellAt_ok_of_inGrid hin
  cases c with
  | WATER =>
    obtain ⟨b1, hb1, e⟩ := attack_water_eq b row col msg hc
    rw [e] at ha
    cases ha
    exact inv_after_miss h hc hb1
  | SHIP =>
    obtain ⟨k, b1, hk, hcov, hb1, hlt, hge⟩ := attack_ship_inv h msg hc
    have hns := h.not_sunk_of_ship_cell hk hcov hc
    by_cases hcase : (b.ships k).hitCount + 1 < (b.ships k).size
    · rw [(hlt hcase).2] at ha
      cases ha
      refine inv_after_hit h hk hcov hc hb1 _ ⟨rfl, rfl, rfl, rfl, rfl⟩ rfl ?_
      simp only
      rw [hns.1, if_neg (by omega)]
    · rw [(hge (by omega)).2] at ha
      cases ha
      refine inv_after_hit h hk hcov hc hb1 _ ⟨rfl, rfl, rfl, rfl, rfl⟩ rfl ?_
      simp only
      rw [if_pos (by omega)]
  | HIT =>
    rw [attack_tried_eq b row col msg (Or.inl hc)] at ha
    cases ha; exact h
  | MISS =>
    rw [attack_tried_eq b row col msg (Or.inr hc)] at ha
    cases ha; exact h

/-- A placement that `canPlaceShip` accepts, made for the next ship of the catalog, keeps the
invariant. -/
theorem inv_place {b b1 : Board} (h : b.Inv) (k : Fin 5) (row col horizontal : Int)
    (hk : (k.val : Int) = b.numPlacedShips) (hin : InGrid row col)
    (hcan : canPlaceShip b row col (ships k).size horizontal = .ok 1)
    (hplace : placeFromTemplate b (ships k) row col horizontal b.numPlacedShips = .ok b1) :
    b1.Inv := by
  have hkl := k.isLt
  have hidx : 0 ≤ b.numPlacedShips ∧ b.numPlacedShips < 5 := by omega
  obtain ⟨b2, hb2, hset, hother, hrec, hrest, hnum⟩ :=
    placeFromTemplate_spec b (ships k) row col horizontal b.numPlacedShips hin hidx hcan
  rw [hplace] at hb2
  cases hb2
  have hwater := footprint_of_canPlaceShip b row col (ships k).size horizontal hin hcan
  have hfin : (⟨b.numPlacedShips.toNat, by omega⟩ : Fin 5) = k := by
    apply Fin.ext; simp only; omega
  rw [hfin] at hrec hrest
  rw [addInt_eq (by omega) (by omega)] at hnum
  have hsz := ships_size k
  -- the new record and its footprint
  have hnewcell : ∀ i : Int, (b1.ships k).cell i = footprintCell row col horizontal i := by
    intro i; rw [hrec]; rfl
  have hnewsize : (b1.ships k).size = (ships k).size := by rw [hrec]
  have hplaced : ∀ j, b1.Placed j ↔ (j = k ∨ b.Placed j) := by
    intro j
    unfold Board.Placed
    rw [hnum, ← hk]
    constructor
    · intro hj
      by_cases e : j = k
      · exact Or.inl e
      · right
        have : j.val ≠ k.val := fun e1 => e (Fin.ext e1)
        omega
    · rintro (rfl | hj) <;> omega
  have hold_ne : ∀ j, b.Placed j → j ≠ k := by
    intro j hj e
    unfold Board.Placed at hj
    rw [e] at hj
    omega
  -- cells of the new footprint were WATER, so no old ship covers them
  have hnew_water : ∀ r c : Int, (b1.ships k).Covers r c → b.cellAt r c = .ok CellState.WATER := by
    rintro r c ⟨i, hi0, hi, e⟩
    rw [hnewcell] at e
    rw [hnewsize] at hi
    have := hwater i hi0 hi
    rw [e] at this
    exact this
  have hold_cell : ∀ j, b.Placed j → ∀ i : Int, 0 ≤ i → i < (b.ships j).size →
      b1.cellAt ((b.ships j).cell i).1 ((b.ships j).cell i).2 =
        b.cellAt ((b.ships j).cell i).1 ((b.ships j).cell i).2 := by
    intro j hj i hi0 hi
    apply hother
    intro i1 hi10 hi1 e
    have hw := hwater i1 hi10 hi1
    rw [e] at hw
    have := h.cells j hj i hi0 hi
    simp only at hw
    rw [hw] at this
    simp at this
  refine ⟨?_, ?_, ?_, ?_, ?_, ?_, ?_⟩
  · omega
  · intro j hj
    rcases (hplaced j).1 hj with rfl | hjb
    · rw [hrec]; exact ⟨rfl, rfl⟩
    · rw [hrest j (hold_ne j hjb)]; exact h.catalog j hjb
  · intro j hj i hi0 hi
    rcases (hplaced j).1 hj with rfl | hjb
    · rw [hnewcell]
      rw [hnewsize] at hi
      exact Or.inl (hset i hi0 hi)
    · rw [hrest j (hold_ne j hjb)] at hi ⊢
      rw [hold_cell j hjb i hi0 hi]
      exact h.cells j hjb i hi0 hi
  · intro j1 j2 hj1 hj2 r c hc1 hc2
    have clash : ∀ j, b.Placed j → (b.ships j).Covers r c → (b1.ships k).Covers r c → False := by
      rintro j hj ⟨i, hi0, hi, e⟩ hnew
      have hw := hnew_water r c hnew
      have := h.cells j hj i hi0 hi
      rw [e] at this
      simp only at this
      rw [hw] at this
      simp at this
    rcases (hplaced j1).1 hj1 with rfl | hjb1
    · rcases (hplaced j2).1 hj2 with rfl | hjb2
      · rfl
      · rw [hrest j2 (hold_ne j2 hjb2)] at hc2
        exact (clash j2 hjb2 hc2 hc1).elim
    · rw [hrest j1 (hold_ne j1 hjb1)] at hc1
      rcases (hplaced j2).1 hj2 with rfl | hjb2
      · exact (clash j1 hjb1 hc1 hc2).elim
      · rw [hrest j2 (hold_ne j2 hjb2)] at hc2
        exact h.disjoint j1 j2 hjb1 hjb2 r c hc1 hc2
  · intro r c hrc
    by_cases hnew : (b1.ships k).Covers r c
    · exact ⟨k, (hplaced k).2 (Or.inl rfl), hnew⟩
    · have hsame : b1.cellAt r c = b.cellAt r c := by
        apply hother
        intro i hi0 hi e
        apply hnew
        exact ⟨i, hi0, by rw [hnewsize]; exact hi, by rw [hnewcell]; exact e⟩
      rw [hsame] at hrc
      obtain ⟨j, hj, hcj⟩ := h.covered r c hrc
      exact ⟨j, (hplaced j).2 (Or.inr hj), by rw [hrest j (hold_ne j hj)]; exact hcj⟩
  · intro j hj
    rcases (hplaced j).1 hj with rfl | hjb
    · have hz : b1.hitsOn (b1.ships j) = 0 := by
        apply Board.hitsOn_eq_zero
        intro i hi0 hi
        rw [hnewcell]
        rw [hnewsize] at hi
        rw [hset i hi0 hi]
        simp
      rw [hz, hrec]; rfl
    · rw [hrest j (hold_ne j hjb), h.hits j hjb]
      congr 1
      symm
      exact Board.hitsOn_congr rfl (fun _ => rfl) (hold_cell j hjb)
  · intro j hj
    rcases (hplaced j).1 hj with rfl | hjb
    · rw [hrec]
      simp only
      rw [if_neg (by omega)]
    · rw [hrest j (hold_ne j hjb)]; exact h.sunk j hjb

/-- Every reachable board satisfies the invariant. -/
theorem Board.Reachable.boardInv {b : Board} (h : b.Reachable) : b.Inv := by
  induction h with
  | init b0 => exact inv_initBoard b0
  | place b b1 k row col horizontal _ hk hin hcan hplace ih =>
    exact inv_place ih k row col horizontal hk hin hcan hplace
  | attack b row col msg a _ hin ha ih => exact inv_attack ih msg hin ha

/-! ## Sinking and the win check -/

/-- The first attack on a cell of the footprint of the placed ship `k`, on a board that satisfies
the invariant. -/
theorem attack_footprint_cell {b : Board} (h : b.Inv) {k : Fin 5} (hk : b.Placed k)
    {row col : Int} (msg : String) (hcov : (b.ships k).Covers row col)
    (hc : b.cellAt row col = .ok CellState.SHIP) :
    ∃ b1 a r, b.setCell row col CellState.HIT = .ok b1 ∧
      checkShipSunk b1 row col = .ok (a.board, r) ∧
      attack b row col msg = .ok a ∧ a.ret = 1 ∧
      (a.board.ships k).hitCount = (b.ships k).hitCount + 1 ∧
      ((b.ships k).hitCount + 1 < (b.ships k).size →
        r = -1 ∧ a.feedbackMsg = "Hit!" ∧ (a.board.ships k).isSunk = 0) ∧
      ((b.ships k).hitCount + 1 = (b.ships k).size →
        r = (k.val : Int) ∧ a.feedbackMsg = (ships k).name ++ " sunk!" ∧
        (a.board.ships k).isSunk = 1) ∧
      ((b.ships k).hitCount + 1 < (b.ships k).size ∨
        (b.ships k).hitCount + 1 = (b.ships k).size) := by
  obtain ⟨k1, b1, hk1, hcov1, hb1, hlt, hge⟩ := attack_ship_inv h msg hc
  have e : k1 = k := h.disjoint k1 k hk1 hk row col hcov1 hcov
  subst e
  have hns := h.not_sunk_of_ship_cell hk1 hcov hc
  have hname := (h.catalog k1 hk1).2
  by_cases hcase : (b.ships k1).hitCount + 1 < (b.ships k1).size
  · obtain ⟨h1, h2⟩ := hlt hcase
    refine ⟨b1, _, -1, hb1, h1, h2, rfl, ?_, ?_, ?_, Or.inl hcase⟩
    · simp [Board.withShip]
    · intro _
      refine ⟨rfl, rfl, ?_⟩
      simp only [Board.withShip, if_true]
      exact hns.1
    · intro heq; omega
  · obtain ⟨h1, h2⟩ := hge (by omega)
    refine ⟨b1, _, (k1.val : Int), hb1, h1, h2, rfl, ?_, ?_, ?_, Or.inr (by omega)⟩
    · simp [Board.withShip]
    · intro hlt'; omega
    · intro _
      refine ⟨rfl, ?_, ?_⟩
      · simp only; rw [hname]
      · simp [Board.withShip]

/-- A ship that is sunk stays sunk under an attack, on a board that satisfies the invariant. -/
theorem sunk_stays {b : Board} (h : b.Inv) {k : Fin 5}
    {row col : Int} (msg : String) {a : AttackResult} (hin : InGrid row col)
    (ha : attack b row col msg = .ok a) (hs : (b.ships k).isSunk = 1) :
    (a.board.ships k).isSunk = 1 := by
  obtain ⟨c, hc⟩ := b.cellAt_ok_of_inGrid hin
  cases c with
  | WATER =>
    obtain ⟨b1, hb1, e⟩ := attack_water_eq b row col msg hc
    rw [e] at ha
    cases ha
    simp only
    rw [(Board.setCell_ships hb1).1]; exact hs
  | SHIP =>
    obtain ⟨k1, b1, hk1, hcov1, hb1, hlt, hge⟩ := attack_ship_inv h msg hc
    have hns := h.not_sunk_of_ship_cell hk1 hcov1 hc
    have hne : k ≠ k1 := by
      rintro rfl
      rw [hs] at hns
      omega
    have hsame : (b1.ships k) = b.ships k := by rw [(Board.setCell_ships hb1).1]
    by_cases hcase : (b.ships k1).hitCount + 1 < (b.ships k1).size
    · rw [(hlt hcase).2] at ha
      cases ha
      simp only
      rw [Board.withShip_ships_other _ _ _ hne, hsame]; exact hs
    · rw [(hge (by omega)).2] at ha
      cases ha
      simp only
      rw [Board.withShip_ships_other _ _ _ hne, hsame]; exact hs
  | HIT =>
    rw [attack_tried_eq b row col msg (Or.inl hc)] at ha
    cases ha; exact hs
  | MISS =>
    rw [attack_tried_eq b row col msg (Or.inr hc)] at ha
    cases ha; exact hs

/-- Attacking, in any order, the cells of the footprint of the placed ship `k` that are not hit
yet, on a board that satisfies the invariant: every attack but the last reports "Hit!", the last
one reports the ship sunk by name and sets its flag. -/
theorem attackAll_footprint (k : Fin 5) (l : List (Int × Int)) :
    ∀ (b : Board), b.Inv → b.Placed k → l.Nodup →
    (∀ p ∈ l, (b.ships k).Covers p.1 p.2 ∧ b.cellAt p.1 p.2 = .ok CellState.SHIP) →
    (b.ships k).hitCount + l.length = (b.ships k).size → l ≠ [] →
    ∃ b1, attackAll l b =
        .ok (b1, List.replicate (l.length - 1) "Hit!" ++ [(ships k).name ++ " sunk!"]) ∧
      (b1.ships k).isSunk = 1 := by
  induction l with
  | nil => intro b _ _ _ _ _ hne; exact absurd rfl hne
  | cons p ps ih =>
    intro b h hk hnd hall hlen _
    obtain ⟨hcov, hc⟩ := hall p (List.mem_cons_self _ _)
    obtain ⟨b0, a, r, -, -, ha, -, hcount, hlt, heq, -⟩ :=
      attack_footprint_cell h hk "" hcov hc
    have hinv : a.board.Inv := inv_attack h "" (Board.cellAt_inGrid hc) ha
    obtain ⟨a', ha', -, -, hother, hnum, -, hid⟩ :=
      (attack_frame b p.1 p.2 "" h.count.2).1 hc
    rw [ha] at ha'
    cases ha'
    have hk1 : a.board.Placed k := by unfold Board.Placed at hk ⊢; rw [hnum]; exact hk
    unfold attackAll
    rw [ha]
    cases ps with
    | nil =>
      simp only [List.length_singleton, Nat.cast_one] at hlen
      obtain ⟨-, hmsg, hsunk⟩ := heq hlen
      refine ⟨a.board, ?_, hsunk⟩
      simp [attackAll, hmsg]
    | cons q qs =>
      have hlen1 : (b.ships k).hitCount + 1 < (b.ships k).size := by
        simp only [List.length_cons] at hlen
        push_cast at hlen
        omega
      obtain ⟨-, hmsg, -⟩ := hlt hlen1
      obtain ⟨b1, hb1, hsunk⟩ := ih a.board hinv hk1 (List.nodup_cons.1 hnd).2
        (by
          intro p' hp'
          obtain ⟨hcov', hc'⟩ := hall p' (List.mem_cons_of_mem _ hp')
          refine ⟨(Ship.Covers_congr (hid k) _ _).2 hcov', ?_⟩
          rw [hother p'.1 p'.2 ?_]
          · exact hc'
          · intro e
            have : p' = p := Prod.ext (congrArg Prod.fst e) (congrArg Prod.snd e)
            rw [this] at hp'
            exact (List.nodup_cons.1 hnd).1 hp')
        (by
          rw [hcount, (hid k).1]
          simp only [List.length_cons] at hlen ⊢
          push_cast at hlen ⊢
          omega)
        (List.cons_ne_nil _ _)
      refine ⟨b1, ?_, hsunk⟩
      simp only [hb1, hmsg, List.length_cons, Nat.add_sub_cancel, List.replicate_succ,
        List.cons_append]

theorem carrierBoard_reachable : carrierBoard.Reachable := by
  have h0 : emptyBoard.Reachable := Board.Reachable.init _
  exact Board.Reachable.place emptyBoard carrierBoard 0 0 0 1 h0 (by decide) (by decide)
    (by decide) (by rfl)

theorem carrier_run :
    ∃ b5, attackAll [(0, 0), (0, 1), (0, 2), (0, 3), (0, 4)] carrierBoard =
        .ok (b5, ["Hit!", "Hit!", "Hit!", "Hit!", "Carrier sunk!"]) ∧
      allShipsSunk b5 = .ok 1 := ⟨_, rfl, rfl⟩

/-- C3. On every board reached from `initBoard` by legal placements in catalog order and attacks
inside the grid, and for every placed ship `k` of length `n`: its `hitCount` is the number of
cells of its footprint attacked so far, its `isSunk` flag is 0 or 1 and is 1 exactly when all `n`
cells are `HIT`; a first attack on a cell of its footprint returns 1 and raises the counter by
one, reports a plain hit (`checkShipSunk` returns -1, message "Hit!", flag still 0) while fewer
than `n` cells are hit after it, and reports the ship sunk by name (`checkShipSunk` returns `k`,
flag 1) when it is the `n`-th; a set flag stays set under every later attack; attacking the
cells of the footprint that are not hit yet, each once and in any order, gives "Hit!" for all but
the last and the ship sunk by name for the last. On the Carrier
placed horizontally at (0,0) on an empty board the attacks (0,0),(0,1),(0,2),(0,3),(0,4) give
"Hit!" four times, then "Carrier sunk!", and `allShipsSunk` returns 1. -/
theorem sinking_reports (b : Board) (hb : b.Reachable) (k : Fin 5) (hk : b.Placed k) :
    (b.ships k).size = (ships k).size ∧
    (b.ships k).hitCount = (b.hitsOn (b.ships k) : Int) ∧
    ((b.ships k).isSunk = 1 ↔
      ∀ i : Int, 0 ≤ i → i < (b.ships k).size →
        b.cellAt ((b.ships k).cell i).1 ((b.ships k).cell i).2 = .ok CellState.HIT) ∧
    ((b.ships k).isSunk = 0 ∨ (b.ships k).isSunk = 1) ∧
    (∀ (row col : Int) (msg : String), (b.ships k).Covers row col →
      b.cellAt row col = .ok CellState.SHIP →
      ∃ b1 a r, b.setCell row col CellState.HIT = .ok b1 ∧
        checkShipSunk b1 row col = .ok (a.board, r) ∧
        attack b row col msg = .ok a ∧ a.ret = 1 ∧
        (a.board.ships k).hitCount = (b.ships k).hitCount + 1 ∧
        ((b.ships k).hitCount + 1 < (b.ships k).size →
          r = -1 ∧ a.feedbackMsg = "Hit!" ∧ (a.board.ships k).isSunk = 0) ∧
        ((b.ships k).hitCount + 1 = (b.ships k).size →
          r = (k.val : Int) ∧ a.feedbackMsg = (ships k).name ++ " sunk!" ∧
          (a.board.ships k).isSunk = 1) ∧
        ((b.ships k).hitCount + 1 < (b.ships k).size ∨
          (b.ships k).hitCount + 1 = (b.ships k).size)) ∧
    (∀ (row col : Int) (msg : String) (a : AttackResult), InGrid row col →
      attack b row col msg = .ok a → (b.ships k).isSunk = 1 → (a.board.ships k).isSunk = 1) ∧
    (∀ l : List (Int × Int), l.Nodup →
      (∀ p ∈ l, (b.ships k).Covers p.1 p.2 ∧ b.cellAt p.1 p.2 = .ok CellState.SHIP) →
      (b.ships k).hitCount + l.length = (b.ships k).size → l ≠ [] →
      ∃ b1, attackAll l b =
          .ok (b1, List.replicate (l.length - 1) "Hit!" ++ [(ships k).name ++ " sunk!"]) ∧
        (b1.ships k).isSunk = 1) ∧
    (∃ b5, attackAll [(0, 0), (0, 1), (0, 2), (0, 3), (0, 4)] carrierBoard =
        .ok (b5, ["Hit!", "Hit!", "Hit!", "Hit!", "Carrier sunk!"]) ∧
      allShipsSunk b5 = .ok 1) := by
  have h := hb.boardInv
  refine ⟨(h.catalog k hk).1, h.hits k hk, (h.isSunk_iff hk).1, (h.isSunk_iff hk).2, ?_, ?_,
    ?_, carrier_run⟩
  · intro row col msg hcov hc
    exact attack_footprint_cell h hk msg hcov hc
  · intro row col msg a hin ha hs
    exact sunk_stays h msg hin ha hs
  · intro l hnd hall hlen hne
    exact attackAll_footprint k l b h hk hnd hall hlen hne

/-- C3 at a concrete input: the Carrier on the board that holds only it. -/
theorem sinking_reports_witness :
    carrierBoard.Reachable ∧ carrierBoard.Placed 0 ∧
    (carrierBoard.ships 0).hitCount = (carrierBoard.hitsOn (carrierBoard.ships 0) : Int) ∧
    (∀ (row col : Int) (msg : String), (carrierBoard.ships 0).Covers row col →
      carrierBoard.cellAt row col = .ok CellState.SHIP →
      ∃ b1 a r, carrierBoard.setCell row col CellState.HIT = .ok b1 ∧
        checkShipSunk b1 row col = .ok (a.board, r) ∧
        attack carrierBoard row col msg = .ok a ∧ a.ret = 1 ∧
        (a.board.ships 0).hitCount = (carrierBoard.ships 0).hitCount + 1 ∧
        ((carrierBoard.ships 0).hitCount + 1 < (carrierBoard.ships 0).size →
          r = -1 ∧ a.feedbackMsg = "Hit!" ∧ (a.board.ships 0).isSunk = 0) ∧
        ((carrierBoard.ships 0).hitCount + 1 = (carrierBoard.ships 0).size →
          r = ((0 : Fin 5).val : Int) ∧ a.feedbackMsg = (ships 0).name ++ " sunk!" ∧
          (a.board.ships 0).isSunk = 1) ∧
        ((carrierBoard.ships 0).hitCount + 1 < (carrierBoard.ships 0).size ∨
          (carrierBoard.ships 0).hitCount + 1 = (carrierBoard.ships 0).size)) :=
  ⟨carrierBoard_reachable, by decide,
    (sinking_reports carrierBoard carrierBoard_reachable 0 (by decide)).2.1,
    (sinking_reports carrierBoard carrierBoard_reachable 0 (by decide)).2.2.2.2.1⟩

/-! ### The win check -/

theorem allShipsSunkRow_spec (b : Board) (i : Int) (hi : 0 ≤ i ∧ i < 10) (n : Nat) (j : Int)
    (hj : 0 ≤ j) (hjn : j + n ≤ 10) :
    ∃ r, allShipsSunkRow b i n j = .ok r ∧
      (r = true ↔ ∀ c : Int, j ≤ c → c < j + n → b.cellAt i c ≠ .ok CellState.SHIP) := by
  induction n generalizing j with
  | zero => exact ⟨true, rfl, by simp; intro c h1 h2; omega⟩
  | succ n ih =>
    obtain ⟨v, hv⟩ := b.cellAt_ok_of_inGrid (show InGrid i j by unfold InGrid; omega)
    unfold allShipsSunkRow
    rw [hv]
    by_cases hs : v = CellState.SHIP
    · subst hs
      refine ⟨false, by simp, ?_⟩
      simp only [Bool.false_eq_true, false_iff, not_forall]
      exact ⟨j, le_refl _, by omega, by simp [hv]⟩
    · simp only [hs, if_false]
      obtain ⟨r, hr, hiff⟩ := ih (j + 1) (by omega) (by push_cast at hjn; omega)
      refine ⟨r, hr, hiff.trans ⟨?_, ?_⟩⟩
      · intro h c h1 h2
        rcases eq_or_lt_of_le h1 with rfl | hlt
        · rw [hv]; simpa using hs
        · exact h c (by omega) (by push_cast at h2; omega)
      · intro h c h1 h2
        exact h c (by omega) (by push_cast; omega)

theorem allShipsSunkLoop_spec (b : Board) (n : Nat) (i : Int) (hi : 0 ≤ i) (hin : i + n ≤ 10) :
    ∃ v, allShipsSunkLoop b n i = .ok v ∧ (v = 1 ∨ v = 0) ∧
      (v = 1 ↔ ∀ r c : Int, i ≤ r → r < i + n → 0 ≤ c → c < 10 →
        b.cellAt r c ≠ .ok CellState.SHIP) := by
  induction n generalizing i with
  | zero => exact ⟨1, rfl, Or.inl rfl, by simp; intro r c h1 h2; omega⟩
  | succ n ih =>
    obtain ⟨r, hr, hiff⟩ := allShipsSunkRow_spec b i (by omega) 10 0 (le_refl _) (by omega)
    unfold allShipsSunkLoop
    rw [hr]
    cases r with
    | false =>
      refine ⟨0, by simp, Or.inr rfl, ?_⟩
      simp only [zero_ne_one, false_iff, not_forall]
      have := hiff.not.1 (by simp)
      simp only [not_forall] at this
      obtain ⟨c, h1, h2, h3⟩ := this
      exact ⟨i, c, le_refl _, by omega, h1, by simpa using h2, h3⟩
    | true =>
      simp only [if_true]
      obtain ⟨v, hv, hv01, hviff⟩ := ih (i + 1) (by omega) (by push_cast at hin; omega)
      refine ⟨v, hv, hv01, hviff.trans ⟨?_, ?_⟩⟩
      · intro h r c h1 h2 h3 h4
        rcases eq_or_lt_of_le h1 with rfl | hlt
        · exact hiff.1 rfl c h3 (by simpa using h4)
        · exact h r c (by omega) (by push_cast at h2; omega) h3 h4
      · intro h r c h1 h2 h3 h4
        exact h r c (by omega) (by push_cast; omega) h3 h4

/-- `allShipsSunk` finishes with 0 or 1, and with 1 exactly when no cell of the grid is
`SHIP`. -/
theorem allShipsSunk_spec (b : Board) :
    ∃ v, allShipsSunk b = .ok v ∧ (v = 1 ∨ v = 0) ∧
      (v = 1 ↔ ∀ r c : Int, b.cellAt r c ≠ .ok CellState.SHIP) := by
  obtain ⟨v, hv, hv01, hiff⟩ := allShipsSunkLoop_spec b 10 0 (le_refl _) (by omega)
  refine ⟨v, hv, hv01, hiff.trans ⟨?_, ?_⟩⟩
  · intro h r c hc
    have hin := Board.cellAt_inGrid hc
    unfold InGrid at hin
    exact h r c (by omega) (by omega) (by omega) (by omega) hc
  · intro h r c _ _ _ _
    exact h r c

/-- On a board that satisfies the invariant no cell is `SHIP` exactly when every placed ship is
sunk. -/
theorem Board.Inv.no_ship_iff_all_sunk {b : Board} (h : b.Inv) :
    (∀ r c : Int, b.cellAt r c ≠ .ok CellState.SHIP) ↔
      ∀ k, b.Placed k → (b.ships k).isSunk = 1 := by
  constructor
  · intro hno k hk
    rw [(h.isSunk_iff hk).1]
    intro i hi0 hi
    rcases h.cells k hk i hi0 hi with hc | hc
    · exact absurd hc (hno _ _)
    · exact hc
  · intro hall r c hc
    obtain ⟨k, hk, hcov⟩ := h.covered r c (Or.inl hc)
    have := (h.not_sunk_of_ship_cell hk hcov hc).1
    rw [hall k hk] at this
    omega

/-- C7. `allShipsSunk(board)` returns 1 exactly when no cell of the grid is `SHIP` (and returns
0 otherwise), and on every board reached from `initBoard` by legal in-order placements and
attacks inside the grid this is the case if and only if every placed ship has `isSunk = 1`. -/
theorem allShipsSunk_iff_all_sunk (b : Board) :
    (allShipsSunk b = .ok 1 ∨ allShipsSunk b = .ok 0) ∧
    (allShipsSunk b = .ok 1 ↔ ∀ r c : Int, b.cellAt r c ≠ .ok CellState.SHIP) ∧
    (b.Reachable →
      (allShipsSunk b = .ok 1 ↔ ∀ k, b.Placed k → (b.ships k).isSunk = 1)) := by
  obtain ⟨v, hv, hv01, hiff⟩ := allShipsSunk_spec b
  have h1 : allShipsSunk b = .ok 1 ↔ ∀ r c : Int, b.cellAt r c ≠ .ok CellState.SHIP := by
    rw [hv]
    constructor
    · intro e; exact hiff.1 (Exec.ok.inj e)
    · intro e; rw [hiff.2 e]
  refine ⟨?_, h1, fun hb => h1.trans hb.boardInv.no_ship_iff_all_sunk⟩
  rw [hv]
  rcases hv01 with rfl | rfl
  · exact Or.inl rfl
  · exact Or.inr rfl

/-- C7 at a concrete input: the board that holds only the Carrier. -/
theorem allShipsSunk_iff_all_sunk_witness :
    carrierBoard.Reachable ∧
    (allShipsSunk carrierBoard = .ok 1 ↔
      ∀ k, carrierBoard.Placed k → (carrierBoard.ships k).isSunk = 1) :=
  ⟨carrierBoard_reachable, (allShipsSunk_iff_all_sunk carrierBoard).2.2 carrierBoard_reachable⟩

/-! ## The battle: attacks by the human and by the bot -/

/-- The branch of `handleMouseClick` for a click on the bot's grid when the human may attack. -/
theorem handleMouseClick_attacking (x y : Int) (g : Game) (shipTemplates : Fin 5 → Ship)
    (rnd : Nat → Nat) (fuel : Nat)
    (hx : 650 ≤ x ∧ x < 1000) (hy : 160 ≤ y ∧ y < 510) (hp : g.state.isPlacingShips = 0)
    (ht : g.state.playerTurn ≠ 0) (hgo : g.state.gameOver = 0) :
    handleMouseClick x y g shipTemplates rnd fuel =
      (do
        let cell ← g.botBoard.cellAt (gridCoord y 160) (gridCoord x 650)
        if cell ≠ CellState.HIT ∧ cell ≠ CellState.MISS then
          let a ← attack g.botBoard (gridCoord y 160) (gridCoord x 650) ""
          if a.ret ≠ 0 then
            let st1 := showFeedbackMessage g.state a.feedbackMsg
            let sunk ← allShipsSunk a.board
            if sunk ≠ 0 then
              let st2 := { st1 with gameOver := 1, playerWon := 1 }
              pure ⟨g.playerBoard, a.board,
                showFeedbackMessage st2 "You Win! All enemy ships sunk!"⟩
            else pure ⟨g.playerBoard, a.board, st1⟩
          else
            let st1 := showFeedbackMessage g.state a.feedbackMsg
            pure ⟨g.playerBoard, a.board, { st1 with playerTurn := 0 }⟩
        else
          pure { g with state := showFeedbackMessage g.state "Already attacked there!" }) := by
  have hc1 : ¬ (x ≥ GRID_OFFSET_X ∧ x < GRID_OFFSET_X + GRID_SIZE * CELL_SIZE ∧
      y ≥ GRID_OFFSET_Y ∧ y < GRID_OFFSET_Y + GRID_SIZE * CELL_SIZE ∧
      g.state.isPlacingShips ≠ 0) := fun h => h.2.2.2.2 hp
  have hc2 : x ≥ WINDOW_WIDTH / 2 + 50 ∧ x < WINDOW_WIDTH / 2 + 50 + GRID_SIZE * CELL_SIZE ∧
      y ≥ GRID_OFFSET_Y ∧ y < GRID_OFFSET_Y + GRID_SIZE * CELL_SIZE ∧
      g.state.isPlacingShips = 0 ∧ g.state.playerTurn ≠ 0 ∧ g.state.gameOver = 0 := by
    refine ⟨?_, ?_, ?_, ?_, hp, ht, hgo⟩ <;>
      simp only [WINDOW_WIDTH, GRID_OFFSET_Y, GRID_SIZE, CELL_SIZE] <;> omega
  unfold handleMouseClick
  simp only [if_neg hc1, if_pos hc2]
  rfl

/-- A click on the bot's grid maps to a coordinate inside the grid. -/
theorem click_inGrid (x y left top : Int) (hx : left ≤ x ∧ x < left + 350)
    (hy : top ≤ y ∧ y < top + 350) : InGrid (gridCoord y top) (gridCoord x left) := by
  have h1 := click_coord_inRange x left hx
  have h2 := click_coord_inRange y top hy
  unfold InGrid gridCoord
  omega

/-- The three outcomes of a click on the bot's grid when the human may attack. -/
theorem human_attack_outcome (x y : Int) (g : Game) (shipTemplates : Fin 5 → Ship)
    (rnd : Nat → Nat) (fuel : Nat)
    (hx : 650 ≤ x ∧ x < 1000) (hy : 160 ≤ y ∧ y < 510) (hp : g.state.isPlacingShips = 0)
    (ht : g.state.playerTurn ≠ 0) (hgo : g.state.gameOver = 0)
    (hn : g.botBoard.numPlacedShips ≤ 5) :
    ∃ c, g.botBoard.cellAt (gridCoord y 160) (gridCoord x 650) = .ok c ∧
      ((c = CellState.HIT ∨ c = CellState.MISS) →
        handleMouseClick x y g shipTemplates rnd fuel =
          .ok { g with state := showFeedbackMessage g.state "Already attacked there!" }) ∧
      (c = CellState.WATER →
        ∃ a, attack g.botBoard (gridCoord y 160) (gridCoord x 650) "" = .ok a ∧ a.ret = 0 ∧
          handleMouseClick x y g shipTemplates rnd fuel =
            .ok ⟨g.playerBoard, a.board,
              { showFeedbackMessage g.state a.feedbackMsg with playerTurn := 0 }⟩) ∧
      (c = CellState.SHIP →
        ∃ a v, attack g.botBoard (gridCoord y 160) (gridCoord x 650) "" = .ok a ∧ a.ret = 1 ∧
          allShipsSunk a.board = .ok v ∧
          (v = 1 → handleMouseClick x y g shipTemplates rnd fuel =
            .ok ⟨g.playerBoard, a.board,
              showFeedbackMessage { showFeedbackMessage g.state a.feedbackMsg with
                gameOver := 1, playerWon := 1 } "You Win! All enemy ships sunk!"⟩) ∧
          (v = 0 → handleMouseClick x y g shipTemplates rnd fuel =
            .ok ⟨g.playerBoard, a.board, showFeedbackMessage g.state a.feedbackMsg⟩) ∧
          (v = 1 ∨ v = 0)) := by
  have hin := click_inGrid x y 650 160 (by omega) (by omega)
  obtain ⟨c, hc⟩ := g.botBoard.cellAt_ok_of_inGrid hin
  have hbranch := handleMouseClick_attacking x y g shipTemplates rnd fuel hx hy hp ht hgo
  refine ⟨c, hc, ?_, ?_, ?_⟩
  · intro hcase
    rw [hbranch, hc]
    rcases hcase with rfl | rfl <;> simp
  · rintro rfl
    obtain ⟨a, ha, hret, -⟩ := (attack_frame g.botBoard _ _ "" hn).2 hc
    refine ⟨a, ha, hret, ?_⟩
    rw [hbranch, hc]
    simp [ha, hret]
  · rintro rfl
    obtain ⟨a, ha, hret, -⟩ := (attack_frame g.botBoard _ _ "" hn).1 hc
    obtain ⟨v, hv, hv01, -⟩ := allShipsSunk_spec a.board
    refine ⟨a, v, ha, hret, hv, ?_, ?_, hv01⟩
    · rintro rfl
      rw [hbranch, hc]
      simp [ha, hret, hv]
    · rintro rfl
      rw [hbranch, hc]
      simp [ha, hret, hv]

theorem botPick_zero (b : Board) (rnd : Nat → Nat) (k : Nat) :
    botPick b rnd 0 k = .outOfFuel := rfl

theorem botPick_succ (b : Board) (rnd : Nat → Nat) (fuel k : Nat) :
    botPick b rnd (fuel + 1) k =
      match b.cellAt ((rnd k % 10 : Nat) : Int) ((rnd (k + 1) % 10 : Nat) : Int) with
      | .ok c =>
        if c = CellState.HIT ∨ c = CellState.MISS then botPick b rnd fuel (k + 2)
        else .ok (((rnd k % 10 : Nat) : Int), ((rnd (k + 1) % 10 : Nat) : Int))
      | .outOfBounds => .outOfBounds
      | .outOfFuel => .outOfFuel := rfl

/-- The coordinate the loop of `botTurn` ends with lies inside the grid and its cell was not
attacked before. -/
theorem botPick_spec (b : Board) (rnd : Nat → Nat) (fuel k : Nat) (row col : Int)
    (h : botPick b rnd fuel k = .ok (row, col)) :
    ∃ c, b.cellAt row col = .ok c ∧ c ≠ CellState.HIT ∧ c ≠ CellState.MISS := by
  induction fuel generalizing k with
  | zero => rw [botPick_zero] at h; cases h
  | succ fuel ih =>
    rw [botPick_succ] at h
    cases hc : b.cellAt ((rnd k % 10 : Nat) : Int) ((rnd (k + 1) % 10 : Nat) : Int) with
    | ok c =>
      rw [hc] at h
      by_cases ht : c = CellState.HIT ∨ c = CellState.MISS
      · simp only [if_pos ht] at h
        exact ih (k + 2) h
      · simp only [if_neg ht] at h
        have e := Exec.ok.inj h
        have e1 : ((rnd k % 10 : Nat) : Int) = row := congrArg Prod.fst e
        have e2 : ((rnd (k + 1) % 10 : Nat) : Int) = col := congrArg Prod.snd e
        rw [e1, e2] at hc
        exact ⟨c, hc, fun h1 => ht (Or.inl h1), fun h1 => ht (Or.inr h1)⟩
    | outOfBounds => rw [hc] at h; cases h
    | outOfFuel => rw [hc] at h; cases h

/-- The two outcomes of the bot's turn, given the coordinate its loop ended with. -/
theorem bot_attack_outcome (g : Game) (rnd : Nat → Nat) (fuel : Nat) (row col : Int)
    (ht : g.state.playerTurn = 0) (hgo : g.state.gameOver = 0)
    (hn : g.playerBoard.numPlacedShips ≤ 5)
    (hpick : botPick g.playerBoard rnd fuel 0 = .ok (row, col)) :
    ∃ c, g.playerBoard.cellAt row col = .ok c ∧ (c = CellState.WATER ∨ c = CellState.SHIP) ∧
      (c = CellState.WATER →
        ∃ a, attack g.playerBoard row col "" = .ok a ∧ a.ret = 0 ∧
          botTurn g rnd fuel =
            .ok ⟨a.board, g.botBoard,
              { showFeedbackMessage g.state
                  ("Enemy attacks " ++ coordStr row col ++ " - " ++ a.feedbackMsg) with
                playerTurn := 1 }⟩) ∧
      (c = CellState.SHIP →
        ∃ a v, attack g.playerBoard row col "" = .ok a ∧ a.ret = 1 ∧
          allShipsSunk a.board = .ok v ∧
          (v = 1 → botTurn g rnd fuel =
            .ok ⟨a.board, g.botBoard,
              showFeedbackMessage { showFeedbackMessage g.state
                  ("Enemy attacks " ++ coordStr row col ++ " - " ++ a.feedbackMsg) with
                gameOver := 1, playerWon := 0 } "You Lose! All your ships sunk!"⟩) ∧
          (v = 0 → botTurn g rnd fuel =
            .ok ⟨a.board, g.botBoard, showFeedbackMessage g.state
                  ("Enemy attacks " ++ coordStr row col ++ " - " ++ a.feedbackMsg)⟩) ∧
          (v = 1 ∨ v = 0)) := by
  obtain ⟨c, hc, hnh, hnm⟩ := botPick_spec _ _ _ _ _ _ hpick
  have hcond : g.state.playerTurn = 0 ∧ g.state.gameOver = 0 := ⟨ht, hgo⟩
  refine ⟨c, hc, ?_, ?_, ?_⟩
  · cases c <;> simp at hnh hnm ⊢
  · rintro rfl
    obtain ⟨a, ha, hret, -⟩ := (attack_frame g.playerBoard _ _ "" hn).2 hc
    refine ⟨a, ha, hret, ?_⟩
    unfold botTurn
    rw [if_pos hcond, hpick]
    simp [ha, hret]
  · rintro rfl
    obtain ⟨a, ha, hret, -⟩ := (attack_frame g.playerBoard _ _ "" hn).1 hc
    obtain ⟨v, hv, hv01, -⟩ := allShipsSunk_spec a.board
    refine ⟨a, v, ha, hret, hv, ?_, ?_, hv01⟩
    · rintro rfl
      unfold botTurn
      rw [if_pos hcond, hpick]
      simp [ha, hret, hv]
    · rintro rfl
      unfold botTurn
      rw [if_pos hcond, hpick]
      simp [ha, hret, hv]

/-- C8. With the game not over: after a click of the human on the bot's grid in the battle phase
`playerTurn` is unchanged exactly when the targeted cell held a ship or had been attacked before,
and has passed to the bot (`playerTurn = 0`) exactly when the cell was `WATER`; a click on a cell
attacked before leaves both boards unchanged. After a turn of the bot, which never targets a cell
attacked before, `playerTurn` is unchanged exactly when the targeted cell held a ship and has
passed to the human (`playerTurn = 1`) exactly when the cell was `WATER`. -/
theorem turn_transfer (g : Game) (hgo : g.state.gameOver = 0)
    (hpb : g.playerBoard.numPlacedShips ≤ 5) (hbb : g.botBoard.numPlacedShips ≤ 5) :
    (∀ (x y : Int) (shipTemplates : Fin 5 → Ship) (rnd : Nat → Nat) (fuel : Nat),
      650 ≤ x ∧ x < 1000 → 160 ≤ y ∧ y < 510 →
      g.state.isPlacingShips = 0 → g.state.playerTurn ≠ 0 →
      ∃ c g1, g.botBoard.cellAt (gridCoord y 160) (gridCoord x 650) = .ok c ∧
        handleMouseClick x y g shipTemplates rnd fuel = .ok g1 ∧
        (g1.state.playerTurn = g.state.playerTurn ↔
          (c = CellState.SHIP ∨ c = CellState.HIT ∨ c = CellState.MISS)) ∧
        (g1.state.playerTurn = 0 ↔ c = CellState.WATER) ∧
        ((c = CellState.HIT ∨ c = CellState.MISS) →
          g1.playerBoard = g.playerBoard ∧ g1.botBoard = g.botBoard)) ∧
    (∀ (rnd : Nat → Nat) (fuel : Nat) (row col : Int),
      g.state.playerTurn = 0 → botPick g.playerBoard rnd fuel 0 = .ok (row, col) →
      ∃ c g1, g.playerBoard.cellAt row col = .ok c ∧
        botTurn g rnd fuel = .ok g1 ∧
        c ≠ CellState.HIT ∧ c ≠ CellState.MISS ∧
        (g1.state.playerTurn = g.state.playerTurn ↔ c = CellState.SHIP) ∧
        (g1.state.playerTurn = 1 ↔ c = CellState.WATER)) := by
  constructor
  · intro x y shipTemplates rnd fuel hx hy hp ht
    obtain ⟨c, hc, htried, hwater, hship⟩ :=
      human_attack_outcome x y g shipTemplates rnd fuel hx hy hp ht hgo hbb
    cases c with
    | WATER =>
      obtain ⟨a, -, -, hres⟩ := hwater rfl
      refine ⟨_, _, hc, hres, ?_, ?_, ?_⟩
      · simp only [reduceCtorEq, or_self, iff_false]
        exact fun h => ht h.symm
      · simp
      · simp
    | SHIP =>
      obtain ⟨a, v, -, -, -, h1, h0, hv⟩ := hship rfl
      rcases hv with rfl | rfl
      · refine ⟨_, _, hc, h1 rfl, ?_, ?_, ?_⟩
        · simp [showFeedbackMessage]
        · simp only [showFeedbackMessage, reduceCtorEq, iff_false]; exact ht
        · simp
      · refine ⟨_, _, hc, h0 rfl, ?_, ?_, ?_⟩
        · simp [showFeedbackMessage]
        · simp only [showFeedbackMessage, reduceCtorEq, iff_false]; exact ht
        · simp
    | HIT =>
      refine ⟨_, _, hc, htried (Or.inl rfl), ?_, ?_, ?_⟩
      · simp [showFeedbackMessage]
      · simp only [showFeedbackMessage, reduceCtorEq, iff_false]; exact ht
      · simp
    | MISS =>
      refine ⟨_, _, hc, htried (Or.inr rfl), ?_, ?_, ?_⟩
      · simp [showFeedbackMessage]
      · simp only [showFeedbackMessage, reduceCtorEq, iff_false]; exact ht
      · simp
  · intro rnd fuel row col ht hpick
    obtain ⟨c, hc, hcases, hwater, hship⟩ :=
      bot_attack_outcome g rnd fuel row col ht hgo hpb hpick
    rcases hcases with rfl | rfl
    · obtain ⟨a, -, -, hres⟩ := hwater rfl
      refine ⟨_, _, hc, hres, by decide, by decide, ?_, ?_⟩
      · simp only [reduceCtorEq, iff_false]
        rw [ht]; decide
      · simp
    · obtain ⟨a, v, -, -, -, h1, h0, hv⟩ := hship rfl
      rcases hv with rfl | rfl
      · refine ⟨_, _, hc, h1 rfl, by decide, by decide, ?_, ?_⟩
        · simp [showFeedbackMessage]
        · simp only [showFeedbackMessage, reduceCtorEq, iff_false]; rw [ht]; decide
      · refine ⟨_, _, hc, h0 rfl, by decide, by decide, ?_, ?_⟩
        · simp [showFeedbackMessage]
        · simp only [showFeedbackMessage, reduceCtorEq, iff_false]; rw [ht]; decide

/-- C8 at a concrete input: the game at the start of the battle. -/
theorem turn_transfer_witness :
    battleGame.state.gameOver = 0 ∧ battleGame.playerBoard.numPlacedShips ≤ 5 ∧
    battleGame.botBoard.numPlacedShips ≤ 5 ∧
    (∀ (x y : Int) (shipTemplates : Fin 5 → Ship) (rnd : Nat → Nat) (fuel : Nat),
      650 ≤ x ∧ x < 1000 → 160 ≤ y ∧ y < 510 →
      battleGame.state.isPlacingShips = 0 → battleGame.state.playerTurn ≠ 0 →
      ∃ c g1, battleGame.botBoard.cellAt (gridCoord y 160) (gridCoord x 650) = .ok c ∧
        handleMouseClick x y battleGame shipTemplates rnd fuel = .ok g1 ∧
        (g1.state.playerTurn = battleGame.state.playerTurn ↔
          (c = CellState.SHIP ∨ c = CellState.HIT ∨ c = CellState.MISS)) ∧
        (g1.state.playerTurn = 0 ↔ c = CellState.WATER) ∧
        ((c = CellState.HIT ∨ c = CellState.MISS) →
          g1.playerBoard = battleGame.playerBoard ∧ g1.botBoard = battleGame.botBoard)) :=
  ⟨by decide, by decide, by decide,
    (turn_transfer battleGame (by decide) (by decide) (by decide)).1⟩

/-! ## The bot's placement -/

theorem scanWater_result (b : Board) (cellOf : Int → Int × Int) (n : Nat) (i : Int) (r : Int)
    (h : scanWater b cellOf n i = .ok r) : r = 0 ∨ r = 1 := by
  induction n generalizing i with
  | zero => right; exact (Exec.ok.inj h).symm
  | succ n ih =>
    unfold scanWater at h
    cases hc : b.cellAt (cellOf i).1 (cellOf i).2 with
    | ok c =>
      rw [hc] at h
      by_cases hw : c ≠ CellState.WATER
      · simp only [if_pos hw] at h; left; exact (Exec.ok.inj h).symm
      · simp only [if_neg hw] at h; exact ih (i + 1) h
    | outOfBounds => rw [hc] at h; cases h
    | outOfFuel => rw [hc] at h; cases h

/-- `canPlaceShip` returns 0 or 1. -/
theorem canPlaceShip_result (b : Board) (row col size horizontal r : Int)
    (h : canPlaceShip b row col size horizontal = .ok r) : r = 0 ∨ r = 1 := by
  unfold canPlaceShip at h
  by_cases hh : horizontal ≠ 0
  · rw [if_pos hh] at h
    by_cases hg : addInt col size > GRID_SIZE
    · rw [if_pos hg] at h; left; exact (Exec.ok.inj h).symm
    · rw [if_neg hg] at h; exact scanWater_result _ _ _ _ _ h
  · rw [if_neg hh] at h
    by_cases hg : addInt row size > GRID_SIZE
    · rw [if_pos hg] at h; left; exact (Exec.ok.inj h).symm
    · rw [if_neg hg] at h; exact scanWater_result _ _ _ _ _ h

/-- A placement that `canPlaceShip` accepted, of a ship of length at least 1, leaves a `SHIP`
cell and one more ship on the board. -/
theorem placeShip_hasShip (board b1 : Board) (row col size horizontal idx : Int)
    (hin : InGrid row col) (hidx : 0 ≤ idx ∧ idx < 5) (hsize : 1 ≤ size)
    (hcan : canPlaceShip board row col size horizontal = .ok 1)
    (hplace : placeShip board row col size horizontal idx = .ok b1) :
    b1.HasShip ∧ b1.numPlacedShips = addInt board.numPlacedShips 1 := by
  have hfoot : ∀ i : Int, 0 ≤ i → i < size →
      InGrid (footprintCell row col horizontal i).1 (footprintCell row col horizontal i).2 :=
    fun i hi0 hi =>
      Board.cellAt_inGrid (footprint_of_canPlaceShip board row col size horizontal hin hcan i hi0 hi)
  obtain ⟨b2, hb2, hset, -, -, hnum⟩ := placeShip_spec board row col size horizontal idx hidx hfoot
  rw [hplace] at hb2
  cases hb2
  exact ⟨⟨_, _, hset 0 (le_refl _) (by omega)⟩, hnum⟩

theorem placeBotRetry_zero (size i : Int) (rnd : Nat → Nat) (k : Nat) (board : Board) :
    placeBotRetry size i rnd 0 k board = .outOfFuel := rfl

theorem placeBotRetry_succ (size i : Int) (rnd : Nat → Nat) (fuel k : Nat) (board : Board) :
    placeBotRetry size i rnd (fuel + 1) k board =
      match canPlaceShip board ((rnd k % 10 : Nat) : Int) ((rnd (k + 1) % 10 : Nat) : Int) size
          ((rnd (k + 2) % 2 : Nat) : Int) with
      | .ok r =>
        if r ≠ 0 then
          match placeShip board ((rnd k % 10 : Nat) : Int) ((rnd (k + 1) % 10 : Nat) : Int) size
              ((rnd (k + 2) % 2 : Nat) : Int) i with
          | .ok b1 => .ok (b1, k + 3)
          | .outOfBounds => .outOfBounds
          | .outOfFuel => .outOfFuel
        else placeBotRetry size i rnd fuel (k + 3) board
      | .outOfBounds => .outOfBounds
      | .outOfFuel => .outOfFuel := rfl

theorem placeBotRetry_hasShip (size i : Int) (rnd : Nat → Nat) (fuel k : Nat) (board : Board)
    (r : Board × Nat) (hidx : 0 ≤ i ∧ i < 5) (hsize : 1 ≤ size)
    (h : placeBotRetry size i rnd fuel k board = .ok r) :
    r.1.HasShip ∧ r.1.numPlacedShips = addInt board.numPlacedShips 1 := by
  induction fuel generalizing k with
  | zero => rw [placeBotRetry_zero] at h; cases h
  | succ fuel ih =>
    rw [placeBotRetry_succ] at h
    cases hc : canPlaceShip board ((rnd k % 10 : Nat) : Int) ((rnd (k + 1) % 10 : Nat) : Int)
        size ((rnd (k + 2) % 2 : Nat) : Int) with
    | ok v =>
      rw [hc] at h
      by_cases hv : v ≠ 0
      · simp only [if_pos hv] at h
        have hv1 : v = 1 := by
          rcases canPlaceShip_result _ _ _ _ _ _ hc with h0 | h1
          · exact absurd h0 hv
          · exact h1
        subst hv1
        cases hp : placeShip board ((rnd k % 10 : Nat) : Int) ((rnd (k + 1) % 10 : Nat) : Int)
            size ((rnd (k + 2) % 2 : Nat) : Int) i with
        | ok b1 =>
          rw [hp] at h
          cases h
          have hin : InGrid ((rnd k % 10 : Nat) : Int) ((rnd (k + 1) % 10 : Nat) : Int) := by
            unfold InGrid; omega
          exact placeShip_hasShip board b1 _ _ size _ i hin hidx hsize hc hp
        | outOfBounds => rw [hp] at h; cases h
        | outOfFuel => rw [hp] at h; cases h
      · simp only [if_neg hv] at h
        exact ih (k + 3) h
    | outOfBounds => rw [hc] at h; cases h
    | outOfFuel => rw [hc] at h; cases h

theorem Board.modifyShip_frame {b b1 : Board} {i : Int} {f : Ship → Ship}
    (h : b.modifyShip i f = .ok b1) :
    b1.grid = b.grid ∧ b1.numPlacedShips = b.numPlacedShips ∧ 0 ≤ i ∧ i < 5 := by
  by_cases hi : 0 ≤ i ∧ i < 5
  · rw [Board.modifyShip_eq b hi] at h
    cases h
    exact ⟨rfl, rfl, hi.1, hi.2⟩
  · simp [Board.modifyShip, Board.shipAt, hi] at h

theorem placeBotLoop_hasShip (shipTemplates : Fin 5 → Ship) (rnd : Nat → Nat) (fuel : Nat)
    (hsize : ∀ j, 1 ≤ (shipTemplates j).size)
    (n : Nat) (i : Int) (k : Nat) (board b1 : Board)
    (hcount : 0 ≤ board.numPlacedShips ∧ board.numPlacedShips + n ≤ 5)
    (h : placeBotLoop shipTemplates rnd fuel n i k board = .ok b1) :
    b1.numPlacedShips = board.numPlacedShips + n ∧ (1 ≤ n → b1.HasShip) := by
  induction n generalizing i k board with
  | zero =>
    cases h
    exact ⟨by simp, fun h0 => by omega⟩
  | succ n ih =>
    unfold placeBotLoop at h
    by_cases hi : 0 ≤ i ∧ i < 5
    · rw [templateAt_eq shipTemplates hi, Exec.ok_bind] at h
      rw [Board.modifyShip_eq board hi, Exec.ok_bind] at h
      rw [Exec.bind_eq_ok] at h
      obtain ⟨r, hr, hrest⟩ := h
      have hretry := placeBotRetry_hasShip _ i rnd fuel k _ r hi (hsize _) hr
      have hnum : r.1.numPlacedShips = board.numPlacedShips + 1 := by
        rw [hretry.2]
        exact addInt_eq (by simp only; omega) (by simp only; omega)
      have hih := ih (i + 1) r.2 r.1 (by push_cast at hcount; omega) hrest
      refine ⟨by rw [hih.1, hnum]; push_cast; omega, ?_⟩
      intro _
      rcases Nat.eq_zero_or_pos n with rfl | hpos
      · unfold placeBotLoop at hrest
        cases hrest
        exact hretry.1
      · exact hih.2 hpos
    · simp [templateAt, hi] at h

/-- A run of `placeBotShips` that finishes on a board without ships leaves five ships placed and
a `SHIP` cell. -/
theorem placeBotShips_hasShip (board b1 : Board) (rnd : Nat → Nat) (fuel : Nat)
    (h0 : board.numPlacedShips = 0)
    (h : placeBotShips board ships rnd fuel = .ok b1) :
    b1.numPlacedShips = 5 ∧ b1.HasShip := by
  unfold placeBotShips at h
  have := placeBotLoop_hasShip ships rnd fuel (fun j => by have := ships_size j; omega)
    5 0 0 board b1 (by rw [h0]; simp) h
  exact ⟨by rw [this.1, h0]; rfl, this.2 (by omega)⟩

/-! ## The invariant of the game -/

theorem allShipsSunk_eq_one_iff (b : Board) : allShipsSunk b = .ok 1 ↔ ¬ b.HasShip := by
  obtain ⟨v, hv, -, hiff⟩ := allShipsSunk_spec b
  rw [hv]
  unfold Board.HasShip
  constructor
  · intro e
    have := hiff.1 (Exec.ok.inj e)
    rintro ⟨r, c, hc⟩
    exact this r c hc
  · intro hno
    rw [hiff.2 (fun r c hc => hno ⟨r, c, hc⟩)]

theorem allShipsSunk_eq_zero_iff (b : Board) : allShipsSunk b = .ok 0 ↔ b.HasShip := by
  obtain ⟨v, hv, hv01, -⟩ := allShipsSunk_spec b
  have h1 := allShipsSunk_eq_one_iff b
  rw [hv] at h1 ⊢
  rcases hv01 with rfl | rfl
  · constructor
    · intro e; have := Exec.ok.inj e; omega
    · intro hs; exact absurd hs (h1.1 rfl)
  · constructor
    · intro _
      by_contra hno
      have := Exec.ok.inj (h1.2 hno)
      omega
    · intro _; rfl

/-- A click outside both branches of `handleMouseClick` changes nothing. -/
theorem handleMouseClick_idle (x y : Int) (g : Game) (shipTemplates : Fin 5 → Ship)
    (rnd : Nat → Nat) (fuel : Nat)
    (h1 : ¬ ((150 ≤ x ∧ x < 500) ∧ (160 ≤ y ∧ y < 510) ∧ g.state.isPlacingShips ≠ 0))
    (h2 : ¬ ((650 ≤ x ∧ x < 1000) ∧ (160 ≤ y ∧ y < 510) ∧ g.state.isPlacingShips = 0 ∧
      g.state.playerTurn ≠ 0 ∧ g.state.gameOver = 0)) :
    handleMouseClick x y g shipTemplates rnd fuel = .ok g := by
  have hc1 : ¬ (x ≥ GRID_OFFSET_X ∧ x < GRID_OFFSET_X + GRID_SIZE * CELL_SIZE ∧
      y ≥ GRID_OFFSET_Y ∧ y < GRID_OFFSET_Y + GRID_SIZE * CELL_SIZE ∧
      g.state.isPlacingShips ≠ 0) := by
    rintro ⟨a1, a2, a3, a4, a5⟩
    simp only [GRID_OFFSET_X, GRID_OFFSET_Y, GRID_SIZE, CELL_SIZE] at a1 a2 a3 a4
    exact h1 ⟨⟨by omega, by omega⟩, ⟨by omega, by omega⟩, a5⟩
  have hc2 : ¬ (x ≥ WINDOW_WIDTH / 2 + 50 ∧ x < WINDOW_WIDTH / 2 + 50 + GRID_SIZE * CELL_SIZE ∧
      y ≥ GRID_OFFSET_Y ∧ y < GRID_OFFSET_Y + GRID_SIZE * CELL_SIZE ∧
      g.state.isPlacingShips = 0 ∧ g.state.playerTurn ≠ 0 ∧ g.state.gameOver = 0) := by
    rintro ⟨a1, a2, a3, a4, a5, a6, a7⟩
    simp only [WINDOW_WIDTH, GRID_OFFSET_Y, GRID_SIZE, CELL_SIZE] at a1 a2 a3 a4
    exact h2 ⟨⟨by omega, by omega⟩, ⟨by omega, by omega⟩, a5, a6, a7⟩
  unfold handleMouseClick
  simp only [if_neg hc1, if_neg hc2]

theorem inv_startGame (pb bb : Board) (st : GameState) : (startGame pb bb st).Inv where
  playerCount := by simp [startGame, initBoard]
  botCount := by simp [startGame, initBoard]
  placing := fun _ => by simp [startGame, initBoard, initGameState]
  battle := fun h => by simp [startGame, initGameState] at h
  over := Or.inl rfl

/-- A miss keeps a `SHIP` cell on the board, a hit that leaves `allShipsSunk` at 0 as well. -/
theorem hasShip_after_miss {b : Board} {row col : Int} (hs : b.HasShip)
    (hc : b.cellAt row col = .ok CellState.WATER) {a : AttackResult}
    (ha : attack b row col "" = .ok a) : a.board.HasShip ∧
      a.board.numPlacedShips = b.numPlacedShips := by
  obtain ⟨b1, hb1, e⟩ := attack_water_eq b row col "" hc
  rw [e] at ha
  cases ha
  obtain ⟨r, c, hrc⟩ := hs
  refine ⟨⟨r, c, ?_⟩, (Board.setCell_ships hb1).2⟩
  rw [Board.cellAt_setCell_other hb1]
  · exact hrc
  · intro e1
    have e2 : r = row := congrArg Prod.fst e1
    have e3 : c = col := congrArg Prod.snd e1
    rw [e2, e3, hc] at hrc
    cases hrc

/-- The state after a placement click that `canPlaceShip` accepted. -/
theorem placement_click_accepted (x y : Int) (g g1 : Game) (rnd : Nat → Nat) (fuel : Nat)
    (hx : 150 ≤ x ∧ x < 500) (hy : 160 ≤ y ∧ y < 510) (hp : g.state.isPlacingShips ≠ 0)
    (hidx : 0 ≤ g.state.currentShipIndex ∧ g.state.currentShipIndex < 5)
    (hcan : canPlaceShip g.playerBoard (gridCoord y 160) (gridCoord x 150)
      (ships ⟨g.state.currentShipIndex.toNat, by omega⟩).size g.state.isHorizontal = .ok 1)
    (h : handleMouseClick x y g ships rnd fuel = .ok g1) :
    placeFromTemplate g.playerBoard (ships ⟨g.state.currentShipIndex.toNat, by omega⟩)
      (gridCoord y 160) (gridCoord x 150) g.state.isHorizontal g.state.currentShipIndex =
      .ok g1.playerBoard ∧
    g1.state.currentShipIndex = g.state.currentShipIndex + 1 ∧
    g1.state.gameOver = g.state.gameOver ∧ g1.state.playerTurn = g.state.playerTurn ∧
    g1.state.playerWon = g.state.playerWon ∧ g1.state.isHorizontal = g.state.isHorizontal ∧
    (g.state.currentShipIndex < 4 →
      g1.state.isPlacingShips = g.state.isPlacingShips ∧ g1.botBoard = g.botBoard) ∧
    (g.state.currentShipIndex = 4 →
      g1.state.isPlacingShips = 0 ∧
      placeBotShips g.botBoard ships rnd fuel = .ok g1.botBoard) := by
  have hin := click_inGrid x y 150 160 (by omega) (by omega)
  obtain ⟨pb, hpb, -⟩ := placeFromTemplate_spec g.playerBoard
    (ships ⟨g.state.currentShipIndex.toNat, by omega⟩) (gridCoord y 160) (gridCoord x 150)
    g.state.isHorizontal g.state.currentShipIndex hin hidx hcan
  have hadd : addInt g.state.currentShipIndex 1 = g.state.currentShipIndex + 1 :=
    addInt_eq (by omega) (by omega)
  rw [handleMouseClick_placing x y g ships rnd fuel hx hy hp, templateAt_eq _ hidx] at h
  simp only [Exec.ok_bind] at h
  change (canPlaceShip g.playerBoard (gridCoord y 160) (gridCoord x 150) _ _ >>= _) = _ at h
  rw [hcan] at h
  simp only [Exec.ok_bind, ne_eq, one_ne_zero, not_false_eq_true, if_true] at h
  change (placeFromTemplate g.playerBoard _ (gridCoord y 160) (gridCoord x 150) _ _ >>= _) = _
    at h
  rw [hpb] at h
  simp only [Exec.ok_bind, showFeedbackMessage, hadd] at h
  by_cases h4 : g.state.currentShipIndex + 1 ≥ NUM_SHIPS
  · rw [if_pos h4] at h
    rw [Exec.bind_eq_ok] at h
    obtain ⟨bb, hbb, hres⟩ := h
    cases hres
    simp only [NUM_SHIPS] at h4
    refine ⟨hpb, rfl, rfl, rfl, rfl, rfl, fun hlt => by omega, fun _ => ⟨rfl, hbb⟩⟩
  · rw [if_neg h4] at h
    cases h
    simp only [NUM_SHIPS] at h4
    refine ⟨hpb, rfl, rfl, rfl, rfl, rfl, fun _ => ⟨rfl, rfl⟩, fun h4' => by omega⟩

/-- A click keeps the invariant of the game. -/
theorem inv_click {g g1 : Game} (h : g.Inv) (x y : Int) (rnd : Nat → Nat) (fuel : Nat)
    (hstep : handleMouseClick x y g ships rnd fuel = .ok g1) : g1.Inv := by
  by_cases hA : (150 ≤ x ∧ x < 500) ∧ (160 ≤ y ∧ y < 510) ∧ g.state.isPlacingShips ≠ 0
  · -- a placement click
    obtain ⟨hx, hy, hp⟩ := hA
    obtain ⟨hgo, hturn, hi0, hi5, hpc, hbc⟩ := h.placing hp
    have hidx : 0 ≤ g.state.currentShipIndex ∧ g.state.currentShipIndex < 5 := ⟨hi0, hi5⟩
    have hin := click_inGrid x y 150 160 (by omega) (by omega)
    cases hcan : canPlaceShip g.playerBoard (gridCoord y 160) (gridCoord x 150)
        (ships ⟨g.state.currentShipIndex.toNat, by omega⟩).size g.state.isHorizontal with
    | ok r =>
      rcases canPlaceShip_result _ _ _ _ _ _ hcan with rfl | rfl
      · -- refused
        rw [handleMouseClick_placing x y g ships rnd fuel hx hy hp, templateAt_eq _ hidx] at hstep
        simp only [Exec.ok_bind] at hstep
        change (canPlaceShip g.playerBoard (gridCoord y 160) (gridCoord x 150) _ _ >>= _) = _
          at hstep
        rw [hcan] at hstep
        simp only [Exec.ok_bind, ne_eq, not_true_eq_false, if_false, Exec.pure_eq] at hstep
        cases hstep
        exact ⟨h.playerCount, h.botCount, h.placing, h.battle, h.over⟩
      · -- accepted
        obtain ⟨hpb, hci, hgo1, hturn1, -, -, hlt, h4⟩ :=
          placement_click_accepted x y g g1 rnd fuel hx hy hp hidx hcan hstep
        obtain ⟨pb, hpb', hset, -, -, -, hnum⟩ := placeFromTemplate_spec g.playerBoard
          (ships ⟨g.state.currentShipIndex.toNat, by omega⟩) (gridCoord y 160) (gridCoord x 150)
          g.state.isHorizontal g.state.currentShipIndex hin hidx hcan
        rw [hpb] at hpb'
        cases hpb'
        have hsz := ships_size ⟨g.state.currentShipIndex.toNat, by omega⟩
        have hnum1 : g1.playerBoard.numPlacedShips = g.state.currentShipIndex + 1 := by
          rw [hnum, hpc]; exact addInt_eq (by omega) (by omega)
        have hps : g1.playerBoard.HasShip := ⟨_, _, hset 0 (le_refl _) (by omega)⟩
        by_cases hlast : g.state.currentShipIndex = 4
        · obtain ⟨hp1, hbot⟩ := h4 hlast
          obtain ⟨hb5, hbs⟩ := placeBotShips_hasShip g.botBoard g1.botBoard rnd fuel hbc hbot
          refine ⟨by omega, by omega, fun hne => absurd hp1 hne, fun _ _ => ⟨hps, hbs⟩, ?_⟩
          rw [hgo1]; exact h.over
        · obtain ⟨hp1, hbot⟩ := hlt (by omega)
          refine ⟨by omega, by rw [hbot]; exact h.botCount, ?_, ?_, ?_⟩
          · intro _
            rw [hgo1, hturn1, hci, hbot]
            exact ⟨hgo, hturn, by omega, by omega, hnum1, hbc⟩
          · intro hz
            rw [hp1] at hz
            exact absurd hz hp
          · rw [hgo1]; exact h.over
    | outOfBounds =>
      rw [handleMouseClick_placing x y g ships rnd fuel hx hy hp, templateAt_eq _ hidx] at hstep
      simp only [Exec.ok_bind] at hstep
      change (canPlaceShip g.playerBoard (gridCoord y 160) (gridCoord x 150) _ _ >>= _) = _
        at hstep
      rw [hcan] at hstep
      cases hstep
    | outOfFuel =>
      rw [handleMouseClick_placing x y g ships rnd fuel hx hy hp, templateAt_eq _ hidx] at hstep
      simp only [Exec.ok_bind] at hstep
      change (canPlaceShip g.playerBoard (gridCoord y 160) (gridCoord x 150) _ _ >>= _) = _
        at hstep
      rw [hcan] at hstep
      cases hstep
  · by_cases hB : (650 ≤ x ∧ x < 1000) ∧ (160 ≤ y ∧ y < 510) ∧ g.state.isPlacingShips = 0 ∧
        g.state.playerTurn ≠ 0 ∧ g.state.gameOver = 0
    · -- an attack click
      obtain ⟨hx, hy, hp, ht, hgo⟩ := hB
      obtain ⟨hps, hbs⟩ := h.battle hp hgo
      have hplacing : ∀ st : GameState, st.isPlacingShips = 0 →
          (st.isPlacingShips ≠ 0 → st.gameOver = 0 ∧ st.playerTurn ≠ 0 ∧
            0 ≤ st.currentShipIndex ∧ st.currentShipIndex < 5 ∧
            g.playerBoard.numPlacedShips = st.currentShipIndex ∧
            (0 : Int) = 0) := fun st h0 hne => absurd h0 hne
      obtain ⟨c, hc, htried, hwater, hship⟩ :=
        human_attack_outcome x y g ships rnd fuel hx hy hp ht hgo h.botCount
      cases c with
      | WATER =>
        obtain ⟨a, ha, -, hres⟩ := hwater rfl
        rw [hres] at hstep
        cases hstep
        obtain ⟨hs1, hn1⟩ := hasShip_after_miss hbs hc ha
        refine ⟨h.playerCount, by rw [hn1]; exact h.botCount, fun hne => absurd hp hne,
          fun _ _ => ⟨hps, hs1⟩, Or.inl hgo⟩
      | SHIP =>
        obtain ⟨a, v, ha, -, hv, h1, h0, hv01⟩ := hship rfl
        obtain ⟨a', ha', -, -, -, hn1, -⟩ := (attack_frame g.botBoard _ _ "" h.botCount).1 hc
        rw [ha] at ha'
        cases ha'
        rcases hv01 with rfl | rfl
        · rw [h1 rfl] at hstep
          cases hstep
          refine ⟨h.playerCount, by rw [hn1]; exact h.botCount, fun hne => absurd hp hne,
            fun _ hz => ?_, Or.inr rfl⟩
          simp [showFeedbackMessage] at hz
        · rw [h0 rfl] at hstep
          cases hstep
          refine ⟨h.playerCount, by rw [hn1]; exact h.botCount, fun hne => absurd hp hne,
            fun _ _ => ⟨hps, (allShipsSunk_eq_zero_iff _).1 hv⟩, Or.inl hgo⟩
      | HIT =>
        rw [htried (Or.inl rfl)] at hstep
        cases hstep
        exact ⟨h.playerCount, h.botCount, h.placing, h.battle, h.over⟩
      | MISS =>
        rw [htried (Or.inr rfl)] at hstep
        cases hstep
        exact ⟨h.playerCount, h.botCount, h.placing, h.battle, h.over⟩
    · rw [handleMouseClick_idle x y g ships rnd fuel hA hB] at hstep
      cases hstep
      exact h

/-- A turn of the bot keeps the invariant of the game. -/
theorem inv_botTurn {g g1 : Game} (h : g.Inv) (rnd : Nat → Nat) (fuel : Nat)
    (hstep : botTurn g rnd fuel = .ok g1) : g1.Inv := by
  by_cases hcond : g.state.playerTurn = 0 ∧ g.state.gameOver = 0
  · obtain ⟨ht, hgo⟩ := hcond
    have hp : g.state.isPlacingShips = 0 := by
      by_contra hne
      exact (h.placing hne).2.1 ht
    obtain ⟨hps, hbs⟩ := h.battle hp hgo
    cases hpick : botPick g.playerBoard rnd fuel 0 with
    | ok p =>
      obtain ⟨row, col⟩ := p
      obtain ⟨c, hc, hcases, hwater, hship⟩ :=
        bot_attack_outcome g rnd fuel row col ht hgo h.playerCount hpick
      rcases hcases with rfl | rfl
      · obtain ⟨a, ha, -, hres⟩ := hwater rfl
        rw [hres] at hstep
        cases hstep
        obtain ⟨hs1, hn1⟩ := hasShip_after_miss hps hc ha
        refine ⟨by rw [hn1]; exact h.playerCount, h.botCount, fun hne => absurd hp hne,
          fun _ _ => ⟨hs1, hbs⟩, Or.inl hgo⟩
      · obtain ⟨a, v, ha, -, hv, h1, h0, hv01⟩ := hship rfl
        obtain ⟨a', ha', -, -, -, hn1, -⟩ :=
          (attack_frame g.playerBoard _ _ "" h.playerCount).1 hc
        rw [ha] at ha'
        cases ha'
        rcases hv01 with rfl | rfl
        · rw [h1 rfl] at hstep
          cases hstep
          refine ⟨by rw [hn1]; exact h.playerCount, h.botCount, fun hne => absurd hp hne,
            fun _ hz => ?_, Or.inr rfl⟩
          simp [showFeedbackMessage] at hz
        · rw [h0 rfl] at hstep
          cases hstep
          refine ⟨by rw [hn1]; exact h.playerCount, h.botCount, fun hne => absurd hp hne,
            fun _ _ => ⟨(allShipsSunk_eq_zero_iff _).1 hv, hbs⟩, Or.inl hgo⟩
    | outOfBounds =>
      unfold botTurn at hstep
      rw [if_pos ⟨ht, hgo⟩, hpick] at hstep
      cases hstep
    | outOfFuel =>
      unfold botTurn at hstep
      rw [if_pos ⟨ht, hgo⟩, hpick] at hstep
      cases hstep
  · unfold botTurn at hstep
    rw [if_neg hcond] at hstep
    cases hstep
    exact h

/-- Every state the game can be in satisfies the invariant. -/
theorem Reachable.gameInv {g : Game} (h : Reachable g) : g.Inv := by
  induction h with
  | start pb bb st => exact inv_startGame pb bb st
  | step g g1 _ hs ih =>
    cases hs with
    | click _ x y rnd fuel hc => exact inv_click ih x y rnd fuel hc
    | space hp => exact ⟨ih.playerCount, ih.botCount, ih.placing, ih.battle, ih.over⟩
    | bot _ rnd fuel hb => exact inv_botTurn ih rnd fuel hb
    | expire => exact ⟨ih.playerCount, ih.botCount, ih.placing, ih.battle, ih.over⟩

/-! ## End of the game -/

theorem playClicks_reachable (l : List (Int × Int)) (g : Game) (h : Reachable g) :
    Reachable (playClicks l g) := by
  induction l generalizing g with
  | nil => exact h
  | cons p ps ih =>
    unfold playClicks
    cases hm : handleMouseClick p.1 p.2 g ships rowByRow 1 with
    | ok g1 => exact ih g1 (Reachable.step g g1 h (Step.click g g1 p.1 p.2 rowByRow 1 hm))
    | outOfBounds => exact ih g h
    | outOfFuel => exact ih g h

theorem battleGame_reachable : Reachable battleGame :=
  playClicks_reachable _ _ (Reachable.start _ _ _)

theorem wonGame_reachable : Reachable wonGame :=
  playClicks_reachable _ _ battleGame_reachable

/-- After an attack click in a running battle `gameOver` tells whether the bot's board has a
`SHIP` cell left. -/
theorem human_attack_game_over {g : Game} (h : g.Inv) (x y : Int) (rnd : Nat → Nat)
    (fuel : Nat) (hx : 650 ≤ x ∧ x < 1000) (hy : 160 ≤ y ∧ y < 510)
    (hp : g.state.isPlacingShips = 0) (ht : g.state.playerTurn ≠ 0)
    (hgo : g.state.gameOver = 0)
    (hnh : g.botBoard.cellAt (gridCoord y 160) (gridCoord x 650) ≠ .ok CellState.HIT)
    (hnm : g.botBoard.cellAt (gridCoord y 160) (gridCoord x 650) ≠ .ok CellState.MISS) :
    ∃ g1, handleMouseClick x y g ships rnd fuel = .ok g1 ∧
      (g1.state.gameOver = 1 ↔ allShipsSunk g1.botBoard = .ok 1) ∧
      (g1.state.gameOver = 0 ↔ allShipsSunk g1.botBoard = .ok 0) ∧
      (g1.state.gameOver = 1 → g1.state.playerWon = 1) := by
  obtain ⟨c, hc, -, hwater, hship⟩ :=
    human_attack_outcome x y g ships rnd fuel hx hy hp ht hgo h.botCount
  obtain ⟨-, hbs⟩ := h.battle hp hgo
  cases c with
  | WATER =>
    obtain ⟨a, ha, -, hres⟩ := hwater rfl
    have hs1 := (hasShip_after_miss hbs hc ha).1
    have hz := (allShipsSunk_eq_zero_iff a.board).2 hs1
    refine ⟨_, hres, ?_, ?_, ?_⟩
    · simp only [showFeedbackMessage, hgo, hz]
      simp
    · simp only [showFeedbackMessage, hgo, hz]
    · simp only [showFeedbackMessage, hgo]
      intro h0; omega
  | SHIP =>
    obtain ⟨a, v, -, -, hv, h1, h0, hv01⟩ := hship rfl
    rcases hv01 with rfl | rfl
    · refine ⟨_, h1 rfl, ?_, ?_, ?_⟩
      · simp only [showFeedbackMessage, hv]
      · simp only [showFeedbackMessage, hv]
        simp
      · intro _; rfl
    · refine ⟨_, h0 rfl, ?_, ?_, ?_⟩
      · simp only [showFeedbackMessage, hgo, hv]
        simp
      · simp only [showFeedbackMessage, hgo, hv]
      · simp only [showFeedbackMessage, hgo]
        intro h0; omega
  | HIT => exact absurd hc hnh
  | MISS => exact absurd hc hnm

/-- After a turn of the bot in a running game `gameOver` tells whether the player's board has a
`SHIP` cell left. -/
theorem bot_attack_game_over {g : Game} (h : g.Inv) (rnd : Nat → Nat) (fuel : Nat)
    (row col : Int) (ht : g.state.playerTurn = 0) (hgo : g.state.gameOver = 0)
    (hpick : botPick g.playerBoard rnd fuel 0 = .ok (row, col)) :
    ∃ g1, botTurn g rnd fuel = .ok g1 ∧
      (g1.state.gameOver = 1 ↔ allShipsSunk g1.playerBoard = .ok 1) ∧
      (g1.state.gameOver = 0 ↔ allShipsSunk g1.playerBoard = .ok 0) ∧
      (g1.state.gameOver = 1 → g1.state.playerWon = 0) := by
  have hp : g.state.isPlacingShips = 0 := by
    by_contra hne
    exact (h.placing hne).2.1 ht
  obtain ⟨hps, -⟩ := h.battle hp hgo
  obtain ⟨c, hc, hcases, hwater, hship⟩ :=
    bot_attack_outcome g rnd fuel row col ht hgo h.playerCount hpick
  rcases hcases with rfl | rfl
  · obtain ⟨a, ha, -, hres⟩ := hwater rfl
    have hs1 := (hasShip_after_miss hps hc ha).1
    have hz := (allShipsSunk_eq_zero_iff a.board).2 hs1
    refine ⟨_, hres, ?_, ?_, ?_⟩
    · simp only [showFeedbackMessage, hgo, hz]
      simp
    · simp only [showFeedbackMessage, hgo, hz]
    · simp only [showFeedbackMessage, hgo]
      intro h0; omega
  · obtain ⟨a, v, -, -, hv, h1, h0, hv01⟩ := hship rfl
    rcases hv01 with rfl | rfl
    · refine ⟨_, h1 rfl, ?_, ?_, ?_⟩
      · simp only [showFeedbackMessage, hv]
      · simp only [showFeedbackMessage, hv]
        simp
      · intro _; rfl
    · refine ⟨_, h0 rfl, ?_, ?_, ?_⟩
      · simp only [showFeedbackMessage, hgo, hv]
        simp
      · simp only [showFeedbackMessage, hgo, hv]
      · simp only [showFeedbackMessage, hgo]
        intro h0; omega

/-- C9. In every state reachable from the start of the game in which the battle is running
(`isPlacingShips = 0`, `gameOver = 0`): both boards hold at least one `SHIP` cell; after an attack
click of the human on a cell not attacked before, `gameOver` is 1 exactly when `allShipsSunk`
returns 1 on the bot's board and 0 exactly when it returns 0, whether the attack hit or missed,
and `playerWon` is 1 when the game is over; after a turn of the bot, `gameOver` is 1 exactly when
`allShipsSunk` returns 1 on the player's board and 0 exactly when it returns 0, and `playerWon`
is 0 when the game is over. -/
theorem game_over_iff_all_sunk (g : Game) (hr : Reachable g)
    (hp : g.state.isPlacingShips = 0) (hgo : g.state.gameOver = 0) :
    (g.playerBoard.HasShip ∧ g.botBoard.HasShip) ∧
    (∀ (x y : Int) (rnd : Nat → Nat) (fuel : Nat),
      650 ≤ x ∧ x < 1000 → 160 ≤ y ∧ y < 510 → g.state.playerTurn ≠ 0 →
      g.botBoard.cellAt (gridCoord y 160) (gridCoord x 650) ≠ .ok CellState.HIT →
      g.botBoard.cellAt (gridCoord y 160) (gridCoord x 650) ≠ .ok CellState.MISS →
      ∃ g1, handleMouseClick x y g ships rnd fuel = .ok g1 ∧
        (g1.state.gameOver = 1 ↔ allShipsSunk g1.botBoard = .ok 1) ∧
        (g1.state.gameOver = 0 ↔ allShipsSunk g1.botBoard = .ok 0) ∧
        (g1.state.gameOver = 1 → g1.state.playerWon = 1)) ∧
    (∀ (rnd : Nat → Nat) (fuel : Nat) (row col : Int),
      g.state.playerTurn = 0 → botPick g.playerBoard rnd fuel 0 = .ok (row, col) →
      ∃ g1, botTurn g rnd fuel = .ok g1 ∧
        (g1.state.gameOver = 1 ↔ allShipsSunk g1.playerBoard = .ok 1) ∧
        (g1.state.gameOver = 0 ↔ allShipsSunk g1.playerBoard = .ok 0) ∧
        (g1.state.gameOver = 1 → g1.state.playerWon = 0)) := by
  have h := hr.gameInv
  refine ⟨h.battle hp hgo, ?_, ?_⟩
  · intro x y rnd fuel hx hy ht hnh hnm
    exact human_attack_game_over h x y rnd fuel hx hy hp ht hgo hnh hnm
  · intro rnd fuel row col ht hpick
    exact bot_attack_game_over h rnd fuel row col ht hgo hpick

/-- C9 at a concrete input: the game at the start of the battle. -/
theorem game_over_iff_all_sunk_witness :
    Reachable battleGame ∧ battleGame.state.isPlacingShips = 0 ∧
    battleGame.state.gameOver = 0 ∧
    (battleGame.playerBoard.HasShip ∧ battleGame.botBoard.HasShip) ∧
    (∀ (x y : Int) (rnd : Nat → Nat) (fuel : Nat),
      650 ≤ x ∧ x < 1000 → 160 ≤ y ∧ y < 510 → battleGame.state.playerTurn ≠ 0 →
      battleGame.botBoard.cellAt (gridCoord y 160) (gridCoord x 650) ≠ .ok CellState.HIT →
      battleGame.botBoard.cellAt (gridCoord y 160) (gridCoord x 650) ≠ .ok CellState.MISS →
      ∃ g1, handleMouseClick x y battleGame ships rnd fuel = .ok g1 ∧
        (g1.state.gameOver = 1 ↔ allShipsSunk g1.botBoard = .ok 1) ∧
        (g1.state.gameOver = 0 ↔ allShipsSunk g1.botBoard = .ok 0) ∧
        (g1.state.gameOver = 1 → g1.state.playerWon = 1)) :=
  ⟨battleGame_reachable, by decide, by decide,
    (game_over_iff_all_sunk battleGame battleGame_reachable (by decide) (by decide)).1,
    (game_over_iff_all_sunk battleGame battleGame_reachable (by decide) (by decide)).2.1⟩

/-- C10. `GameOver` is terminal: in every reachable state with `gameOver = 1`, every mouse click
at any position and every call of `botTurn` finishes and leaves the game exactly as it was: both
boards, `playerTurn`, `gameOver`, `playerWon`, `currentShipIndex`, `isPlacingShips` and the
feedback message. -/
theorem game_over_terminal (g : Game) (hr : Reachable g) (hgo : g.state.gameOver = 1) :
    (∀ (x y : Int) (rnd : Nat → Nat) (fuel : Nat),
      handleMouseClick x y g ships rnd fuel = .ok g) ∧
    (∀ (rnd : Nat → Nat) (fuel : Nat), botTurn g rnd fuel = .ok g) := by
  have h := hr.gameInv
  have hp : g.state.isPlacingShips = 0 := by
    by_contra hne
    have := (h.placing hne).1
    omega
  constructor
  · intro x y rnd fuel
    refine handleMouseClick_idle x y g ships rnd fuel (fun hc => hc.2.2 hp) (fun hc => ?_)
    have := hc.2.2.2.2
    omega
  · intro rnd fuel
    unfold botTurn
    rw [if_neg (fun hc => by have := hc.2; omega)]

set_option maxRecDepth 100000

/-- C10 at a concrete input: the game after the human has sunk the five ships of the bot. -/
theorem game_over_terminal_witness :
    Reachable wonGame ∧ wonGame.state.gameOver = 1 ∧
    (∀ (x y : Int) (rnd : Nat → Nat) (fuel : Nat),
      handleMouseClick x y wonGame ships rnd fuel = .ok wonGame) ∧
    (∀ (rnd : Nat → Nat) (fuel : Nat), botTurn wonGame rnd fuel = .ok wonGame) :=
  ⟨wonGame_reachable, by decide, game_over_terminal wonGame wonGame_reachable (by decide)⟩

/-! ## Counting cells and hits -/

theorem Board.countCells_congr {b b1 : Board} (h : b1.grid = b.grid) (w : CellState) :
    b1.countCells w = b.countCells w := by
  unfold Board.countCells; rw [h]

/-- A write to one cell moves one unit from the count of the value the cell held to the count of
the value written. -/
theorem Board.countCells_setCell {b b1 : Board} {row col : Int} {u v : CellState}
    (hset : b.setCell row col v = .ok b1) (hold : b.cellAt row col = .ok u) (w : CellState) :
    (b1.countCells w : Int) =
      b.countCells w + (if w = v then 1 else 0) - (if w = u then 1 else 0) := by
  obtain ⟨hin, hu⟩ := (Board.cellAt_eq_ok_iff b row col u).1 hold
  unfold Board.setCell at hset
  rw [dif_pos hin] at hset
  have hb1 := Exec.ok.inj hset
  subst hb1
  unfold Board.countCells
  simp only
  have hmem : ((⟨row.toNat, by omega⟩, ⟨col.toNat, by omega⟩) : Fin 10 × Fin 10) ∈
      (Finset.univ : Finset (Fin 10 × Fin 10)) := Finset.mem_univ _
  rw [← Finset.add_sum_erase _ _ hmem, ← Finset.add_sum_erase _ _ hmem]
  have hrest : ∀ p ∈ (Finset.univ : Finset (Fin 10 × Fin 10)).erase
      (⟨row.toNat, by omega⟩, ⟨col.toNat, by omega⟩),
      (if (if p.1 = ⟨row.toNat, by omega⟩ ∧ p.2 = ⟨col.toNat, by omega⟩ then v
        else b.grid p.1 p.2) = w then 1 else 0) = (if b.grid p.1 p.2 = w then 1 else 0) := by
    intro p hp
    have hne := Finset.ne_of_mem_erase hp
    have : ¬ (p.1 = ⟨row.toNat, by omega⟩ ∧ p.2 = ⟨col.toNat, by omega⟩) := by
      rintro ⟨e1, e2⟩
      exact hne (Prod.ext e1 e2)
    rw [if_neg this]
  rw [Finset.sum_congr rfl hrest]
  simp only [and_self, if_true, hu]
  push_cast
  by_cases h1 : v = w <;> by_cases h2 : u = w <;> simp [h1, h2, eq_comm]
  all_goals omega

/-- The loop of `placeShip` on cells that are pairwise different and hold `WATER`: each of the
`n` writes turns one `WATER` cell into a `SHIP` cell. -/
theorem fillShip_count (cellOf : Int → Int × Int) (n : Nat) (i : Int) (b b1 : Board)
    (hinj : ∀ j1 j2 : Nat, j1 < n → j2 < n → cellOf (i + j1) = cellOf (i + j2) → j1 = j2)
    (hwater : ∀ j : Nat, j < n →
      b.cellAt (cellOf (i + j)).1 (cellOf (i + j)).2 = .ok CellState.WATER)
    (h : fillShip cellOf n i b = .ok b1) (w : CellState) :
    (b1.countCells w : Int) =
      b.countCells w + (if w = CellState.SHIP then (n : Int) else 0) -
        (if w = CellState.WATER then (n : Int) else 0) := by
  induction n generalizing i b with
  | zero =>
    cases h
    simp
  | succ n ih =>
    unfold fillShip at h
    have h0 := hwater 0 (Nat.succ_pos _)
    simp only [Nat.cast_zero, add_zero] at h0
    obtain ⟨b0, hb0⟩ := b.setCell_ok (Board.cellAt_inGrid h0) CellState.SHIP
    rw [hb0] at h
    have hstep := Board.countCells_setCell hb0 h0 w
    have hrec := ih (i + 1) b0
      (by
        intro j1 j2 hj1 hj2 e
        have e1 : i + 1 + (j1 : Int) = i + ((j1 + 1 : Nat) : Int) := by push_cast; omega
        have e2 : i + 1 + (j2 : Int) = i + ((j2 + 1 : Nat) : Int) := by push_cast; omega
        rw [e1, e2] at e
        have := hinj (j1 + 1) (j2 + 1) (by omega) (by omega) e
        omega)
      (by
        intro j hj
        have e1 : i + 1 + (j : Int) = i + ((j + 1 : Nat) : Int) := by push_cast; omega
        rw [e1, Board.cellAt_setCell_other hb0]
        · exact hwater (j + 1) (by omega)
        · intro e
          have e' : cellOf (i + ((j + 1 : Nat) : Int)) = cellOf (i + ((0 : Nat) : Int)) := by
            simp only [Nat.cast_zero, add_zero]
            exact Prod.ext (congrArg Prod.fst e) (congrArg Prod.snd e)
          have := hinj (j + 1) 0 (by omega) (by omega) e'
          omega)
      h
    rw [hrec, hstep]
    push_cast
    by_cases h1 : w = CellState.SHIP <;> by_cases h2 : w = CellState.WATER <;> simp [h1, h2]
    all_goals omega

theorem footprintCell_inj (row col horizontal : Int) {i j : Int}
    (h : footprintCell row col horizontal i = footprintCell row col horizontal j) : i = j := by
  unfold footprintCell at h
  by_cases hh : horizontal ≠ 0
  · simp only [if_pos hh, Prod.mk.injEq] at h; omega
  · simp only [if_neg hh, Prod.mk.injEq] at h; omega

/-- `placeShip` on a footprint that holds `WATER` turns `size` cells from `WATER` to `SHIP`. -/
theorem placeShip_count (board b1 : Board) (row col size horizontal idx : Int)
    (hidx : 0 ≤ idx ∧ idx < 5)
    (hwater : ∀ i : Int, 0 ≤ i → i < size →
      board.cellAt (footprintCell row col horizontal i).1
        (footprintCell row col horizontal i).2 = .ok CellState.WATER)
    (h : placeShip board row col size horizontal idx = .ok b1) (w : CellState) :
    (b1.countCells w : Int) =
      board.countCells w + (if w = CellState.SHIP then (size.toNat : Int) else 0) -
        (if w = CellState.WATER then (size.toNat : Int) else 0) := by
  have hfoot : ∀ i : Int, 0 ≤ i → i < size →
      InGrid (footprintCell row col horizontal i).1 (footprintCell row col horizontal i).2 :=
    fun i hi0 hi => Board.cellAt_inGrid (hwater i hi0 hi)
  have hloop := loop_cell_eq_footprint row col size horizontal hfoot
  have hg : ¬ (idx < 0 ∨ idx ≥ NUM_SHIPS) := by simp only [NUM_SHIPS]; omega
  unfold placeShip at h
  rw [if_neg hg, Board.modifyShip_eq board hidx] at h
  simp only [Exec.ok_bind] at h
  rw [Exec.bind_eq_ok] at h
  obtain ⟨b2, hb2, hres⟩ := h
  cases hres
  have hfe : ∀ b0 : Board,
      (if horizontal ≠ 0 then fillShip (fun i => (row, addInt col i)) size.toNat 0 b0
        else fillShip (fun i => (addInt row i, col)) size.toNat 0 b0) =
        fillShip (fun i => if horizontal ≠ 0 then (row, addInt col i) else (addInt row i, col))
          size.toNat 0 b0 := by
    intro b0
    by_cases hh : horizontal ≠ 0
    · simp only [if_pos hh]
    · simp only [if_neg hh]
  rw [hfe] at hb2
  have hcount := fillShip_count _ size.toNat 0 _ b2
    (by
      intro j1 j2 hj1 hj2 e
      have e1 := hloop j1 hj1
      have e2 := hloop j2 hj2
      have e' : footprintCell row col horizontal j1 = footprintCell row col horizontal j2 := by
        rw [← e1, ← e2]; exact e
      have := footprintCell_inj row col horizontal e'
      omega)
    (by
      intro j hj
      show Board.cellAt _ (if horizontal ≠ 0 then (row, addInt col (0 + (j : Int)))
            else (addInt row (0 + (j : Int)), col)).1
          (if horizontal ≠ 0 then (row, addInt col (0 + (j : Int)))
            else (addInt row (0 + (j : Int)), col)).2 = _
      rw [hloop j hj]
      exact (Board.cellAt_congr rfl _ _).trans (hwater j (by omega) (by omega)))
    hb2 w
  simp only [Board.countCells] at hcount ⊢
  exact hcount

/-- The accepted branch of a placement click turns `size` cells from `WATER` to `SHIP`. -/
theorem placeFromTemplate_count (board b1 : Board) (t : Ship) (row col horizontal idx : Int)
    (hin : InGrid row col) (hidx : 0 ≤ idx ∧ idx < 5)
    (hcan : canPlaceShip board row col t.size horizontal = .ok 1)
    (h : placeFromTemplate board t row col horizontal idx = .ok b1) (w : CellState) :
    (b1.countCells w : Int) =
      board.countCells w + (if w = CellState.SHIP then (t.size.toNat : Int) else 0) -
        (if w = CellState.WATER then (t.size.toNat : Int) else 0) := by
  have hwater := footprint_of_canPlaceShip board row col t.size horizontal hin hcan
  unfold placeFromTemplate at h
  rw [Board.modifyShip_eq board hidx] at h
  simp only [Exec.ok_bind] at h
  have := placeShip_count
    { board with ships := fun k =>
        if k = ⟨idx.toNat, by omega⟩ then
          { board.ships ⟨idx.toNat, by omega⟩ with size := t.size, name := t.name }
        else board.ships k }
    b1 row col t.size horizontal idx hidx
    (fun i hi0 hi => (Board.cellAt_congr rfl _ _).trans (hwater i hi0 hi)) h w
  simp only [Board.countCells] at this ⊢
  exact this

/-- The sum over the placed ships after one more ship has been placed. -/
theorem Board.sumPlaced_place {b b1 : Board} (k : Fin 5) (f : Ship → Int)
    (hk : (k.val : Int) = b.numPlacedShips)
    (hnum : b1.numPlacedShips = b.numPlacedShips + 1)
    (hrest : ∀ j : Fin 5, j ≠ k → b1.ships j = b.ships j) :
    b1.sumPlaced f = b.sumPlaced f + f (b1.ships k) := by
  unfold Board.sumPlaced
  rw [← Finset.add_sum_erase _ _ (Finset.mem_univ k),
    ← Finset.add_sum_erase (Finset.univ : Finset (Fin 5)) (fun j => if b.Placed j then
      f (b.ships j) else 0) (Finset.mem_univ k)]
  have h1 : b1.Placed k := by unfold Board.Placed; omega
  have h2 : ¬ b.Placed k := by unfold Board.Placed; omega
  have hsame : ∀ j ∈ (Finset.univ : Finset (Fin 5)).erase k,
      (if b1.Placed j then f (b1.ships j) else 0) = (if b.Placed j then f (b.ships j) else 0) := by
    intro j hj
    have hne := Finset.ne_of_mem_erase hj
    have hv : j.val ≠ k.val := fun e => hne (Fin.ext e)
    rw [hrest j hne]
    have : b1.Placed j ↔ b.Placed j := by unfold Board.Placed; omega
    by_cases hp : b.Placed j
    · rw [if_pos hp, if_pos (this.2 hp)]
    · rw [if_neg hp, if_neg (fun h => hp (this.1 h))]
  rw [Finset.sum_congr rfl hsame]
  simp only [if_pos h1, if_neg h2]
  ring

/-- The sum over the placed ships after the record of the placed ship `k` has changed. -/
theorem Board.sumPlaced_withShip {b b1 : Board} (k : Fin 5) (s1 : Ship) (f : Ship → Int)
    (hk : b.Placed k) (hs : b1.ships = b.ships) (hn : b1.numPlacedShips = b.numPlacedShips) :
    (b1.withShip k s1).sumPlaced f = b.sumPlaced f + (f s1 - f (b.ships k)) := by
  unfold Board.sumPlaced
  rw [← Finset.add_sum_erase _ _ (Finset.mem_univ k),
    ← Finset.add_sum_erase (Finset.univ : Finset (Fin 5)) (fun j => if b.Placed j then
      f (b.ships j) else 0) (Finset.mem_univ k)]
  have hpl : ∀ j, (b1.withShip k s1).Placed j ↔ b.Placed j := by
    intro j; unfold Board.Placed; simp only [Board.withShip]; rw [hn]
  have hsame : ∀ j ∈ (Finset.univ : Finset (Fin 5)).erase k,
      (if (b1.withShip k s1).Placed j then f ((b1.withShip k s1).ships j) else 0) =
        (if b.Placed j then f (b.ships j) else 0) := by
    intro j hj
    have hne := Finset.ne_of_mem_erase hj
    rw [Board.withShip_ships_other _ _ _ hne, hs]
    by_cases hp : b.Placed j
    · rw [if_pos hp, if_pos ((hpl j).2 hp)]
    · rw [if_neg hp, if_neg (fun h => hp ((hpl j).1 h))]
  rw [Finset.sum_congr rfl hsame]
  rw [if_pos ((hpl k).2 hk), if_pos hk, Board.withShip_ships_same]
  ring

theorem Board.sumPlaced_congr {b b1 : Board} (hs : b1.ships = b.ships)
    (hn : b1.numPlacedShips = b.numPlacedShips) (f : Ship → Int) :
    b1.sumPlaced f = b.sumPlaced f := by
  unfold Board.sumPlaced
  apply Finset.sum_congr rfl
  intro k _
  have : b1.Placed k ↔ b.Placed k := by unfold Board.Placed; rw [hn]
  rw [hs]
  by_cases hp : b.Placed k
  · rw [if_pos hp, if_pos (this.2 hp)]
  · rw [if_neg hp, if_neg (fun h => hp (this.1 h))]

theorem Board.withShip_countCells (b : Board) (k : Fin 5) (s : Ship) (w : CellState) :
    (b.withShip k s).countCells w = b.countCells w := rfl

theorem counts_initBoard (b0 : Board) : (initBoard b0).Counts := by
  unfold Board.Counts Board.countCells Board.sumPlaced Board.Placed
  simp [initBoard]
  constructor <;>
  · symm
    apply Finset.sum_eq_zero
    intro k _
    rw [if_neg (by omega)]

/-- A legal placement of the next ship of the catalog keeps the two counting equalities. -/
theorem counts_place {b b1 : Board} (hc : b.Counts) (k : Fin 5) (row col horizontal : Int)
    (hk : (k.val : Int) = b.numPlacedShips) (hin : InGrid row col)
    (hcan : canPlaceShip b row col (ships k).size horizontal = .ok 1)
    (hplace : placeFromTemplate b (ships k) row col horizontal b.numPlacedShips = .ok b1) :
    b1.Counts := by
  have hkl := k.isLt
  have hidx : 0 ≤ b.numPlacedShips ∧ b.numPlacedShips < 5 := by omega
  obtain ⟨b2, hb2, -, -, hrec, hrest, hnum⟩ :=
    placeFromTemplate_spec b (ships k) row col horizontal b.numPlacedShips hin hidx hcan
  rw [hplace] at hb2
  cases hb2
  have hfin : (⟨b.numPlacedShips.toNat, by omega⟩ : Fin 5) = k := by
    apply Fin.ext; simp only; omega
  rw [hfin] at hrec hrest
  rw [addInt_eq (by omega) (by omega)] at hnum
  have hsz := ships_size k
  have hcnt := placeFromTemplate_count b b1 (ships k) row col horizontal b.numPlacedShips
    hin hidx hcan hplace
  obtain ⟨h1, h2⟩ := hc
  constructor
  · rw [hcnt, Board.sumPlaced_place k _ hk hnum hrest, hrec, h1]
    simp
  · rw [hcnt, Board.sumPlaced_place k _ hk hnum hrest, hrec, h2]
    simp only [if_true, reduceCtorEq, if_false, sub_zero]
    omega

/-- An attack inside the grid keeps the two counting equalities, on a board that satisfies the
invariant. -/
theorem counts_attack {b : Board} (h : b.Inv) (hc : b.Counts) {row col : Int} (msg : String)
    {a : AttackResult} (hin : InGrid row col) (ha : attack b row col msg = .ok a) :
    a.board.Counts := by
  obtain ⟨h1, h2⟩ := hc
  obtain ⟨c, hcell⟩ := b.cellAt_ok_of_inGrid hin
  cases c with
  | WATER =>
    obtain ⟨b1, hb1, e⟩ := attack_water_eq b row col msg hcell
    rw [e] at ha
    cases ha
    have hs := Board.setCell_ships hb1
    constructor
    · show (b1.countCells CellState.HIT : Int) = b1.sumPlaced _
      rw [Board.countCells_setCell hb1 hcell, Board.sumPlaced_congr hs.1 hs.2, h1]
      simp
    · show (b1.countCells CellState.SHIP : Int) = b1.sumPlaced _
      rw [Board.countCells_setCell hb1 hcell, Board.sumPlaced_congr hs.1 hs.2, h2]
      simp
  | SHIP =>
    obtain ⟨k, b1, hk, hcov, hb1, hlt, hge⟩ := attack_ship_inv h msg hcell
    have hs := Board.setCell_ships hb1
    have hcH := Board.countCells_setCell hb1 hcell CellState.HIT
    have hcS := Board.countCells_setCell hb1 hcell CellState.SHIP
    simp only [if_true, reduceCtorEq, if_false] at hcH hcS
    by_cases hcase : (b.ships k).hitCount + 1 < (b.ships k).size
    · rw [(hlt hcase).2] at ha
      cases ha
      constructor
      · show ((b1.withShip k _).countCells CellState.HIT : Int) = (b1.withShip k _).sumPlaced _
        rw [Board.withShip_countCells, hcH, Board.sumPlaced_withShip k _ _ hk hs.1 hs.2,
          h1]
        simp only; omega
      · show ((b1.withShip k _).countCells CellState.SHIP : Int) = (b1.withShip k _).sumPlaced _
        rw [Board.withShip_countCells, hcS, Board.sumPlaced_withShip k _ _ hk hs.1 hs.2,
          h2]
        simp only; omega
    · rw [(hge (by omega)).2] at ha
      cases ha
      constructor
      · show ((b1.withShip k _).countCells CellState.HIT : Int) = (b1.withShip k _).sumPlaced _
        rw [Board.withShip_countCells, hcH, Board.sumPlaced_withShip k _ _ hk hs.1 hs.2,
          h1]
        simp only; omega
      · show ((b1.withShip k _).countCells CellState.SHIP : Int) = (b1.withShip k _).sumPlaced _
        rw [Board.withShip_countCells, hcS, Board.sumPlaced_withShip k _ _ hk hs.1 hs.2,
          h2]
        simp only; omega
  | HIT =>
    rw [attack_tried_eq b row col msg (Or.inl hcell)] at ha
    cases ha; exact ⟨h1, h2⟩
  | MISS =>
    rw [attack_tried_eq b row col msg (Or.inr hcell)] at ha
    cases ha; exact ⟨h1, h2⟩

/-- Every reachable board satisfies the two counting equalities. -/
theorem Board.Reachable.counts {b : Board} (h : b.Reachable) : b.Counts := by
  induction h with
  | init b0 => exact counts_initBoard b0
  | place b b1 k row col horizontal _ hk hin hcan hplace ih =>
    exact counts_place ih k row col horizontal hk hin hcan hplace
  | attack b row col msg a hb hin ha ih => exact counts_attack hb.boardInv ih msg hin ha

/-- An attack inside the grid of a board with at most five ships placed finishes. -/
theorem attack_finishes (b : Board) (row col : Int) (msg : String)
    (hn : b.numPlacedShips ≤ 5) (hin : InGrid row col) : ∃ a, attack b row col msg = .ok a := by
  obtain ⟨c, hc⟩ := b.cellAt_ok_of_inGrid hin
  cases c with
  | WATER =>
    obtain ⟨a, ha, -⟩ := (attack_frame b row col msg hn).2 hc
    exact ⟨a, ha⟩
  | SHIP =>
    obtain ⟨a, ha, -⟩ := (attack_frame b row col msg hn).1 hc
    exact ⟨a, ha⟩
  | HIT => exact ⟨_, attack_tried_eq b row col msg (Or.inl hc)⟩
  | MISS => exact ⟨_, attack_tried_eq b row col msg (Or.inr hc)⟩

/-- C11. On every board reached from `initBoard` by legal in-order placements and attacks inside
the grid, the number of `HIT` cells equals the sum of `hitCount` over the placed ships and the
number of `SHIP` cells equals the sum of `size - hitCount` over the placed ships; every legal
placement of the next ship and every attack inside the grid finishes and both equalities hold
again on the board it leaves. -/
theorem hit_and_ship_cell_counts (b : Board) (hb : b.Reachable) :
    (b.countCells CellState.HIT : Int) = b.sumPlaced (fun s => s.hitCount) ∧
    (b.countCells CellState.SHIP : Int) = b.sumPlaced (fun s => s.size - s.hitCount) ∧
    (∀ (k : Fin 5) (row col horizontal : Int),
      (k.val : Int) = b.numPlacedShips → InGrid row col →
      canPlaceShip b row col (ships k).size horizontal = .ok 1 →
      ∃ b1, placeFromTemplate b (ships k) row col horizontal b.numPlacedShips = .ok b1 ∧
        (b1.countCells CellState.HIT : Int) = b1.sumPlaced (fun s => s.hitCount) ∧
        (b1.countCells CellState.SHIP : Int) = b1.sumPlaced (fun s => s.size - s.hitCount)) ∧
    (∀ (row col : Int) (msg : String), InGrid row col →
      ∃ a, attack b row col msg = .ok a ∧
        (a.board.countCells CellState.HIT : Int) = a.board.sumPlaced (fun s => s.hitCount) ∧
        (a.board.countCells CellState.SHIP : Int) =
          a.board.sumPlaced (fun s => s.size - s.hitCount)) := by
  have hc := hb.counts
  have hI := hb.boardInv
  refine ⟨hc.1, hc.2, ?_, ?_⟩
  · intro k row col horizontal hk hin hcan
    have hkl := k.isLt
    obtain ⟨b1, hplace, -⟩ := placeFromTemplate_spec b (ships k) row col horizontal
      b.numPlacedShips hin (by omega) hcan
    exact ⟨b1, hplace, counts_place hc k row col horizontal hk hin hcan hplace⟩
  · intro row col msg hin
    obtain ⟨a, ha⟩ := attack_finishes b row col msg hI.count.2 hin
    exact ⟨a, ha, counts_attack hI hc msg hin ha⟩

/-- C11 at a concrete input: the board that holds only the Carrier. -/
theorem hit_and_ship_cell_counts_witness :
    carrierBoard.Reachable ∧
    (carrierBoard.countCells CellState.HIT : Int) = carrierBoard.sumPlaced (fun s => s.hitCount) ∧
    (carrierBoard.countCells CellState.SHIP : Int) =
      carrierBoard.sumPlaced (fun s => s.size - s.hitCount) :=
  ⟨carrierBoard_reachable,
    (hit_and_ship_cell_counts carrierBoard carrierBoard_reachable).1,
    (hit_and_ship_cell_counts carrierBoard carrierBoard_reachable).2.1⟩

/-! ## The bot's placement, in full -/

theorem scanWater_ok (b : Board) (cellOf : Int → Int × Int) (n : Nat) (i : Int)
    (hin : ∀ j : Nat, j < n → InGrid (cellOf (i + j)).1 (cellOf (i + j)).2) :
    ∃ r, scanWater b cellOf n i = .ok r := by
  induction n generalizing i with
  | zero => exact ⟨1, rfl⟩
  | succ n ih =>
    obtain ⟨c, hc⟩ := b.cellAt_ok_of_inGrid (by simpa using hin 0 (Nat.succ_pos _))
    unfold scanWater
    rw [hc]
    by_cases hw : c ≠ CellState.WATER
    · exact ⟨0, by simp only [if_pos hw]⟩
    · simp only [if_neg hw]
      apply ih
      intro j hj
      have := hin (j + 1) (by omega)
      have e : i + ((j + 1 : Nat) : Int) = i + 1 + (j : Int) := by push_cast; omega
      rwa [e] at this

/-- For an anchor inside the grid and a length from 0 to `INT_MAX - 9`, `canPlaceShip` reads
inside the grid only: it finishes with a value. -/
theorem canPlaceShip_ok (b : Board) (row col size horizontal : Int) (hin : InGrid row col)
    (hsize : 0 ≤ size ∧ size ≤ INT_MAX - 9) :
    ∃ r, canPlaceShip b row col size horizontal = .ok r := by
  unfold InGrid at hin
  simp only [INT_MAX] at hsize
  unfold canPlaceShip
  by_cases hh : horizontal ≠ 0
  · rw [if_pos hh]
    by_cases hg : addInt col size > GRID_SIZE
    · exact ⟨0, by rw [if_pos hg]⟩
    · rw [if_neg hg]
      rw [addInt_eq (by omega) (by omega)] at hg
      simp only [GRID_SIZE] at hg
      apply scanWater_ok
      intro j hj
      simp only
      rw [addInt_eq (by omega) (by omega)]
      unfold InGrid
      omega
  · rw [if_neg hh]
    by_cases hg : addInt row size > GRID_SIZE
    · exact ⟨0, by rw [if_pos hg]⟩
    · rw [if_neg hg]
      rw [addInt_eq (by omega) (by omega)] at hg
      simp only [GRID_SIZE] at hg
      apply scanWater_ok
      intro j hj
      simp only
      rw [addInt_eq (by omega) (by omega)]
      unfold InGrid
      omega

theorem scanWater_congr {b b1 : Board} (h : b1.grid = b.grid) (cellOf : Int → Int × Int)
    (n : Nat) (i : Int) : scanWater b1 cellOf n i = scanWater b cellOf n i := by
  induction n generalizing i with
  | zero => rfl
  | succ n ih =>
    unfold scanWater
    rw [Board.cellAt_congr h, ih]

/-- `canPlaceShip` looks at the grid only. -/
theorem canPlaceShip_congr {b b1 : Board} (h : b1.grid = b.grid)
    (row col size horizontal : Int) :
    canPlaceShip b1 row col size horizontal = canPlaceShip b row col size horizontal := by
  unfold canPlaceShip
  rw [scanWater_congr h, scanWater_congr h]

/-- What `placeShip` does to the record `ships[idx]` does not depend on the values the record
held in the fields `placeShip` assigns. -/
theorem placeShip_withShip (board : Board) (k : Fin 5) (s1 s2 : Ship)
    (hsz : s1.size = s2.size) (hnm : s1.name = s2.name) (row col size horizontal : Int) :
    placeShip (board.withShip k s1) row col size horizontal (k.val : Int) =
      placeShip (board.withShip k s2) row col size horizontal (k.val : Int) := by
  have hk := k.isLt
  have hidx : 0 ≤ (k.val : Int) ∧ (k.val : Int) < 5 := by omega
  have hg : ¬ ((k.val : Int) < 0 ∨ (k.val : Int) ≥ NUM_SHIPS) := by simp only [NUM_SHIPS]; omega
  simp only [placeShip, if_neg hg, Board.modifyShip_eq _ hidx]
  have e : ∀ s : Ship, (fun j : Fin 5 =>
        if j = ⟨((k.val : Int)).toNat, by omega⟩ then
          ({ size := ((board.withShip k s).ships ⟨((k.val : Int)).toNat, by omega⟩).size,
             name := ((board.withShip k s).ships ⟨((k.val : Int)).toNat, by omega⟩).name,
             hitCount := 0, isSunk := 0,
             startRow := row, startCol := col, isHorizontal := horizontal } : Ship)
        else (board.withShip k s).ships j) =
      (fun j : Fin 5 =>
        if j = k then
          ({ size := s.size, name := s.name, hitCount := 0, isSunk := 0,
             startRow := row, startCol := col, isHorizontal := horizontal } : Ship)
        else board.ships j) := by
    intro s
    funext j
    simp only [fin_of_int k, Board.withShip, if_true]
    by_cases hj : j = k
    · simp [hj]
    · simp [hj]
  simp only [Board.withShip] at e ⊢
  rw [e s1, e s2, hsz, hnm]

/-- The bot's way to place ship `k` (copy the template, clear the counters, `placeShip`) gives
the board the human's way gives. -/
theorem placeFromTemplate_bot (board : Board) (k : Fin 5) (t : Ship)
    (row col horizontal : Int) :
    placeFromTemplate board t row col horizontal (k.val : Int) =
      placeShip (board.withShip k
        { board.ships k with size := t.size, name := t.name, hitCount := 0, isSunk := 0 })
        row col t.size horizontal (k.val : Int) := by
  have hk := k.isLt
  have hidx : 0 ≤ (k.val : Int) ∧ (k.val : Int) < 5 := by omega
  unfold placeFromTemplate
  rw [Board.modifyShip_eq board hidx, Exec.ok_bind]
  have e := placeShip_withShip board k { board.ships k with size := t.size, name := t.name }
    { board.ships k with size := t.size, name := t.name, hitCount := 0, isSunk := 0 } rfl rfl
    row col t.size horizontal
  simp only [Board.withShip] at e ⊢
  simp only [fin_of_int k]
  exact e

/-- A retry loop that finishes has placed the ship at an anchor inside the grid that
`canPlaceShip` accepted. -/
theorem placeBotRetry_placed (size i : Int) (rnd : Nat → Nat) (fuel k : Nat) (board : Board)
    (r : Board × Nat) (h : placeBotRetry size i rnd fuel k board = .ok r) :
    ∃ row col horizontal : Int, InGrid row col ∧
      canPlaceShip board row col size horizontal = .ok 1 ∧
      placeShip board row col size horizontal i = .ok r.1 := by
  induction fuel generalizing k with
  | zero => rw [placeBotRetry_zero] at h; cases h
  | succ fuel ih =>
    rw [placeBotRetry_succ] at h
    cases hc : canPlaceShip board ((rnd k % 10 : Nat) : Int) ((rnd (k + 1) % 10 : Nat) : Int)
        size ((rnd (k + 2) % 2 : Nat) : Int) with
    | ok v =>
      rw [hc] at h
      by_cases hv : v ≠ 0
      · simp only [if_pos hv] at h
        have hv1 : v = 1 := by
          rcases canPlaceShip_result _ _ _ _ _ _ hc with h0 | h1
          · exact absurd h0 hv
          · exact h1
        subst hv1
        cases hp : placeShip board ((rnd k % 10 : Nat) : Int) ((rnd (k + 1) % 10 : Nat) : Int)
            size ((rnd (k + 2) % 2 : Nat) : Int) i with
        | ok b1 =>
          rw [hp] at h
          cases h
          have hin : InGrid ((rnd k % 10 : Nat) : Int) ((rnd (k + 1) % 10 : Nat) : Int) := by
            unfold InGrid; omega
          exact ⟨_, _, _, hin, hc, hp⟩
        | outOfBounds => rw [hp] at h; cases h
        | outOfFuel => rw [hp] at h; cases h
      · simp only [if_neg hv] at h
        exact ih (k + 3) h
    | outOfBounds => rw [hc] at h; cases h
    | outOfFuel => rw [hc] at h; cases h

/-- The retry loop reads and writes inside the arrays only. -/
theorem placeBotRetry_no_fault (size i : Int) (rnd : Nat → Nat) (fuel k : Nat) (board : Board)
    (hidx : 0 ≤ i ∧ i < 5) (hsize : 0 ≤ size ∧ size ≤ INT_MAX - 9) :
    placeBotRetry size i rnd fuel k board ≠ .outOfBounds := by
  induction fuel generalizing k with
  | zero => rw [placeBotRetry_zero]; intro h; cases h
  | succ fuel ih =>
    rw [placeBotRetry_succ]
    have hin : InGrid ((rnd k % 10 : Nat) : Int) ((rnd (k + 1) % 10 : Nat) : Int) := by
      unfold InGrid; omega
    obtain ⟨v, hc⟩ := canPlaceShip_ok board _ _ size ((rnd (k + 2) % 2 : Nat) : Int) hin hsize
    rw [hc]
    by_cases hv : v ≠ 0
    · simp only [if_pos hv]
      have hv1 : v = 1 := by
        rcases canPlaceShip_result _ _ _ _ _ _ hc with h0 | h1
        · exact absurd h0 hv
        · exact h1
      subst hv1
      have hfoot : ∀ j : Int, 0 ≤ j → j < size →
          InGrid (footprintCell ((rnd k % 10 : Nat) : Int) ((rnd (k + 1) % 10 : Nat) : Int)
            ((rnd (k + 2) % 2 : Nat) : Int) j).1
            (footprintCell ((rnd k % 10 : Nat) : Int) ((rnd (k + 1) % 10 : Nat) : Int)
            ((rnd (k + 2) % 2 : Nat) : Int) j).2 :=
        fun j hj0 hj =>
          Board.cellAt_inGrid (footprint_of_canPlaceShip board _ _ size _ hin hc j hj0 hj)
      obtain ⟨b2, hb2, -⟩ := placeShip_spec board _ _ size _ i hidx hfoot
      rw [hb2]
      intro h; cases h
    · simp only [if_neg hv]
      exact ih (k + 3)

/-- The loop of `placeBotShips` reads and writes inside the arrays only, whatever `rand()`
gives, for templates of a length from 0 to `INT_MAX - 9`. -/
theorem placeBotLoop_no_fault (shipTemplates : Fin 5 → Ship) (rnd : Nat → Nat) (fuel : Nat)
    (hsize : ∀ j, 0 ≤ (shipTemplates j).size ∧ (shipTemplates j).size ≤ INT_MAX - 9)
    (n : Nat) (i : Int) (k : Nat) (board : Board) (hi : 0 ≤ i ∧ i + n ≤ 5) :
    placeBotLoop shipTemplates rnd fuel n i k board ≠ .outOfBounds := by
  induction n generalizing i k board with
  | zero => intro h; cases h
  | succ n ih =>
    have hidx : 0 ≤ i ∧ i < 5 := by push_cast at hi; omega
    unfold placeBotLoop
    rw [templateAt_eq shipTemplates hidx, Exec.ok_bind, Board.modifyShip_eq board hidx,
      Exec.ok_bind]
    cases hr : placeBotRetry (shipTemplates ⟨i.toNat, by omega⟩).size i rnd fuel k
        { board with ships := fun j =>
          if j = ⟨i.toNat, by omega⟩ then
            { board.ships ⟨i.toNat, by omega⟩ with
              size := (shipTemplates ⟨i.toNat, by omega⟩).size,
              name := (shipTemplates ⟨i.toNat, by omega⟩).name, hitCount := 0, isSunk := 0 }
          else board.ships j } with
    | ok r =>
      rw [Exec.ok_bind]
      exact ih (i + 1) r.2 r.1 (by push_cast at hi; omega)
    | outOfBounds => exact absurd hr (placeBotRetry_no_fault _ i rnd fuel k _ hidx (hsize _))
    | outOfFuel => intro h; cases h

/-- `placeBotShips` with the catalog never leaves the arrays. -/
theorem placeBotShips_no_fault (board : Board) (rnd : Nat → Nat) (fuel : Nat) :
    placeBotShips board ships rnd fuel ≠ .outOfBounds := by
  unfold placeBotShips
  exact placeBotLoop_no_fault ships rnd fuel
    (fun j => by have := ships_size j; simp only [INT_MAX]; omega) 5 0 0 board (by decide)

theorem noAttack_initBoard (b0 : Board) : (initBoard b0).NoAttack :=
  fun r c v h => Or.inl (initBoard_cellAt b0 r c v h)

theorem noAttack_place {b b1 : Board} (h : b.NoAttack) (t : Ship) (row col horizontal idx : Int)
    (hin : InGrid row col) (hidx : 0 ≤ idx ∧ idx < 5)
    (hcan : canPlaceShip b row col t.size horizontal = .ok 1)
    (hplace : placeFromTemplate b t row col horizontal idx = .ok b1) : b1.NoAttack := by
  obtain ⟨b2, hb2, hset, hother, -⟩ :=
    placeFromTemplate_spec b t row col horizontal idx hin hidx hcan
  rw [hplace] at hb2
  cases hb2
  intro r c v hv
  by_cases hex : ∃ i : Int, 0 ≤ i ∧ i < t.size ∧ footprintCell row col horizontal i = (r, c)
  · obtain ⟨i, hi0, hi, hcell⟩ := hex
    have := hset i hi0 hi
    rw [hcell] at this
    rw [this] at hv
    right
    exact (Exec.ok.inj hv).symm
  · have hne : ∀ i : Int, 0 ≤ i → i < t.size → footprintCell row col horizontal i ≠ (r, c) :=
      fun i hi0 hi hcell => hex ⟨i, hi0, hi, hcell⟩
    rw [hother r c hne] at hv
    exact h r c v hv

/-- The loop of `placeBotShips`, started with ship `i` on a reachable board without attacks that
holds the ships before `i`, ends on a reachable board without attacks that holds `n` more. -/
theorem placeBotLoop_reachable (rnd : Nat → Nat) (fuel : Nat) (n : Nat) (i : Int) (k : Nat)
    (board b1 : Board) (hR : board.Reachable) (hNA : board.NoAttack)
    (hnum : i = board.numPlacedShips) (hi : 0 ≤ i ∧ i + n ≤ 5)
    (h : placeBotLoop ships rnd fuel n i k board = .ok b1) :
    b1.Reachable ∧ b1.NoAttack ∧ b1.numPlacedShips = i + n := by
  induction n generalizing i k board with
  | zero =>
    cases h
    exact ⟨hR, hNA, by simp [hnum]⟩
  | succ n ih =>
    have hidx : 0 ≤ i ∧ i < 5 := by push_cast at hi; omega
    obtain ⟨kf, rfl⟩ : ∃ kf : Fin 5, (kf.val : Int) = i :=
      ⟨⟨i.toNat, by omega⟩, by simp only [Int.toNat_of_nonneg hidx.1]⟩
    unfold placeBotLoop at h
    rw [templateAt_eq ships hidx, Exec.ok_bind, Board.modifyShip_eq board hidx,
      Exec.ok_bind, Exec.bind_eq_ok] at h
    obtain ⟨r, hr, hrest⟩ := h
    simp only [fin_of_int kf] at hr
    obtain ⟨row, col, horizontal, hin, hcan, hplace⟩ := placeBotRetry_placed _ _ rnd fuel k _ r hr
    have hcan1 : canPlaceShip board row col (ships kf).size horizontal = .ok 1 := by
      rw [← hcan]
      symm
      apply canPlaceShip_congr
      rfl
    have hpft : placeFromTemplate board (ships kf) row col horizontal board.numPlacedShips =
        .ok r.1 := by
      rw [← hnum, placeFromTemplate_bot]
      exact hplace
    have hR1 : r.1.Reachable :=
      Board.Reachable.place board r.1 kf row col horizontal hR hnum hin hcan1 hpft
    have hNA1 : r.1.NoAttack :=
      noAttack_place hNA (ships kf) row col horizontal board.numPlacedShips hin
        (by rw [← hnum]; exact hidx) hcan1 hpft
    have hnum1 : r.1.numPlacedShips = (kf.val : Int) + 1 := by
      obtain ⟨b2, hb2, -, -, -, -, hnp⟩ :=
        placeFromTemplate_spec board (ships kf) row col horizontal board.numPlacedShips hin
          (by rw [← hnum]; exact hidx) hcan1
      rw [hpft] at hb2
      cases hb2
      rw [hnp, ← hnum]
      exact addInt_eq (by omega) (by omega)
    obtain ⟨h1, h2, h3⟩ := ih ((kf.val : Int) + 1) r.2 r.1 hR1 hNA1 hnum1.symm
      (by push_cast at hi; omega) hrest
    exact ⟨h1, h2, by rw [h3]; push_cast; omega⟩

/-- A run of `placeBotShips` that finishes on the board `initBoard` leaves ends on a board the
placement rules reach, without an attacked cell and with five ships. -/
theorem placeBotShips_fresh (b0 b1 : Board) (rnd : Nat → Nat) (fuel : Nat)
    (h : placeBotShips (initBoard b0) ships rnd fuel = .ok b1) :
    b1.Reachable ∧ b1.NoAttack ∧ b1.numPlacedShips = 5 := by
  unfold placeBotShips at h
  obtain ⟨hR, hNA, hnum⟩ := placeBotLoop_reachable rnd fuel 5 0 0 (initBoard b0) b1
    (Board.Reachable.init b0) (noAttack_initBoard b0) rfl (by decide) h
  exact ⟨hR, hNA, by rw [hnum]; rfl⟩

/-- What holds of a reachable board that was never attacked and carries all five ships. -/
theorem fresh_fleet {b : Board} (hR : b.Reachable) (hNA : b.NoAttack)
    (hnum : b.numPlacedShips = 5) :
    (∀ k : Fin 5, (b.ships k).name = (ships k).name ∧ (b.ships k).size = (ships k).size ∧
      (b.ships k).hitCount = 0 ∧ (b.ships k).isSunk = 0) ∧
    (∀ (k : Fin 5) (i : Int), 0 ≤ i → i < (b.ships k).size →
      InGrid ((b.ships k).cell i).1 ((b.ships k).cell i).2) ∧
    (∀ (k j : Fin 5) (row col : Int),
      (b.ships k).Covers row col → (b.ships j).Covers row col → k = j) ∧
    (∀ row col : Int, InGrid row col →
      (b.cellAt row col = .ok CellState.SHIP ↔ ∃ k : Fin 5, (b.ships k).Covers row col) ∧
      (b.cellAt row col = .ok CellState.WATER ↔ ¬ ∃ k : Fin 5, (b.ships k).Covers row col)) ∧
    b.countCells CellState.SHIP = 17 := by
  have hI := hR.boardInv
  have hC := hR.counts
  have hP : ∀ k : Fin 5, b.Placed k := fun k => by
    have := k.isLt
    unfold Board.Placed
    omega
  have hnoHit : ∀ r c : Int, b.cellAt r c ≠ .ok CellState.HIT := fun r c hc => by
    rcases hNA r c _ hc with h | h <;> cases h
  have hhit : ∀ k : Fin 5, (b.ships k).hitCount = 0 := fun k => by
    rw [hI.hits k (hP k), b.hitsOn_eq_zero (b.ships k) (fun i _ _ => hnoHit _ _)]
    rfl
  have hcov : ∀ row col : Int,
      b.cellAt row col = .ok CellState.SHIP ↔ ∃ k : Fin 5, (b.ships k).Covers row col := by
    intro row col
    constructor
    · intro hc
      obtain ⟨k, -, hk⟩ := hI.covered row col (Or.inl hc)
      exact ⟨k, hk⟩
    · rintro ⟨k, i, hi0, hi, hcell⟩
      have := hI.cells k (hP k) i hi0 hi
      rw [hcell] at this
      rcases this with h | h
      · exact h
      · exact absurd h (hnoHit _ _)
  refine ⟨?_, ?_, ?_, ?_, ?_⟩
  · intro k
    have hs := hI.size_range (hP k)
    refine ⟨(hI.catalog k (hP k)).2, (hI.catalog k (hP k)).1, hhit k, ?_⟩
    rw [hI.sunk k (hP k), hhit k, if_neg (by omega)]
  · exact fun k i hi0 hi => hI.cell_inGrid (hP k) i hi0 hi
  · exact fun k j row col hk hj => hI.disjoint k j (hP k) (hP j) row col hk hj
  · intro row col hin
    refine ⟨hcov row col, ?_⟩
    obtain ⟨v, hv⟩ := b.cellAt_ok_of_inGrid hin
    rw [← hcov row col, hv]
    rcases hNA row col v hv with rfl | rfl
    · simp
    · simp
  · have h2 := hC.2
    have hsum : b.sumPlaced (fun s => s.size - s.hitCount) = 17 := by
      have hterm : ∀ k ∈ (Finset.univ : Finset (Fin 5)),
          (if b.Placed k then (b.ships k).size - (b.ships k).hitCount else 0) =
            (ships k).size := fun k _ => by
        rw [if_pos (hP k), hhit k, (hI.catalog k (hP k)).1, sub_zero]
      unfold Board.sumPlaced
      rw [Finset.sum_congr rfl hterm]
      decide
    rw [hsum] at h2
    exact_mod_cast h2

/-- C12. With `rand()` an arbitrary stream of samples and the catalog of lengths 5, 4, 3, 3, 2:
`placeBotShips` on an empty board (the board `initBoard` leaves) never reads or writes outside
the arrays, and every run whose retry loops finish ends with `numPlacedShips = 5`, with
`ships[0..4]` carrying the catalog's names and lengths in catalog order with `hitCount = 0` and
`isSunk = 0`, with every cell of every footprint inside the 10x10 grid, with the footprints of
different ships sharing no cell, with a cell `SHIP` exactly when a footprint covers it and `WATER`
exactly when none does, and with 17 cells `SHIP` in all; the board is one the placement rules of
the human side reach as well. -/
theorem placeBotShips_on_empty_board (b0 : Board) (rnd : Nat → Nat) (fuel : Nat) :
    placeBotShips (initBoard b0) ships rnd fuel ≠ .outOfBounds ∧
    ∀ b1 : Board, placeBotShips (initBoard b0) ships rnd fuel = .ok b1 →
      b1.numPlacedShips = 5 ∧
      (∀ k : Fin 5, (b1.ships k).name = (ships k).name ∧ (b1.ships k).size = (ships k).size ∧
        (b1.ships k).hitCount = 0 ∧ (b1.ships k).isSunk = 0) ∧
      (∀ (k : Fin 5) (i : Int), 0 ≤ i → i < (b1.ships k).size →
        InGrid ((b1.ships k).cell i).1 ((b1.ships k).cell i).2) ∧
      (∀ (k j : Fin 5) (row col : Int),
        (b1.ships k).Covers row col → (b1.ships j).Covers row col → k = j) ∧
      (∀ row col : Int, InGrid row col →
        (b1.cellAt row col = .ok CellState.SHIP ↔ ∃ k : Fin 5, (b1.ships k).Covers row col) ∧
        (b1.cellAt row col = .ok CellState.WATER ↔
          ¬ ∃ k : Fin 5, (b1.ships k).Covers row col)) ∧
      b1.countCells CellState.SHIP = 17 ∧
      b1.Reachable := by
  refine ⟨placeBotShips_no_fault _ rnd fuel, ?_⟩
  intro b1 h
  obtain ⟨hR, hNA, hnum5⟩ := placeBotShips_fresh b0 b1 rnd fuel h
  obtain ⟨h1, h2, h3, h4, h5⟩ := fresh_fleet hR hNA hnum5
  exact ⟨hnum5, h1, h2, h3, h4, h5, hR⟩

/-- C12 at a concrete input: the samples of `rowByRow` on the empty board, where every retry
loop finishes at its first sample. -/
theorem placeBotShips_on_empty_board_witness :
    placeBotShips emptyBoard ships rowByRow 1 = .ok botFleetBoard ∧
    botFleetBoard.numPlacedShips = 5 ∧ botFleetBoard.countCells CellState.SHIP = 17 :=
  ⟨by rfl,
    ((placeBotShips_on_empty_board ⟨fun _ _ => CellState.HIT, ships, 7⟩ rowByRow 1).2 botFleetBoard (by rfl)).1,
    ((placeBotShips_on_empty_board ⟨fun _ _ => CellState.HIT, ships, 7⟩ rowByRow 1).2 botFleetBoard (by rfl)).2.2.2.2.2.1⟩

/-- A retry loop that finishes has placed the ship at the anchor and in the orientation that
three consecutive samples of the stream gave and that `canPlaceShip` accepted. -/
theorem placeBotRetry_sample (size i : Int) (rnd : Nat → Nat) (fuel k : Nat) (board : Board)
    (r : Board × Nat) (h : placeBotRetry size i rnd fuel k board = .ok r) :
    ∃ j : Nat,
      canPlaceShip board ((rnd j % 10 : Nat) : Int) ((rnd (j + 1) % 10 : Nat) : Int) size
        ((rnd (j + 2) % 2 : Nat) : Int) = .ok 1 ∧
      placeShip board ((rnd j % 10 : Nat) : Int) ((rnd (j + 1) % 10 : Nat) : Int) size
        ((rnd (j + 2) % 2 : Nat) : Int) i = .ok r.1 := by
  induction fuel generalizing k with
  | zero => rw [placeBotRetry_zero] at h; cases h
  | succ fuel ih =>
    rw [placeBotRetry_succ] at h
    cases hc : canPlaceShip board ((rnd k % 10 : Nat) : Int) ((rnd (k + 1) % 10 : Nat) : Int)
        size ((rnd (k + 2) % 2 : Nat) : Int) with
    | ok v =>
      rw [hc] at h
      by_cases hv : v ≠ 0
      · simp only [if_pos hv] at h
        have hv1 : v = 1 := by
          rcases canPlaceShip_result _ _ _ _ _ _ hc with h0 | h1
          · exact absurd h0 hv
          · exact h1
        subst hv1
        cases hp : placeShip board ((rnd k % 10 : Nat) : Int) ((rnd (k + 1) % 10 : Nat) : Int)
            size ((rnd (k + 2) % 2 : Nat) : Int) i with
        | ok b1 =>
          rw [hp] at h
          cases h
          exact ⟨k, hc, hp⟩
        | outOfBounds => rw [hp] at h; cases h
        | outOfFuel => rw [hp] at h; cases h
      · simp only [if_neg hv] at h
        exact ih (k + 3) h
    | outOfBounds => rw [hc] at h; cases h
    | outOfFuel => rw [hc] at h; cases h

theorem placeBotLoop_succ (shipTemplates : Fin 5 → Ship) (rnd : Nat → Nat) (fuel n : Nat)
    (i : Int) (k : Nat) (board : Board) :
    placeBotLoop shipTemplates rnd fuel (n + 1) i k board =
      (templateAt shipTemplates i >>= fun t =>
        board.modifyShip i (fun s =>
          { s with size := t.size, name := t.name, hitCount := 0, isSunk := 0 }) >>= fun b1 =>
        placeBotRetry t.size i rnd fuel k b1 >>= fun r =>
        placeBotLoop shipTemplates rnd fuel n (i + 1) r.2 r.1) := rfl

/-- When every sample of `rand()` is 0 the retry loops of `placeBotShips` do not finish: every
try is the vertical anchor (0, 0), which the second ship finds taken by the first. -/
theorem placeBotShips_zero_stream (board : Board) (fuel : Nat) :
    placeBotShips board ships (fun _ => 0) fuel = .outOfFuel := by
  cases h : placeBotShips board ships (fun _ => 0) fuel with
  | outOfFuel => rfl
  | outOfBounds => exact absurd h (placeBotShips_no_fault _ _ _)
  | ok b1 =>
    exfalso
    have hin : InGrid 0 0 := by decide
    have hcell : footprintCell 0 0 0 0 = (0, 0) := by decide
    have h0 : placeBotLoop ships (fun _ => 0) fuel (4 + 1) 0 0 board = .ok b1 := h
    have hi0 : (0 : Int) ≤ 0 ∧ (0 : Int) < 5 := by decide
    rw [placeBotLoop_succ, templateAt_eq ships hi0, Exec.ok_bind, Board.modifyShip_eq board hi0,
      Exec.ok_bind, Exec.bind_eq_ok] at h0
    obtain ⟨r, hr, hrest⟩ := h0
    obtain ⟨j, hcan, hplace⟩ := placeBotRetry_sample _ _ _ fuel 0 _ r hr
    have hfoot := fun (i : Int) (hi0 : 0 ≤ i)
        (hi : i < (ships ⟨(0 : Int).toNat, by omega⟩).size) =>
      Board.cellAt_inGrid (footprint_of_canPlaceShip _ 0 0 _ 0 hin hcan i hi0 hi)
    obtain ⟨b2, hb2, hset, -⟩ := placeShip_spec _ 0 0 _ 0 0 hi0 hfoot
    have hb2r : Exec.ok b2 = Exec.ok r.1 := hb2.symm.trans hplace
    cases hb2r
    have hship := hset 0 (le_refl _) (by decide)
    rw [hcell] at hship
    have h1 : placeBotLoop ships (fun _ => 0) fuel (3 + 1) (0 + 1) r.2 r.1 = .ok b1 := hrest
    have hi1 : (0 : Int) ≤ 0 + 1 ∧ (0 : Int) + 1 < 5 := by decide
    rw [placeBotLoop_succ, templateAt_eq ships hi1, Exec.ok_bind, Board.modifyShip_eq r.1 hi1,
      Exec.ok_bind, Exec.bind_eq_ok] at h1
    obtain ⟨r2, hr2, -⟩ := h1
    obtain ⟨j2, hcan2, -⟩ := placeBotRetry_sample _ _ _ fuel r.2 _ r2 hr2
    have hs1 := ships_size ⟨((0 : Int) + 1).toNat, by omega⟩
    have hwater := footprint_of_canPlaceShip _ 0 0 _ 0 hin hcan2 0 (le_refl _) (by omega)
    rw [hcell] at hwater
    have hsame := (Board.cellAt_congr (b := r.1) rfl 0 0).symm.trans hwater
    rw [hship] at hsame
    cases hsame

/-! ## The coordinate the bot attacks -/

theorem botSample_inGrid (rnd : Nat → Nat) (j : Nat) :
    InGrid (botSample rnd j).1 (botSample rnd j).2 := by
  unfold InGrid botSample
  simp only
  omega

/-- The loop of `botTurn`, started at round `j0` with `fuel` rounds allowed, ends with a
coordinate exactly when one of the rounds `j0 .. j0 + fuel - 1` samples a cell not attacked
before, and the coordinate is the sample of the first such round. -/
theorem botPick_first (b : Board) (rnd : Nat → Nat) (fuel j0 : Nat) (p : Int × Int) :
    botPick b rnd fuel (2 * j0) = .ok p ↔
      ∃ j, j0 ≤ j ∧ j < j0 + fuel ∧ botSample rnd j = p ∧ ¬ b.Tried (botSample rnd j) ∧
        ∀ i, j0 ≤ i → i < j → b.Tried (botSample rnd i) := by
  induction fuel generalizing j0 with
  | zero =>
    rw [botPick_zero]
    constructor
    · intro h; cases h
    · rintro ⟨j, h1, h2, -⟩; omega
  | succ fuel ih =>
    rw [botPick_succ]
    obtain ⟨c, hc⟩ := b.cellAt_ok_of_inGrid (botSample_inGrid rnd j0)
    have htried : b.Tried (botSample rnd j0) ↔ (c = CellState.HIT ∨ c = CellState.MISS) := by
      unfold Board.Tried
      rw [hc]
      constructor
      · rintro (h | h)
        · exact Or.inl (Exec.ok.inj h)
        · exact Or.inr (Exec.ok.inj h)
      · rintro (h | h)
        · exact Or.inl (by rw [h])
        · exact Or.inr (by rw [h])
    have hc2 : b.cellAt ((rnd (2 * j0) % 10 : Nat) : Int) ((rnd (2 * j0 + 1) % 10 : Nat) : Int) =
        .ok c := hc
    rw [hc2]
    by_cases ht : c = CellState.HIT ∨ c = CellState.MISS
    · simp only [if_pos ht]
      have e : 2 * j0 + 2 = 2 * (j0 + 1) := by ring
      rw [e, ih (j0 + 1)]
      constructor
      · rintro ⟨j, h1, h2, h3, h4, h5⟩
        refine ⟨j, by omega, by omega, h3, h4, ?_⟩
        intro i hi1 hi2
        rcases Nat.eq_or_lt_of_le hi1 with rfl | hlt
        · exact htried.2 ht
        · exact h5 i hlt hi2
      · rintro ⟨j, h1, h2, h3, h4, h5⟩
        have hne : j ≠ j0 := by
          rintro rfl
          exact h4 (htried.2 ht)
        exact ⟨j, by omega, by omega, h3, h4, fun i hi1 hi2 => h5 i (by omega) hi2⟩
    · simp only [if_neg ht]
      constructor
      · intro h
        exact ⟨j0, le_refl _, by omega, Exec.ok.inj h, fun h1 => ht (htried.1 h1),
          fun i hi1 hi2 => by omega⟩
      · rintro ⟨j, h1, h2, h3, h4, h5⟩
        rcases Nat.eq_or_lt_of_le h1 with rfl | hlt
        · exact congrArg Exec.ok h3
        · exact absurd (htried.1 (h5 j0 (le_refl _) hlt)) ht

/-- A turn of the bot, given the coordinate its loop ended with: the player's board is the
one `attack` leaves, the bot's board is untouched. -/
theorem bot_turn_board (g : Game) (rnd : Nat → Nat) (fuel : Nat) (row col : Int)
    (ht : g.state.playerTurn = 0) (hgo : g.state.gameOver = 0)
    (hn : g.playerBoard.numPlacedShips ≤ 5)
    (hpick : botPick g.playerBoard rnd fuel 0 = .ok (row, col)) :
    ∃ a g1, attack g.playerBoard row col "" = .ok a ∧ botTurn g rnd fuel = .ok g1 ∧
      g1.playerBoard = a.board ∧ g1.botBoard = g.botBoard := by
  obtain ⟨c, -, hcases, hwater, hship⟩ := bot_attack_outcome g rnd fuel row col ht hgo hn hpick
  rcases hcases with rfl | rfl
  · obtain ⟨a, ha, -, hres⟩ := hwater rfl
    exact ⟨a, _, ha, hres, rfl, rfl⟩
  · obtain ⟨a, v, ha, -, -, h1, h0, hv01⟩ := hship rfl
    rcases hv01 with rfl | rfl
    · exact ⟨a, _, ha, h1 rfl, rfl, rfl⟩
    · exact ⟨a, _, ha, h0 rfl, rfl, rfl⟩

/-- A turn of the bot that finishes had its loop end with a coordinate. -/
theorem botTurn_pick (g g1 : Game) (rnd : Nat → Nat) (fuel : Nat)
    (ht : g.state.playerTurn = 0) (hgo : g.state.gameOver = 0)
    (h : botTurn g rnd fuel = .ok g1) :
    ∃ p, botPick g.playerBoard rnd fuel 0 = .ok p := by
  unfold botTurn at h
  rw [if_pos ⟨ht, hgo⟩, Exec.bind_eq_ok] at h
  obtain ⟨p, hp, -⟩ := h
  exact ⟨p, hp⟩

/-- The bot attacks the first sampled coordinate whose cell was not attacked before. -/
theorem bot_first_untried (g : Game) (rnd : Nat → Nat) (fuel : Nat)
    (ht : g.state.playerTurn = 0) (hgo : g.state.gameOver = 0)
    (hn : g.playerBoard.numPlacedShips ≤ 5) :
    (∀ g1 : Game, botTurn g rnd fuel = .ok g1 →
      ∃ j, j < fuel ∧
        (∀ i, i < j → g.playerBoard.Tried (botSample rnd i)) ∧
        ¬ g.playerBoard.Tried (botSample rnd j) ∧
        InGrid (botSample rnd j).1 (botSample rnd j).2 ∧
        ((g.playerBoard.cellAt (botSample rnd j).1 (botSample rnd j).2 = .ok CellState.SHIP ∧
          g1.playerBoard.cellAt (botSample rnd j).1 (botSample rnd j).2 = .ok CellState.HIT) ∨
         (g.playerBoard.cellAt (botSample rnd j).1 (botSample rnd j).2 = .ok CellState.WATER ∧
          g1.playerBoard.cellAt (botSample rnd j).1 (botSample rnd j).2 =
            .ok CellState.MISS)) ∧
        (∀ r c : Int, (r, c) ≠ botSample rnd j →
          g1.playerBoard.cellAt r c = g.playerBoard.cellAt r c) ∧
        g1.botBoard = g.botBoard) ∧
    (∀ j, j < fuel → ¬ g.playerBoard.Tried (botSample rnd j) →
      ∃ g1, botTurn g rnd fuel = .ok g1) := by
  constructor
  · intro g1 h
    obtain ⟨p, hp⟩ := botTurn_pick g g1 rnd fuel ht hgo h
    have hp0 : botPick g.playerBoard rnd fuel (2 * 0) = .ok p := hp
    obtain ⟨j, -, hj, hsample, hnt, hbefore⟩ := (botPick_first _ rnd fuel 0 p).1 hp0
    obtain ⟨row, col⟩ := p
    obtain ⟨a, g2, ha, hres, hpb, hbb⟩ := bot_turn_board g rnd fuel row col ht hgo hn hp
    rw [h] at hres
    cases hres
    obtain ⟨c, hc, hc2, -⟩ := bot_attack_outcome g rnd fuel row col ht hgo hn hp
    refine ⟨j, by omega, fun i hi => hbefore i (Nat.zero_le _) hi, hnt,
      botSample_inGrid rnd j, ?_, ?_, hbb⟩
    · rw [hsample, hpb]
      rcases hc2 with rfl | rfl
      · right
        obtain ⟨a2, ha2, -, hmiss, -⟩ := (attack_frame g.playerBoard row col "" hn).2 hc
        rw [ha] at ha2
        cases ha2
        exact ⟨hc, hmiss⟩
      · left
        obtain ⟨a2, ha2, -, hhit, -⟩ := (attack_frame g.playerBoard row col "" hn).1 hc
        rw [ha] at ha2
        cases ha2
        exact ⟨hc, hhit⟩
    · intro r c hne
      rw [hsample] at hne
      rw [hpb]
      rcases hc2 with rfl | rfl
      · obtain ⟨a2, ha2, -, -, hother, -⟩ := (attack_frame g.playerBoard row col "" hn).2 hc
        rw [ha] at ha2
        cases ha2
        exact hother r c hne
      · obtain ⟨a2, ha2, -, -, hother, -⟩ := (attack_frame g.playerBoard row col "" hn).1 hc
        rw [ha] at ha2
        cases ha2
        exact hother r c hne
  · intro j hj hnt
    have hex : ∃ j, j < fuel ∧ ¬ g.playerBoard.Tried (botSample rnd j) := ⟨j, hj, hnt⟩
    classical
    have hmin := Nat.find_spec hex
    have hlt : ∀ i, i < Nat.find hex → g.playerBoard.Tried (botSample rnd i) := by
      intro i hi
      by_contra hni
      exact Nat.find_min hex hi ⟨by omega, hni⟩
    have hp : botPick g.playerBoard rnd fuel (2 * 0) = .ok (botSample rnd (Nat.find hex)) :=
      (botPick_first _ rnd fuel 0 _).2
        ⟨Nat.find hex, Nat.zero_le _, by omega, rfl, hmin.2, fun i _ hi => hlt i hi⟩
    obtain ⟨a, g1, -, hres, -⟩ := bot_turn_board g rnd fuel _ _ ht hgo hn hp
    exact ⟨g1, hres⟩

/-- C13. With `rand()` an arbitrary stream of samples, the game not over, the bot to move and at
most five ships on the player's board: a turn of the bot that finishes attacked the coordinate
sampled in some round `j` of its loop, every coordinate sampled before round `j` held `HIT` or
`MISS` and was rejected, the cell of round `j` held neither; the coordinate lies inside the 10x10
grid; the attacked cell goes from `SHIP` to `HIT` or from `WATER` to `MISS`, every other cell of
the player's board and the whole board of the bot stay as they were. The turn finishes whenever
one of the rounds the loop is allowed samples a cell not attacked before. -/
theorem bot_attacks_first_untried (g : Game) (rnd : Nat → Nat) (fuel : Nat)
    (ht : g.state.playerTurn = 0) (hgo : g.state.gameOver = 0)
    (hn : g.playerBoard.numPlacedShips ≤ 5) :
    (∀ g1 : Game, botTurn g rnd fuel = .ok g1 →
      ∃ j, j < fuel ∧
        (∀ i, i < j → g.playerBoard.Tried (botSample rnd i)) ∧
        ¬ g.playerBoard.Tried (botSample rnd j) ∧
        InGrid (botSample rnd j).1 (botSample rnd j).2 ∧
        ((g.playerBoard.cellAt (botSample rnd j).1 (botSample rnd j).2 = .ok CellState.SHIP ∧
          g1.playerBoard.cellAt (botSample rnd j).1 (botSample rnd j).2 = .ok CellState.HIT) ∨
         (g.playerBoard.cellAt (botSample rnd j).1 (botSample rnd j).2 = .ok CellState.WATER ∧
          g1.playerBoard.cellAt (botSample rnd j).1 (botSample rnd j).2 =
            .ok CellState.MISS)) ∧
        (∀ r c : Int, (r, c) ≠ botSample rnd j →
          g1.playerBoard.cellAt r c = g.playerBoard.cellAt r c) ∧
        g1.botBoard = g.botBoard) ∧
    (∀ j, j < fuel → ¬ g.playerBoard.Tried (botSample rnd j) →
      ∃ g1, botTurn g rnd fuel = .ok g1) :=
  bot_first_untried g rnd fuel ht hgo hn

set_option maxRecDepth 100000

/-- C13 at a concrete input: the bot to move in a game the clicks of the human lead to, with
every sample 0, so that the bot attacks (0, 0). -/
theorem bot_attacks_first_untried_witness :
    Reachable botToMove ∧ botToMove.state.playerTurn = 0 ∧ botToMove.state.gameOver = 0 ∧
    ∃ g1, botTurn botToMove (fun _ => 0) 1 = .ok g1 :=
  ⟨playClicks_reachable _ _ battleGame_reachable, by decide, by decide,
    (bot_attacks_first_untried botToMove (fun _ => 0) 1 (by decide) (by decide) (by decide)).2 0
      (by decide) (by decide)⟩

/-- The loop of `botTurn` reads inside the grid only. -/
theorem botPick_no_fault (b : Board) (rnd : Nat → Nat) (fuel k : Nat) :
    botPick b rnd fuel k ≠ .outOfBounds := by
  induction fuel generalizing k with
  | zero => rw [botPick_zero]; intro h; cases h
  | succ fuel ih =>
    rw [botPick_succ]
    have hin : InGrid ((rnd k % 10 : Nat) : Int) ((rnd (k + 1) % 10 : Nat) : Int) := by
      unfold InGrid; omega
    obtain ⟨c, hc⟩ := b.cellAt_ok_of_inGrid hin
    rw [hc]
    by_cases ht : c = CellState.HIT ∨ c = CellState.MISS
    · simp only [if_pos ht]
      exact ih (k + 2)
    · simp only [if_neg ht]
      intro h; cases h

/-- The coordinate the loop of `botTurn` ends with passes `isValidCoord`. -/
theorem botPick_valid (b : Board) (rnd : Nat → Nat) (fuel k : Nat) (row col : Int)
    (h : botPick b rnd fuel k = .ok (row, col)) : InGrid row col := by
  obtain ⟨c, hc, -⟩ := botPick_spec b rnd fuel k row col h
  exact Board.cellAt_inGrid hc

/-- A turn of the bot in a state of the game never reads or writes outside the arrays. -/
theorem botTurn_no_fault {g : Game} (h : g.Inv) (rnd : Nat → Nat) (fuel : Nat) :
    botTurn g rnd fuel ≠ .outOfBounds := by
  by_cases hcond : g.state.playerTurn = 0 ∧ g.state.gameOver = 0
  · cases hpick : botPick g.playerBoard rnd fuel 0 with
    | ok p =>
      obtain ⟨row, col⟩ := p
      obtain ⟨a, g1, -, hres, -⟩ :=
        bot_turn_board g rnd fuel row col hcond.1 hcond.2 h.playerCount hpick
      rw [hres]
      intro hc; cases hc
    | outOfBounds => exact absurd hpick (botPick_no_fault _ rnd fuel 0)
    | outOfFuel =>
      unfold botTurn
      rw [if_pos hcond, hpick]
      intro hc; cases hc
  · unfold botTurn
    rw [if_neg hcond]
    intro hc; cases hc

set_option maxRecDepth 100000

/-! ## The placement phase -/

/-- A click in the battle phase leaves the game in the battle phase. -/
theorem click_battle_stays {g g1 : Game} (h : g.Inv) (x y : Int) (rnd : Nat → Nat)
    (fuel : Nat) (hp : g.state.isPlacingShips = 0)
    (hstep : handleMouseClick x y g ships rnd fuel = .ok g1) :
    g1.state.isPlacingShips = 0 := by
  have hA : ¬ ((150 ≤ x ∧ x < 500) ∧ (160 ≤ y ∧ y < 510) ∧ g.state.isPlacingShips ≠ 0) :=
    fun hA => hA.2.2 hp
  by_cases hB : (650 ≤ x ∧ x < 1000) ∧ (160 ≤ y ∧ y < 510) ∧ g.state.isPlacingShips = 0 ∧
      g.state.playerTurn ≠ 0 ∧ g.state.gameOver = 0
  · obtain ⟨hx, hy, -, ht, hgo⟩ := hB
    obtain ⟨c, hc, htried, hwater, hship⟩ :=
      human_attack_outcome x y g ships rnd fuel hx hy hp ht hgo h.botCount
    cases c with
    | WATER =>
      obtain ⟨a, -, -, hres⟩ := hwater rfl
      rw [hres] at hstep
      cases hstep
      exact hp
    | SHIP =>
      obtain ⟨a, v, -, -, -, h1, h0, hv01⟩ := hship rfl
      rcases hv01 with rfl | rfl
      · rw [h1 rfl] at hstep
        cases hstep
        exact hp
      · rw [h0 rfl] at hstep
        cases hstep
        exact hp
    | HIT =>
      rw [htried (Or.inl rfl)] at hstep
      cases hstep
      exact hp
    | MISS =>
      rw [htried (Or.inr rfl)] at hstep
      cases hstep
      exact hp
  · rw [handleMouseClick_idle x y g ships rnd fuel hA hB] at hstep
    cases hstep
    exact hp

/-- A turn of the bot never changes `isPlacingShips`. -/
theorem bot_keeps_phase {g g1 : Game} (h : g.Inv) (rnd : Nat → Nat) (fuel : Nat)
    (hstep : botTurn g rnd fuel = .ok g1) :
    g1.state.isPlacingShips = g.state.isPlacingShips := by
  by_cases hcond : g.state.playerTurn = 0 ∧ g.state.gameOver = 0
  · obtain ⟨ht, hgo⟩ := hcond
    obtain ⟨p, hpick⟩ := botTurn_pick g g1 rnd fuel ht hgo hstep
    obtain ⟨row, col⟩ := p
    obtain ⟨c, -, hcases, hwater, hship⟩ :=
      bot_attack_outcome g rnd fuel row col ht hgo h.playerCount hpick
    rcases hcases with rfl | rfl
    · obtain ⟨a, -, -, hres⟩ := hwater rfl
      rw [hres] at hstep
      cases hstep
      rfl
    · obtain ⟨a, v, -, -, -, h1, h0, hv01⟩ := hship rfl
      rcases hv01 with rfl | rfl
      · rw [h1 rfl] at hstep
        cases hstep
        rfl
      · rw [h0 rfl] at hstep
        cases hstep
        rfl
  · unfold botTurn at hstep
    rw [if_neg hcond] at hstep
    cases hstep
    rfl

/-- While the human places ships the bot's turn does nothing. -/
theorem botTurn_placing {g : Game} (h : g.Inv) (hp : g.state.isPlacingShips ≠ 0)
    (rnd : Nat → Nat) (fuel : Nat) : botTurn g rnd fuel = .ok g := by
  have ht := (h.placing hp).2.1
  unfold botTurn
  rw [if_neg (fun hc => ht hc.1)]

/-- A click during placement that is not an accepted placement changes the message only. -/
theorem placing_click_refused {g g1 : Game} (hp : g.state.isPlacingShips ≠ 0)
    (k : Fin 5) (hk : (k.val : Int) = g.state.currentShipIndex) (x y : Int) (rnd : Nat → Nat)
    (fuel : Nat) (hna : ¬ g.Accepts k x y)
    (hstep : handleMouseClick x y g ships rnd fuel = .ok g1) :
    g1.playerBoard = g.playerBoard ∧ g1.botBoard = g.botBoard ∧
    g1.state.currentShipIndex = g.state.currentShipIndex ∧
    g1.state.isPlacingShips = g.state.isPlacingShips ∧
    g1.state.isHorizontal = g.state.isHorizontal ∧
    g1.state.playerTurn = g.state.playerTurn ∧ g1.state.gameOver = g.state.gameOver := by
  have hkl := k.isLt
  have hidx : 0 ≤ g.state.currentShipIndex ∧ g.state.currentShipIndex < 5 := by omega
  have hkf : (⟨g.state.currentShipIndex.toNat, by omega⟩ : Fin 5) = k := by
    apply Fin.ext
    simp only
    omega
  by_cases hA : (150 ≤ x ∧ x < 500) ∧ (160 ≤ y ∧ y < 510)
  · obtain ⟨hx, hy⟩ := hA
    rw [handleMouseClick_placing x y g ships rnd fuel hx hy hp, templateAt_eq _ hidx, hkf] at hstep
    simp only [Exec.ok_bind] at hstep
    change (canPlaceShip g.playerBoard (gridCoord y 160) (gridCoord x 150) _ _ >>= _) = _
      at hstep
    cases hcan : canPlaceShip g.playerBoard (gridCoord y 160) (gridCoord x 150)
        (ships k).size g.state.isHorizontal with
    | ok r =>
      rcases canPlaceShip_result _ _ _ _ _ _ hcan with rfl | rfl
      · rw [hcan] at hstep
        simp only [Exec.ok_bind, ne_eq, not_true_eq_false, if_false, Exec.pure_eq] at hstep
        cases hstep
        exact ⟨rfl, rfl, rfl, rfl, rfl, rfl, rfl⟩
      · exact absurd ⟨hx, hy, hcan⟩ hna
    | outOfBounds => rw [hcan] at hstep; cases hstep
    | outOfFuel => rw [hcan] at hstep; cases hstep
  · have h1 : ¬ ((150 ≤ x ∧ x < 500) ∧ (160 ≤ y ∧ y < 510) ∧ g.state.isPlacingShips ≠ 0) :=
      fun hc => hA ⟨hc.1, hc.2.1⟩
    have h2 : ¬ ((650 ≤ x ∧ x < 1000) ∧ (160 ≤ y ∧ y < 510) ∧ g.state.isPlacingShips = 0 ∧
        g.state.playerTurn ≠ 0 ∧ g.state.gameOver = 0) := fun hc => hp hc.2.2.1
    rw [handleMouseClick_idle x y g ships rnd fuel h1 h2] at hstep
    cases hstep
    exact ⟨rfl, rfl, rfl, rfl, rfl, rfl, rfl⟩

/-- A click during placement that is an accepted placement. -/
theorem placing_click_accepted {g g1 : Game} (hp : g.state.isPlacingShips ≠ 0)
    (k : Fin 5) (hk : (k.val : Int) = g.state.currentShipIndex) (x y : Int) (rnd : Nat → Nat)
    (fuel : Nat) (ha : g.Accepts k x y)
    (hstep : handleMouseClick x y g ships rnd fuel = .ok g1) :
    placeFromTemplate g.playerBoard (ships k) (gridCoord y 160) (gridCoord x 150)
      g.state.isHorizontal g.state.currentShipIndex = .ok g1.playerBoard ∧
    g1.state.currentShipIndex = g.state.currentShipIndex + 1 ∧
    g1.playerBoard.numPlacedShips = addInt g.playerBoard.numPlacedShips 1 ∧
    g1.state.gameOver = g.state.gameOver ∧ g1.state.playerTurn = g.state.playerTurn ∧
    g1.state.isHorizontal = g.state.isHorizontal ∧
    (g.state.currentShipIndex < 4 →
      g1.state.isPlacingShips = g.state.isPlacingShips ∧ g1.botBoard = g.botBoard) ∧
    (g.state.currentShipIndex = 4 →
      g1.state.isPlacingShips = 0 ∧
      placeBotShips g.botBoard ships rnd fuel = .ok g1.botBoard) := by
  have hkl := k.isLt
  have hidx : 0 ≤ g.state.currentShipIndex ∧ g.state.currentShipIndex < 5 := by omega
  have hkf : (⟨g.state.currentShipIndex.toNat, by omega⟩ : Fin 5) = k := by
    apply Fin.ext
    simp only
    omega
  obtain ⟨hx, hy, hcan⟩ := ha
  have hin := click_inGrid x y 150 160 (by omega) (by omega)
  have hcan2 : canPlaceShip g.playerBoard (gridCoord y 160) (gridCoord x 150)
      (ships ⟨g.state.currentShipIndex.toNat, by omega⟩).size g.state.isHorizontal = .ok 1 := by
    rw [hkf]; exact hcan
  obtain ⟨h1, h2, h3, h4, -, h6, h7, h8⟩ :=
    placement_click_accepted x y g g1 rnd fuel hx hy hp hidx hcan2 hstep
  rw [hkf] at h1
  obtain ⟨pb, hpb, -, -, -, -, hnum⟩ := placeFromTemplate_spec g.playerBoard (ships k)
    (gridCoord y 160) (gridCoord x 150) g.state.isHorizontal g.state.currentShipIndex hin hidx
    hcan
  rw [h1] at hpb
  cases hpb
  exact ⟨h1, h2, hnum, h3, h4, h6, h7, h8⟩

/-- The placement invariant at the start and along every step of the game. -/
theorem Reachable.placingInv {g : Game} (h : Reachable g) (hp : g.state.isPlacingShips ≠ 0) :
    g.PlacingInv := by
  induction h with
  | start pb bb st =>
    exact ⟨rfl, rfl, rfl, Board.Reachable.init pb, noAttack_initBoard pb⟩
  | step g g1 hr hs ih =>
    have hI := hr.gameInv
    cases hs with
    | click _ x y rnd fuel hc =>
      by_cases hp0 : g.state.isPlacingShips = 0
      · exact absurd (click_battle_stays hI x y rnd fuel hp0 hc) hp
      · have hP := ih hp0
        obtain ⟨-, -, hi0, hi5, hpc, -⟩ := hI.placing hp0
        obtain ⟨k, hk⟩ : ∃ k : Fin 5, (k.val : Int) = g.state.currentShipIndex :=
          ⟨⟨g.state.currentShipIndex.toNat, by omega⟩, by simp only; omega⟩
        by_cases ha : g.Accepts k x y
        · obtain ⟨h1, -, -, -, h5, -, h7, h8⟩ :=
            placing_click_accepted hp0 k hk x y rnd fuel ha hc
          have hin := click_inGrid x y 150 160 ha.1 ha.2.1
          have hlt : g.state.currentShipIndex < 4 := by
            by_contra hge
            exact hp (h8 (by omega)).1
          obtain ⟨hf, hbb⟩ := h7 hlt
          rw [← hpc] at h1
          refine ⟨by rw [hf]; exact hP.flag, by rw [h5]; exact hP.turn,
            by rw [hbb]; exact hP.botEmpty, ?_, ?_⟩
          · exact Board.Reachable.place g.playerBoard g1.playerBoard k _ _ _ hP.player
              (by rw [hk, hpc]) hin ha.2.2 h1
          · exact noAttack_place hP.fresh (ships k) _ _ _ g.playerBoard.numPlacedShips hin
              (by omega) ha.2.2 h1
        · obtain ⟨h1, h2, -, h4, -, h6, -⟩ :=
            placing_click_refused hp0 k hk x y rnd fuel ha hc
          exact ⟨by rw [h4]; exact hP.flag, by rw [h6]; exact hP.turn,
            by rw [h2]; exact hP.botEmpty, by rw [h1]; exact hP.player,
            by rw [h1]; exact hP.fresh⟩
    | space hp0 =>
      have hP := ih hp0
      exact ⟨hP.flag, hP.turn, hP.botEmpty, hP.player, hP.fresh⟩
    | bot _ rnd fuel hb =>
      have hp0 : g.state.isPlacingShips ≠ 0 := by
        rw [← bot_keeps_phase hI rnd fuel hb]; exact hp
      rw [botTurn_placing hI hp0] at hb
      cases hb
      exact ih hp0
    | expire =>
      have hP := ih hp
      exact ⟨hP.flag, hP.turn, hP.botEmpty, hP.player, hP.fresh⟩

/-- A click during placement finishes, unless it is the fifth accepted placement and the
retry loops of `placeBotShips` do not finish. -/
theorem placing_click_finishes {g : Game} (hP : g.PlacingInv)
    (hp : g.state.isPlacingShips ≠ 0)
    (k : Fin 5) (hk : (k.val : Int) = g.state.currentShipIndex) (x y : Int) (rnd : Nat → Nat)
    (fuel : Nat)
    (hfin : k.val < 4 ∨ ¬ g.Accepts k x y ∨
      ∃ bb, placeBotShips (initBoard g.botBoard) ships rnd fuel = .ok bb) :
    ∃ g1, handleMouseClick x y g ships rnd fuel = .ok g1 := by
  have hkl := k.isLt
  have hidx : 0 ≤ g.state.currentShipIndex ∧ g.state.currentShipIndex < 5 := by omega
  have hkf : (⟨g.state.currentShipIndex.toNat, by omega⟩ : Fin 5) = k := by
    apply Fin.ext
    simp only
    omega
  by_cases hA : (150 ≤ x ∧ x < 500) ∧ (160 ≤ y ∧ y < 510)
  · obtain ⟨hx, hy⟩ := hA
    have hin := click_inGrid x y 150 160 hx hy
    have hsz := ships_size k
    obtain ⟨r, hcan⟩ := canPlaceShip_ok g.playerBoard (gridCoord y 160) (gridCoord x 150)
      (ships k).size g.state.isHorizontal hin (by simp only [INT_MAX]; omega)
    have hadd : addInt g.state.currentShipIndex 1 = g.state.currentShipIndex + 1 :=
      addInt_eq (by omega) (by omega)
    rw [handleMouseClick_placing x y g ships rnd fuel hx hy hp, templateAt_eq _ hidx, hkf]
    simp only [Exec.ok_bind]
    change ∃ g1, (canPlaceShip g.playerBoard (gridCoord y 160) (gridCoord x 150) _ _ >>= _) =
      .ok g1
    rw [hcan]
    rcases canPlaceShip_result _ _ _ _ _ _ hcan with rfl | rfl
    · simp only [Exec.ok_bind, ne_eq, not_true_eq_false, if_false, Exec.pure_eq]
      exact ⟨_, rfl⟩
    · obtain ⟨pb, hpb, -⟩ := placeFromTemplate_spec g.playerBoard (ships k) (gridCoord y 160)
        (gridCoord x 150) g.state.isHorizontal g.state.currentShipIndex hin hidx hcan
      simp only [Exec.ok_bind, ne_eq, one_ne_zero, not_false_eq_true, if_true]
      change ∃ g1, (placeFromTemplate g.playerBoard _ (gridCoord y 160) (gridCoord x 150) _ _
        >>= _) = .ok g1
      rw [hpb]
      simp only [Exec.ok_bind, showFeedbackMessage, hadd]
      by_cases h4 : g.state.currentShipIndex + 1 ≥ NUM_SHIPS
      · rw [if_pos h4]
        simp only [NUM_SHIPS] at h4
        rcases hfin with h | h | ⟨bb, hbb⟩
        · omega
        · exact absurd ⟨hx, hy, hcan⟩ h
        · rw [← hP.botEmpty] at hbb
          rw [hbb]
          exact ⟨_, rfl⟩
      · rw [if_neg h4]
        exact ⟨_, rfl⟩
  · have h1 : ¬ ((150 ≤ x ∧ x < 500) ∧ (160 ≤ y ∧ y < 510) ∧ g.state.isPlacingShips ≠ 0) :=
      fun hc => hA ⟨hc.1, hc.2.1⟩
    have h2 : ¬ ((650 ≤ x ∧ x < 1000) ∧ (160 ≤ y ∧ y < 510) ∧ g.state.isPlacingShips = 0 ∧
        g.state.playerTurn ≠ 0 ∧ g.state.gameOver = 0) := fun hc => hp hc.2.2.1
    exact ⟨g, handleMouseClick_idle x y g ships rnd fuel h1 h2⟩

/-- What a click does to a game in which the human places ships. -/
theorem placing_click {g : Game} (hI : g.Inv) (hP : g.PlacingInv)
    (hp : g.state.isPlacingShips ≠ 0)
    (k : Fin 5) (hk : (k.val : Int) = g.state.currentShipIndex) (x y : Int) (rnd : Nat → Nat)
    (fuel : Nat) (g1 : Game) (hstep : handleMouseClick x y g ships rnd fuel = .ok g1) :
    (g.Accepts k x y →
      placeFromTemplate g.playerBoard (ships k) (gridCoord y 160) (gridCoord x 150)
        g.state.isHorizontal g.state.currentShipIndex = .ok g1.playerBoard ∧
      g1.state.currentShipIndex = g.state.currentShipIndex + 1 ∧
      g1.playerBoard.numPlacedShips = g1.state.currentShipIndex ∧
      g1.state.playerTurn = 1 ∧ g1.state.gameOver = 0 ∧
      g1.playerBoard.NoAttack ∧ g1.botBoard.NoAttack ∧
      (k.val < 4 → g1.state.isPlacingShips = 1 ∧ g1.botBoard = g.botBoard) ∧
      (k.val = 4 → g1.state.isPlacingShips = 0 ∧
        placeBotShips (initBoard g.botBoard) ships rnd fuel = .ok g1.botBoard ∧
        g1.botBoard.numPlacedShips = 5 ∧ g1.botBoard.countCells CellState.SHIP = 17)) ∧
    (¬ g.Accepts k x y →
      g1.playerBoard = g.playerBoard ∧ g1.botBoard = g.botBoard ∧
      g1.state.currentShipIndex = g.state.currentShipIndex ∧
      g1.state.isPlacingShips = 1 ∧ g1.state.playerTurn = 1 ∧ g1.state.gameOver = 0) := by
  have hkl := k.isLt
  obtain ⟨hgo, -, hi0, hi5, hpc, -⟩ := hI.placing hp
  have hbNA : g.botBoard.NoAttack := by
    rw [hP.botEmpty]; exact noAttack_initBoard _
  constructor
  · intro ha
    obtain ⟨h1, h2, h3, h4, h5, -, h7, h8⟩ := placing_click_accepted hp k hk x y rnd fuel ha hstep
    have hin := click_inGrid x y 150 160 ha.1 ha.2.1
    have hNA1 : g1.playerBoard.NoAttack :=
      noAttack_place hP.fresh (ships k) _ _ _ g.state.currentShipIndex hin ⟨hi0, hi5⟩
        ha.2.2 h1
    have hnum : g1.playerBoard.numPlacedShips = g1.state.currentShipIndex := by
      rw [h3, h2, hpc]
      exact addInt_eq (by omega) (by omega)
    refine ⟨h1, h2, hnum, by rw [h5]; exact hP.turn, by rw [h4]; exact hgo, hNA1, ?_, ?_, ?_⟩
    · by_cases hlt : g.state.currentShipIndex < 4
      · rw [(h7 hlt).2]; exact hbNA
      · have hbot := (h8 (by omega)).2
        rw [hP.botEmpty] at hbot
        exact (placeBotShips_fresh _ _ rnd fuel hbot).2.1
    · intro hlt
      obtain ⟨hf, hbb⟩ := h7 (by omega)
      exact ⟨by rw [hf]; exact hP.flag, hbb⟩
    · intro h4k
      obtain ⟨hf, hbot⟩ := h8 (by omega)
      rw [hP.botEmpty] at hbot
      obtain ⟨hR, hNA, hn5⟩ := placeBotShips_fresh _ _ rnd fuel hbot
      exact ⟨hf, hbot, hn5, (fresh_fleet hR hNA hn5).2.2.2.2⟩
  · intro hna
    obtain ⟨h1, h2, h3, h4, -, h6, h7⟩ := placing_click_refused hp k hk x y rnd fuel hna hstep
    exact ⟨h1, h2, h3, by rw [h4]; exact hP.flag, by rw [h6]; exact hP.turn,
      by rw [h7]; exact hgo⟩

/-- Every step from a game in which the human places ships: the phase ends exactly when the
fifth ship is placed, and no cell of either board is attacked. -/
theorem placing_step {g g1 : Game} (hI : g.Inv) (hP : g.PlacingInv)
    (hp : g.state.isPlacingShips ≠ 0) (hs : Step g g1) :
    (g1.state.isPlacingShips = 0 ↔
      g.state.currentShipIndex = 4 ∧ g1.state.currentShipIndex = 5) ∧
    (g1.state.currentShipIndex = g.state.currentShipIndex ∨
      g1.state.currentShipIndex = g.state.currentShipIndex + 1) ∧
    g1.playerBoard.NoAttack ∧ g1.botBoard.NoAttack := by
  obtain ⟨hgo, -, hi0, hi5, hpc, -⟩ := hI.placing hp
  have hbNA : g.botBoard.NoAttack := by
    rw [hP.botEmpty]; exact noAttack_initBoard _
  have hsame : (g.state.isPlacingShips = 0 ↔
      g.state.currentShipIndex = 4 ∧ g.state.currentShipIndex = 5) :=
    ⟨fun h => absurd h hp, fun h => by omega⟩
  cases hs with
  | click _ x y rnd fuel hc =>
    obtain ⟨k, hk⟩ : ∃ k : Fin 5, (k.val : Int) = g.state.currentShipIndex :=
      ⟨⟨g.state.currentShipIndex.toNat, by omega⟩, by simp only; omega⟩
    have hkl := k.isLt
    obtain ⟨hacc, hrej⟩ := placing_click hI hP hp k hk x y rnd fuel g1 hc
    by_cases ha : g.Accepts k x y
    · obtain ⟨-, h2, -, -, -, h6, h7, h8, h9⟩ := hacc ha
      refine ⟨?_, Or.inr h2, h6, h7⟩
      by_cases hlt : k.val < 4
      · have hf := (h8 hlt).1
        constructor
        · intro h0; rw [hf] at h0; omega
        · intro h4; omega
      · have hf := (h9 (by omega)).1
        exact ⟨fun _ => ⟨by omega, by omega⟩, fun _ => hf⟩
    · obtain ⟨h1, h2, h3, h4, -, -⟩ := hrej ha
      refine ⟨?_, Or.inl h3, by rw [h1]; exact hP.fresh, by rw [h2]; exact hbNA⟩
      constructor
      · intro h0; rw [h4] at h0; omega
      · intro h; omega
  | space hp0 => exact ⟨hsame, Or.inl rfl, hP.fresh, hbNA⟩
  | bot _ rnd fuel hb =>
    rw [botTurn_placing hI hp] at hb
    cases hb
    exact ⟨hsame, Or.inl rfl, hP.fresh, hbNA⟩
  | expire => exact ⟨hsame, Or.inl rfl, hP.fresh, hbNA⟩

/-- A click in a state of the game never reads or writes outside the arrays. -/
theorem click_no_fault {g : Game} (h : g.Inv) (x y : Int) (rnd : Nat → Nat) (fuel : Nat) :
    handleMouseClick x y g ships rnd fuel ≠ .outOfBounds := by
  by_cases hA : (150 ≤ x ∧ x < 500) ∧ (160 ≤ y ∧ y < 510) ∧ g.state.isPlacingShips ≠ 0
  · obtain ⟨hx, hy, hp⟩ := hA
    obtain ⟨-, -, hi0, hi5, -, -⟩ := h.placing hp
    have hidx : 0 ≤ g.state.currentShipIndex ∧ g.state.currentShipIndex < 5 := ⟨hi0, hi5⟩
    have hin := click_inGrid x y 150 160 hx hy
    have hsz := ships_size ⟨g.state.currentShipIndex.toNat, by omega⟩
    obtain ⟨r, hcan⟩ := canPlaceShip_ok g.playerBoard (gridCoord y 160) (gridCoord x 150)
      (ships ⟨g.state.currentShipIndex.toNat, by omega⟩).size g.state.isHorizontal hin
      (by simp only [INT_MAX]; omega)
    have hadd : addInt g.state.currentShipIndex 1 = g.state.currentShipIndex + 1 :=
      addInt_eq (by omega) (by omega)
    rw [handleMouseClick_placing x y g ships rnd fuel hx hy hp, templateAt_eq _ hidx]
    simp only [Exec.ok_bind]
    change (canPlaceShip g.playerBoard (gridCoord y 160) (gridCoord x 150) _ _ >>= _) ≠ _
    rw [hcan]
    rcases canPlaceShip_result _ _ _ _ _ _ hcan with rfl | rfl
    · simp only [Exec.ok_bind, ne_eq, not_true_eq_false, if_false, Exec.pure_eq]
      intro hc; cases hc
    · obtain ⟨pb, hpb, -⟩ := placeFromTemplate_spec g.playerBoard
        (ships ⟨g.state.currentShipIndex.toNat, by omega⟩) (gridCoord y 160)
        (gridCoord x 150) g.state.isHorizontal g.state.currentShipIndex hin hidx hcan
      simp only [Exec.ok_bind, ne_eq, one_ne_zero, not_false_eq_true, if_true]
      change ¬ ((placeFromTemplate g.playerBoard _ (gridCoord y 160) (gridCoord x 150) _ _
        >>= _) = _)
      rw [hpb]
      simp only [Exec.ok_bind, showFeedbackMessage, hadd]
      by_cases h4 : g.state.currentShipIndex + 1 ≥ NUM_SHIPS
      · rw [if_pos h4]
        cases hb : placeBotShips g.botBoard ships rnd fuel with
        | ok bb => intro hc; cases hc
        | outOfBounds => exact absurd hb (placeBotShips_no_fault _ rnd fuel)
        | outOfFuel => intro hc; cases hc
      · rw [if_neg h4]
        intro hc; cases hc
  · by_cases hB : (650 ≤ x ∧ x < 1000) ∧ (160 ≤ y ∧ y < 510) ∧ g.state.isPlacingShips = 0 ∧
        g.state.playerTurn ≠ 0 ∧ g.state.gameOver = 0
    · obtain ⟨hx, hy, hp, ht, hgo⟩ := hB
      obtain ⟨c, hc, htried, hwater, hship⟩ :=
        human_attack_outcome x y g ships rnd fuel hx hy hp ht hgo h.botCount
      cases c with
      | WATER =>
        obtain ⟨a, -, -, hres⟩ := hwater rfl
        rw [hres]; intro hc; cases hc
      | SHIP =>
        obtain ⟨a, v, -, -, -, h1, h0, hv01⟩ := hship rfl
        rcases hv01 with rfl | rfl
        · rw [h1 rfl]; intro hc; cases hc
        · rw [h0 rfl]; intro hc; cases hc
      | HIT => rw [htried (Or.inl rfl)]; intro hc; cases hc
      | MISS => rw [htried (Or.inr rfl)]; intro hc; cases hc
    · rw [handleMouseClick_idle x y g ships rnd fuel hA hB]
      intro hc; cases hc

/-- The fifth accepted placement does not finish when every sample of `rand()` is 0. -/
theorem fifth_click_stuck {g : Game} (hr : Reachable g) (hp : g.state.isPlacingShips ≠ 0)
    (h4 : g.state.currentShipIndex = 4) (x y : Int) (ha : g.Accepts 4 x y) (fuel : Nat) :
    handleMouseClick x y g ships (fun _ => 0) fuel = .outOfFuel := by
  cases h : handleMouseClick x y g ships (fun _ => 0) fuel with
  | outOfFuel => rfl
  | outOfBounds => exact absurd h (click_no_fault hr.gameInv x y _ fuel)
  | ok g1 =>
    obtain ⟨-, -, -, -, -, -, -, h8⟩ :=
      placing_click_accepted hp 4 (by rw [h4]; rfl) x y _ fuel ha h
    have hbot := (h8 h4).2
    rw [placeBotShips_zero_stream] at hbot
    cases hbot

/-- C14, counterexample. The game after four placements is reachable and in placement, the
click at pixel (150, 300) is an accepted placement of the fifth ship, and with every sample of
`rand()` equal to 0 the click does not finish, however many rounds the retry loops of
`placeBotShips` are given: the battle phase is not entered. -/
theorem fifth_placement_may_not_finish :
    Reachable fourPlaced ∧ fourPlaced.state.isPlacingShips ≠ 0 ∧
    fourPlaced.state.currentShipIndex = 4 ∧ fourPlaced.Accepts 4 150 300 ∧
    ∀ fuel : Nat, handleMouseClick 150 300 fourPlaced ships (fun _ => 0) fuel = .outOfFuel :=
  ⟨playClicks_reachable _ _ (Reachable.start _ _ _), by decide, by decide, by decide,
    fun fuel => fifth_click_stuck (playClicks_reachable _ _ (Reachable.start _ _ _))
      (by decide) (by decide) 150 300 (by decide) fuel⟩

/-- C14, amended. The game starts in placement of ship 0 by the human (`currentShipIndex = 0`,
`isPlacingShips = 1`, `playerTurn = 1`, `gameOver = 0`, no ship on the player's board). In every
state reachable from the start in which placement is going on: `isPlacingShips = 1`,
`playerTurn = 1`, `gameOver = 0`, `currentShipIndex` lies in 0..4 and equals the player's
`numPlacedShips`, the bot's board is as `initBoard` left it and no cell of either board is
attacked; the bot's turn does nothing; a click that `canPlaceShip` accepts on the player's grid
places the catalog ship with index `currentShipIndex`, advances `currentShipIndex` by exactly one
and keeps it equal to `numPlacedShips`, with placement going on and the bot's board untouched
when it was one of the first four ships, and with `isPlacingShips = 0`, `playerTurn = 1`,
`gameOver = 0` and the bot's board the result of `placeBotShips` on the empty board (five ships,
17 `SHIP` cells) when it was the fifth; every other click leaves both boards, `currentShipIndex`
and the phase as they were; a click finishes unless it is the fifth accepted placement and the
retry loops of `placeBotShips` do not; and a step of the game ends placement exactly when it
takes `currentShipIndex` from 4 to 5, no step attacking a cell of either board. -/
theorem placement_phase (g : Game) (hr : Reachable g) (hp : g.state.isPlacingShips ≠ 0) :
    (∀ (pb bb : Board) (st : GameState),
      (startGame pb bb st).state.currentShipIndex = 0 ∧
      (startGame pb bb st).state.isPlacingShips = 1 ∧
      (startGame pb bb st).state.playerTurn = 1 ∧
      (startGame pb bb st).state.gameOver = 0 ∧
      (startGame pb bb st).playerBoard.numPlacedShips = 0) ∧
    (g.state.isPlacingShips = 1 ∧ g.state.playerTurn = 1 ∧ g.state.gameOver = 0 ∧
      0 ≤ g.state.currentShipIndex ∧ g.state.currentShipIndex < 5 ∧
      g.state.currentShipIndex = g.playerBoard.numPlacedShips ∧
      g.botBoard = initBoard g.botBoard ∧ g.playerBoard.NoAttack ∧ g.botBoard.NoAttack) ∧
    (∀ (rnd : Nat → Nat) (fuel : Nat), botTurn g rnd fuel = .ok g) ∧
    (∀ k : Fin 5, (k.val : Int) = g.state.currentShipIndex →
      ∀ (x y : Int) (rnd : Nat → Nat) (fuel : Nat),
        (∀ g1 : Game, handleMouseClick x y g ships rnd fuel = .ok g1 →
          (g.Accepts k x y →
            placeFromTemplate g.playerBoard (ships k) (gridCoord y 160) (gridCoord x 150)
              g.state.isHorizontal g.state.currentShipIndex = .ok g1.playerBoard ∧
            g1.state.currentShipIndex = g.state.currentShipIndex + 1 ∧
            g1.playerBoard.numPlacedShips = g1.state.currentShipIndex ∧
            g1.state.playerTurn = 1 ∧ g1.state.gameOver = 0 ∧
            g1.playerBoard.NoAttack ∧ g1.botBoard.NoAttack ∧
            (k.val < 4 → g1.state.isPlacingShips = 1 ∧ g1.botBoard = g.botBoard) ∧
            (k.val = 4 → g1.state.isPlacingShips = 0 ∧
              placeBotShips (initBoard g.botBoard) ships rnd fuel = .ok g1.botBoard ∧
              g1.botBoard.numPlacedShips = 5 ∧
              g1.botBoard.countCells CellState.SHIP = 17)) ∧
          (¬ g.Accepts k x y →
            g1.playerBoard = g.playerBoard ∧ g1.botBoard = g.botBoard ∧
            g1.state.currentShipIndex = g.state.currentShipIndex ∧
            g1.state.isPlacingShips = 1 ∧ g1.state.playerTurn = 1 ∧
            g1.state.gameOver = 0)) ∧
        ((k.val < 4 ∨ ¬ g.Accepts k x y ∨
            ∃ bb, placeBotShips (initBoard g.botBoard) ships rnd fuel = .ok bb) →
          ∃ g1, handleMouseClick x y g ships rnd fuel = .ok g1)) ∧
    (∀ g1 : Game, Step g g1 →
      (g1.state.isPlacingShips = 0 ↔
        g.state.currentShipIndex = 4 ∧ g1.state.currentShipIndex = 5) ∧
      (g1.state.currentShipIndex = g.state.currentShipIndex ∨
        g1.state.currentShipIndex = g.state.currentShipIndex + 1) ∧
      g1.playerBoard.NoAttack ∧ g1.botBoard.NoAttack) := by
  have hI := hr.gameInv
  have hP := hr.placingInv hp
  obtain ⟨hgo, -, hi0, hi5, hpc, -⟩ := hI.placing hp
  refine ⟨fun pb bb st => ⟨rfl, rfl, rfl, rfl, rfl⟩, ?_, ?_, ?_, ?_⟩
  · exact ⟨hP.flag, hP.turn, hgo, hi0, hi5, hpc.symm, hP.botEmpty, hP.fresh,
      by rw [hP.botEmpty]; exact noAttack_initBoard _⟩
  · exact fun rnd fuel => botTurn_placing hI hp rnd fuel
  · intro k hk x y rnd fuel
    exact ⟨fun g1 hstep => placing_click hI hP hp k hk x y rnd fuel g1 hstep,
      fun hfin => placing_click_finishes hP hp k hk x y rnd fuel hfin⟩
  · exact fun g1 hs => placing_step hI hP hp hs

/-- C14, amended, at a concrete input: the game after four placements, and the click that places the
fifth ship and starts the battle. -/
theorem placement_phase_witness :
    Reachable fourPlaced ∧ fourPlaced.state.isPlacingShips ≠ 0 ∧
    fourPlaced.state.currentShipIndex = fourPlaced.playerBoard.numPlacedShips ∧
    handleMouseClick 150 300 fourPlaced ships rowByRow 1 = .ok battleGame ∧
    battleGame.state.isPlacingShips = 0 ∧ battleGame.botBoard.numPlacedShips = 5 := by
  have hr : Reachable fourPlaced := playClicks_reachable _ _ (Reachable.start _ _ _)
  have h := placement_phase fourPlaced hr (by decide)
  have hc := ((h.2.2.2.1 4 (by decide) 150 300 rowByRow 1).1 battleGame (by rfl)).1 (by decide)
  exact ⟨hr, by decide, h.2.1.2.2.2.2.2.1, by rfl, (hc.2.2.2.2.2.2.2.2 rfl).1,
    (hc.2.2.2.2.2.2.2.2 rfl).2.2.1⟩

/-! ## Coordinates outside the grid -/

theorem isValidCoord_eq_zero_iff (row col : Int) : isValidCoord row col = 0 ↔ ¬ InGrid row col := by
  unfold isValidCoord InGrid
  simp only [GRID_SIZE]
  by_cases h : row ≥ 0 ∧ row < 10 ∧ col ≥ 0 ∧ col < 10
  · rw [if_pos h]
    simp only [one_ne_zero, false_iff, not_not]
    exact h
  · rw [if_neg h]
    simp only [true_iff]
    exact h

theorem isValidCoord_eq_one_iff (row col : Int) : isValidCoord row col = 1 ↔ InGrid row col := by
  unfold isValidCoord InGrid
  simp only [GRID_SIZE]
  by_cases h : row ≥ 0 ∧ row < 10 ∧ col ≥ 0 ∧ col < 10
  · rw [if_pos h]
    simp only [true_iff]
    exact h
  · rw [if_neg h]
    simp only [zero_ne_one, false_iff]
    exact h

/-- For a coordinate outside the grid the first statement of `attack`, the read of
`grid[row][col]`, lies outside the array. -/
theorem attack_outside_grid (board : Board) (row col : Int) (feedbackMsg : String)
    (h : ¬ InGrid row col) : attack board row col feedbackMsg = .outOfBounds := by
  unfold attack
  rw [board.cellAt_outOfBounds h]
  rfl

/-- C15, counterexample. Column 10 of row 0 is a coordinate outside 0..9 (`isValidCoord`
answers 0), and on the empty board `attack` does not reject it: it reads `grid[0][10]`, outside
the array. -/
theorem attack_does_not_reject :
    isValidCoord 0 10 = 0 ∧ attack emptyBoard 0 10 "" = .outOfBounds :=
  ⟨by decide, by rfl⟩

/-- C15, amended. `attack` does not validate its coordinate. For every board and every
coordinate with row or col outside 0..9 (those `isValidCoord` answers 0 for) it calls no check
and its first statement reads `grid[row][col]` outside the array; for every coordinate in 0..9
(those `isValidCoord` answers 1 for) on a board with at most five ships placed it returns. The
callers keep the coordinate in range: a click of the human on the bot's grid gives a row and a
column in 0..9, the loop of `botTurn` ends with a row and a column in 0..9, and in every state
reachable from the start of the game neither `handleMouseClick` nor `botTurn` reads or writes
outside the arrays. -/
theorem attack_leaves_validation_to_callers (board : Board) (row col : Int)
    (feedbackMsg : String) :
    (isValidCoord row col = 0 → attack board row col feedbackMsg = .outOfBounds) ∧
    (isValidCoord row col = 1 → board.numPlacedShips ≤ 5 →
      ∃ a, attack board row col feedbackMsg = .ok a) ∧
    (∀ x y : Int, 650 ≤ x ∧ x < 1000 → 160 ≤ y ∧ y < 510 →
      isValidCoord (gridCoord y 160) (gridCoord x 650) = 1) ∧
    (∀ (b : Board) (rnd : Nat → Nat) (fuel k : Nat) (r c : Int),
      botPick b rnd fuel k = .ok (r, c) → isValidCoord r c = 1) ∧
    (∀ g : Game, Reachable g → ∀ (x y : Int) (rnd : Nat → Nat) (fuel : Nat),
      handleMouseClick x y g ships rnd fuel ≠ .outOfBounds ∧
      botTurn g rnd fuel ≠ .outOfBounds) := by
  refine ⟨?_, ?_, ?_, ?_, ?_⟩
  · intro h
    exact attack_outside_grid board row col feedbackMsg ((isValidCoord_eq_zero_iff row col).1 h)
  · intro h hn
    exact attack_finishes board row col feedbackMsg hn ((isValidCoord_eq_one_iff row col).1 h)
  · intro x y hx hy
    exact (isValidCoord_eq_one_iff _ _).2 (click_inGrid x y 650 160 hx hy)
  · intro b rnd fuel k r c h
    exact (isValidCoord_eq_one_iff _ _).2 (botPick_valid b rnd fuel k r c h)
  · intro g hr x y rnd fuel
    exact ⟨click_no_fault hr.gameInv x y rnd fuel, botTurn_no_fault hr.gameInv rnd fuel⟩

/-- C15, amended, at concrete inputs: row -1 outside the grid and the corner (0, 0) inside it,
on the empty board. -/
theorem attack_leaves_validation_to_callers_witness :
    isValidCoord (-1) 3 = 0 ∧ attack emptyBoard (-1) 3 "" = .outOfBounds ∧
    isValidCoord 0 0 = 1 ∧ ∃ a, attack emptyBoard 0 0 "" = .ok a :=
  ⟨by decide, (attack_leaves_validation_to_callers emptyBoard (-1) 3 "").1 (by decide),
    by decide,
    (attack_leaves_validation_to_callers emptyBoard 0 0 "").2.1 (by decide) (by decide)⟩

/-! ## The human input path stays inside the arrays -/

/-- After `canPlaceShip` has returned 1 for an anchor inside the grid, `placeShip` writes inside
the arrays only, whatever the ship index. -/
theorem placeShip_ok_of_canPlaceShip (board : Board) (row col size horizontal idx : Int)
    (hin : InGrid row col) (hcan : canPlaceShip board row col size horizontal = .ok 1) :
    (∀ i : Int, 0 ≤ i → i < size →
      InGrid (footprintCell row col horizontal i).1 (footprintCell row col horizontal i).2) ∧
    ∃ b1, placeShip board row col size horizontal idx = .ok b1 := by
  have hfoot : ∀ i : Int, 0 ≤ i → i < size →
      InGrid (footprintCell row col horizontal i).1 (footprintCell row col horizontal i).2 :=
    fun i hi0 hi =>
      Board.cellAt_inGrid (footprint_of_canPlaceShip board row col size horizontal hin hcan i hi0 hi)
  refine ⟨hfoot, ?_⟩
  by_cases hidx : 0 ≤ idx ∧ idx < 5
  · obtain ⟨b1, hb1, -⟩ := placeShip_spec board row col size horizontal idx hidx hfoot
    exact ⟨b1, hb1⟩
  · have hg : idx < 0 ∨ idx ≥ NUM_SHIPS := by simp only [NUM_SHIPS]; omega
    unfold placeShip
    rw [if_pos hg]
    exact ⟨board, rfl⟩

/-- C16, counterexample. The anchor (0, 9) lies in 0..9 and the size `INT_MAX` is not negative,
yet the horizontal `canPlaceShip` reads outside the grid: `col + size` wraps below `GRID_SIZE`,
the test lets the loop run, and its second round reads column 10. -/
theorem canPlaceShip_wraps :
    InGrid 0 9 ∧ (0 : Int) ≤ 2147483647 ∧
    canPlaceShip emptyBoard 0 9 2147483647 1 = .outOfBounds := by
  refine ⟨by decide, by decide, ?_⟩
  rfl

/-- C16, amended. In every state reachable from the start of the game and for every click
position: `handleMouseClick` never reads or writes outside the grid, the ship array or the
catalog; a click on the player's grid or on the bot's grid gives a row and a column in 0..9;
during placement the ship index `currentShipIndex` lies in 0..4. For every board, every anchor in
0..9, every size from 0 to `INT_MAX - 9` (the lengths of the catalog among them) and either
orientation `canPlaceShip` reads inside the grid only and returns 0 or 1; and whenever
`canPlaceShip` returns 1, for a size of any value, every cell of the footprint lies inside the
grid and `placeShip` writes inside the arrays only. -/
theorem human_input_in_range (g : Game) (hr : Reachable g) :
    (∀ (x y : Int) (rnd : Nat → Nat) (fuel : Nat),
      handleMouseClick x y g ships rnd fuel ≠ .outOfBounds) ∧
    (∀ x y : Int, 150 ≤ x ∧ x < 500 → 160 ≤ y ∧ y < 510 →
      InGrid (gridCoord y 160) (gridCoord x 150)) ∧
    (∀ x y : Int, 650 ≤ x ∧ x < 1000 → 160 ≤ y ∧ y < 510 →
      InGrid (gridCoord y 160) (gridCoord x 650)) ∧
    (g.state.isPlacingShips ≠ 0 →
      0 ≤ g.state.currentShipIndex ∧ g.state.currentShipIndex < 5) ∧
    (∀ (board : Board) (row col size horizontal : Int), InGrid row col →
      0 ≤ size → size ≤ INT_MAX - 9 →
      ∃ r, canPlaceShip board row col size horizontal = .ok r ∧ (r = 0 ∨ r = 1)) ∧
    (∀ (board : Board) (row col size horizontal idx : Int), InGrid row col →
      canPlaceShip board row col size horizontal = .ok 1 →
      (∀ i : Int, 0 ≤ i → i < size →
        InGrid (footprintCell row col horizontal i).1 (footprintCell row col horizontal i).2) ∧
      ∃ b1, placeShip board row col size horizontal idx = .ok b1) := by
  have hI := hr.gameInv
  refine ⟨fun x y rnd fuel => click_no_fault hI x y rnd fuel,
    fun x y hx hy => click_inGrid x y 150 160 hx hy,
    fun x y hx hy => click_inGrid x y 650 160 hx hy, ?_, ?_, ?_⟩
  · intro hp
    obtain ⟨-, -, hi0, hi5, -, -⟩ := hI.placing hp
    exact ⟨hi0, hi5⟩
  · intro board row col size horizontal hin h0 hmax
    obtain ⟨r, hr1⟩ := canPlaceShip_ok board row col size horizontal hin ⟨h0, hmax⟩
    exact ⟨r, hr1, canPlaceShip_result _ _ _ _ _ _ hr1⟩
  · intro board row col size horizontal idx hin hcan
    exact placeShip_ok_of_canPlaceShip board row col size horizontal idx hin hcan

/-- C16 at a concrete input: the game after four placements, the click that places the fifth
ship, and the Destroyer on the empty board. -/
theorem human_input_in_range_witness :
    Reachable fourPlaced ∧
    handleMouseClick 150 300 fourPlaced ships rowByRow 1 ≠ .outOfBounds ∧
    (∃ r, canPlaceShip emptyBoard 0 9 2 1 = .ok r ∧ (r = 0 ∨ r = 1)) := by
  have hr : Reachable fourPlaced := playClicks_reachable _ _ (Reachable.start _ _ _)
  have h := human_input_in_range fourPlaced hr
  exact ⟨hr, h.1 150 300 rowByRow 1,
    h.2.2.2.2.1 emptyBoard 0 9 2 1 (by decide) (by decide) (by decide)⟩

end Battleship
